import Mathlib

/-!
# The websocket hub of `backend/internal/websocket`

A shallow embedding of `hub.go` and `client.go`.

* A `*Client` is an index into a heap of client objects (`Hub.heap`); the
  heap grows by `NewClient` only.
* Go maps are association lists; a Go set (`map[K]bool` that only ever stores
  `true`) is a list without repetitions.  A `range` loop visits the entries in
  list order.
* A `chan []byte` is its buffer, its capacity and its closed flag.  Sending on
  a closed channel and closing a closed channel panic; a panic, like the
  dereference of a pointer that is not in the heap, is the result `none`.
* `encoding/json`, `uuid.New()` and `time.Now()` are inputs: the codec is a
  parameter, fresh ids and timestamps are arguments.
-/

namespace Websocket

/-! ## Data model -/

/-- A `uuid.UUID`; `0` stands for the zero value `uuid.Nil`. -/
abbrev UUID := Nat

/-- A `[]byte`. -/
abbrev Bytes := List Char

/-- A `*Client`: the index of the client object in the heap. -/
abbrev Ptr := Nat

/-- The Go type `MessageType`, a string. -/
abbrev MessageType := String

def MessageTypeConnect : MessageType := "connect"
def MessageTypeDisconnect : MessageType := "disconnect"
def MessageTypePing : MessageType := "ping"
def MessageTypePong : MessageType := "pong"
def MessageTypeResourceUpdate : MessageType := "resource_update"
def MessageTypeBuildingUpdate : MessageType := "building_update"
def MessageTypeDistrictUpdate : MessageType := "district_update"
def MessageTypeGuildUpdate : MessageType := "guild_update"
def MessageTypeBattleEvent : MessageType := "battle_event"
def MessageTypeNotification : MessageType := "notification"
def MessageTypeChatGuild : MessageType := "chat_guild"
def MessageTypeChatDistrict : MessageType := "chat_district"
def MessageTypeChatPrivate : MessageType := "chat_private"

/-- The struct `Message` of hub.go. -/
structure Message where
  ID : String
  Type_ : MessageType
  UserID : UUID
  Timestamp : Nat
  Data : Bytes
deriving DecidableEq

/-- A buffered `chan []byte`: queued messages (oldest first), capacity, and
whether `close` was called on it. -/
structure Chan where
  buf : List Bytes
  cap : Nat
  closed : Bool
deriving DecidableEq

/-- The struct `Client` of hub.go, without the connection and the mutex.
`Rooms` is the key set of the Go `map[string]bool`, whose values are only
ever `true`. -/
structure Client where
  ID : UUID
  UserID : UUID
  Send : Chan
  Rooms : List String
deriving DecidableEq

/-- The struct `Room` of hub.go; `Clients` is the key set of
`map[*Client]bool`. -/
structure Room where
  ID : String
  Clients : List Ptr
deriving DecidableEq

/-- The struct `Hub` of hub.go together with the heap of client objects its
pointers refer to.  The three hub channels are not part of the state: the
operations that `Run` dispatches to are called directly. -/
structure Hub where
  clients : List (UUID × Ptr)
  rooms : List (String × Room)
  heap : List Client
deriving DecidableEq

/-- The functions of `encoding/json` the hub calls. -/
structure Codec where
  /-- The call `json.Marshal(msg)` on a `*Message`; `none` is an error. -/
  marshal : Message → Option Bytes
  /-- The call `json.Unmarshal(data, &msgData)` into
  `struct { RoomID string }`; `none` is an error. -/
  unmarshalRoomID : Bytes → Option String
  /-- The payload literal of the connect envelope. -/
  connectData : Bytes
  /-- The connect envelope, whose payload is a JSON literal, always
  serializes. -/
  marshal_connect : ∀ (id : String) (ts : Nat),
    (marshal { ID := id, Type_ := MessageTypeConnect, UserID := 0,
               Timestamp := ts, Data := connectData }).isSome = true

/-! ## Go maps and sets as lists -/

/-- The lookup `m[k]` with its `ok` flag. -/
def mapGet {K V : Type} [DecidableEq K] : List (K × V) → K → Option V
  | [], _ => none
  | (k', v) :: m, k => if k' = k then some v else mapGet m k

/-- The assignment `m[k] = v`: overwrite the entry of `k`, or add one. -/
def mapSet {K V : Type} [DecidableEq K] : List (K × V) → K → V → List (K × V)
  | [], k, v => [(k, v)]
  | (k', v') :: m, k, v => if k' = k then (k, v) :: m else (k', v') :: mapSet m k v

/-- The builtin `delete(m, k)`. -/
def mapDelete {K V : Type} [DecidableEq K] (m : List (K × V)) (k : K) : List (K × V) :=
  m.filter (fun e => decide (e.1 ≠ k))

/-- The assignment `set[x] = true`. -/
def setAdd {A : Type} [DecidableEq A] (xs : List A) (x : A) : List A :=
  if x ∈ xs then xs else xs ++ [x]

/-- The builtin `delete(set, x)`. -/
def setDel {A : Type} [DecidableEq A] (xs : List A) (x : A) : List A :=
  xs.filter (fun y => decide (y ≠ x))

/-! ## Channels -/

/-- The statement `select { case ch <- data: default: }`: panics on a closed
channel, enqueues when there is room, and otherwise takes the default
branch. -/
def trySend (ch : Chan) (data : Bytes) : Option Chan :=
  if ch.closed then none
  else if ch.buf.length < ch.cap then some { ch with buf := ch.buf ++ [data] }
  else some ch

/-- The builtin `close(ch)`: panics on a closed channel. -/
def closeChan (ch : Chan) : Option Chan :=
  if ch.closed then none else some { ch with closed := true }

/-- The non-blocking send to `client.Send` for the client at `p`. -/
def sendTo (heap : List Client) (p : Ptr) (data : Bytes) : Option (List Client) :=
  match heap[p]? with
  | none => none
  | some c =>
    match trySend c.Send data with
    | none => none
    | some ch => some (heap.set p { c with Send := ch })

/-- The loop `for ... range targets { if cond { select { case client.Send <- data: default: } } }`
shared by the four delivery functions. -/
def rangeSend (cond : Client → Bool) (data : Bytes) : List Ptr → List Client → Option (List Client)
  | [], heap => some heap
  | p :: ps, heap =>
    match heap[p]? with
    | none => none
    | some c =>
      if cond c then
        match sendTo heap p data with
        | none => none
        | some heap1 => rangeSend cond data ps heap1
      else rangeSend cond data ps heap

/-! ## client.go -/

/-- The constructor `NewClient`: allocates a client with the given fresh id,
an open queue of capacity 256 and no rooms; returns the new state and the
pointer. -/
def NewClient (h : Hub) (id userID : UUID) : Hub × Ptr :=
  ({ h with heap := h.heap ++ [{ ID := id, UserID := userID,
                                 Send := { buf := [], cap := 256, closed := false },
                                 Rooms := [] }] },
   h.heap.length)

/-- The method `Client.SendMessage`; `jsonData` is the result of
`json.Marshal(data)`.  The second component tells whether the returned error
is non-nil: the `default` branch returns the `err` of the last successful
`json.Marshal`, which is nil. -/
def SendMessage (J : Codec) (h : Hub) (p : Ptr) (messageType : MessageType)
    (jsonData : Option Bytes) (msgID : String) (now : Nat) : Option (Hub × Bool) :=
  match h.heap[p]? with
  | none => none
  | some _ =>
    match jsonData with
    | none => some (h, true)
    | some jd =>
      match J.marshal { ID := msgID, Type_ := messageType, UserID := 0,
                        Timestamp := now, Data := jd } with
      | none => some (h, true)
      | some msgBytes =>
        match sendTo h.heap p msgBytes with
        | none => none
        | some heap1 => some ({ h with heap := heap1 }, false)

/-- The method `Client.sendError`; `jsonData` is the serialized
`{"error": errorMsg}` map. -/
def sendError (J : Codec) (h : Hub) (p : Ptr) (jsonData : Bytes)
    (msgID : String) (now : Nat) : Option Hub :=
  match h.heap[p]? with
  | none => none
  | some _ =>
    match J.marshal { ID := msgID, Type_ := "error", UserID := 0,
                      Timestamp := now, Data := jsonData } with
    | none => some h
    | some msgBytes =>
      match sendTo h.heap p msgBytes with
      | none => none
      | some heap1 => some { h with heap := heap1 }

/-- One receive `<-c.Send` by the writer, on a queue that holds a message. -/
def recv (h : Hub) (p : Ptr) : Option (Hub × Bytes) :=
  match h.heap[p]? with
  | none => none
  | some c =>
    match c.Send.buf with
    | [] => none
    | m :: rest =>
      some ({ h with heap := h.heap.set p { c with Send := { c.Send with buf := rest } } }, m)

/-! ## hub.go -/

/-- The constructor `NewHub`. -/
def NewHub : Hub := { clients := [], rooms := [], heap := [] }

/-- The method `registerClient`. -/
def registerClient (J : Codec) (h : Hub) (p : Ptr) (msgID : String) (now : Nat) : Option Hub :=
  match h.heap[p]? with
  | none => none
  | some c =>
    let clients1 := mapSet h.clients c.ID p
    match J.marshal { ID := msgID, Type_ := MessageTypeConnect, UserID := 0,
                      Timestamp := now, Data := J.connectData } with
    | none => some { h with clients := clients1 }
    | some data =>
      match sendTo h.heap p data with
      | none => none
      | some heap1 => some { h with clients := clients1, heap := heap1 }

/-- The method `removeFromRoom`. -/
def removeFromRoom (h : Hub) (p : Ptr) (roomID : String) : Option Hub :=
  match mapGet h.rooms roomID with
  | none => some h
  | some room =>
    match h.heap[p]? with
    | none => none
    | some c =>
      let room1 : Room := { room with Clients := setDel room.Clients p }
      let heap1 := h.heap.set p { c with Rooms := setDel c.Rooms roomID }
      if room1.Clients.length = 0 then
        some { h with rooms := mapDelete h.rooms roomID, heap := heap1 }
      else
        some { h with rooms := mapSet h.rooms roomID room1, heap := heap1 }

/-- The method `LeaveRoom`. -/
def LeaveRoom (h : Hub) (p : Ptr) (roomID : String) : Option Hub :=
  removeFromRoom h p roomID

/-- The loop `for roomID := range client.Rooms { h.removeFromRoom(client, roomID) }`
of `unregisterClient`, over the keys the map holds when the loop starts (the
body deletes no key but the current one). -/
def removeFromRooms (p : Ptr) : List String → Hub → Option Hub
  | [], h => some h
  | r :: rs, h =>
    match removeFromRoom h p r with
    | none => none
    | some h1 => removeFromRooms p rs h1

/-- The method `unregisterClient`. -/
def unregisterClient (h : Hub) (p : Ptr) : Option Hub :=
  match h.heap[p]? with
  | none => none
  | some c =>
    match mapGet h.clients c.ID with
    | none => some h
    | some _ =>
      match removeFromRooms p c.Rooms h with
      | none => none
      | some h1 =>
        match h1.heap[p]? with
        | none => none
        | some c1 =>
          match closeChan c1.Send with
          | none => none
          | some ch =>
            some { clients := mapDelete h1.clients c.ID, rooms := h1.rooms,
                   heap := h1.heap.set p { c1 with Send := ch } }

/-- The method `JoinRoom`. -/
def JoinRoom (h : Hub) (p : Ptr) (roomID : String) : Option Hub :=
  match h.heap[p]? with
  | none => none
  | some c =>
    let room : Room :=
      match mapGet h.rooms roomID with
      | some room => room
      | none => { ID := roomID, Clients := [] }
    let room1 : Room := { room with Clients := setAdd room.Clients p }
    some { h with rooms := mapSet h.rooms roomID room1,
                  heap := h.heap.set p { c with Rooms := setAdd c.Rooms roomID } }

/-- The method `broadcastToAll`. -/
def broadcastToAll (J : Codec) (h : Hub) (message : Message) : Option Hub :=
  match J.marshal message with
  | none => some h
  | some data =>
    match rangeSend (fun _ => true) data (h.clients.map Prod.snd) h.heap with
    | none => none
    | some heap1 => some { h with heap := heap1 }

/-- The method `broadcastToRoom`. -/
def broadcastToRoom (J : Codec) (h : Hub) (message : Message) : Option Hub :=
  match J.unmarshalRoomID message.Data with
  | none => some h
  | some roomID =>
    match mapGet h.rooms roomID with
    | none => some h
    | some room =>
      match J.marshal message with
      | none => some h
      | some data =>
        match rangeSend (fun _ => true) data room.Clients h.heap with
        | none => none
        | some heap1 => some { h with heap := heap1 }

/-- The method `sendToUser`. -/
def sendToUser (J : Codec) (h : Hub) (userID : UUID) (message : Message) : Option Hub :=
  match J.marshal message with
  | none => some h
  | some data =>
    match rangeSend (fun c => decide (c.UserID = userID)) data (h.clients.map Prod.snd) h.heap with
    | none => none
    | some heap1 => some { h with heap := heap1 }

/-- The method `handleMessage`. -/
def handleMessage (J : Codec) (h : Hub) (message : Message) : Option Hub :=
  if message.Type_ = MessageTypeChatGuild ∨ message.Type_ = MessageTypeChatDistrict then
    broadcastToRoom J h message
  else if message.Type_ = MessageTypeResourceUpdate ∨ message.Type_ = MessageTypeBuildingUpdate
      ∨ message.Type_ = MessageTypeDistrictUpdate then
    sendToUser J h message.UserID message
  else
    broadcastToAll J h message

/-- The method `pingClients`; the ping envelope has no payload. -/
def pingClients (J : Codec) (h : Hub) (msgID : String) (now : Nat) : Option Hub :=
  match J.marshal { ID := msgID, Type_ := MessageTypePing, UserID := 0,
                    Timestamp := now, Data := [] } with
  | none => some h
  | some data =>
    match rangeSend (fun _ => true) data (h.clients.map Prod.snd) h.heap with
    | none => none
    | some heap1 => some { h with heap := heap1 }

/-! ## Reachable states -/

/-- The states the hub and its clients can be in: `NewHub()` followed by any
finite sequence of calls that return.  `uuid.New()` yields an id no client
holds yet. -/
inductive Reachable (J : Codec) : Hub → Prop
  | init : Reachable J NewHub
  | newClient {h : Hub} (id userID : UUID) :
      Reachable J h → id ∉ h.heap.map Client.ID → Reachable J (NewClient h id userID).1
  | register {h h1 : Hub} (p : Ptr) (msgID : String) (now : Nat) :
      Reachable J h → registerClient J h p msgID now = some h1 → Reachable J h1
  | unregister {h h1 : Hub} (p : Ptr) :
      Reachable J h → unregisterClient h p = some h1 → Reachable J h1
  | join {h h1 : Hub} (p : Ptr) (roomID : String) :
      Reachable J h → JoinRoom h p roomID = some h1 → Reachable J h1
  | leave {h h1 : Hub} (p : Ptr) (roomID : String) :
      Reachable J h → LeaveRoom h p roomID = some h1 → Reachable J h1
  | handle {h h1 : Hub} (message : Message) :
      Reachable J h → handleMessage J h message = some h1 → Reachable J h1
  | ping {h h1 : Hub} (msgID : String) (now : Nat) :
      Reachable J h → pingClients J h msgID now = some h1 → Reachable J h1
  | sendMessage {h h1 : Hub} (p : Ptr) (t : MessageType) (jd : Option Bytes)
      (msgID : String) (now : Nat) (e : Bool) :
      Reachable J h → SendMessage J h p t jd msgID now = some (h1, e) → Reachable J h1
  | sendError {h h1 : Hub} (p : Ptr) (jd : Bytes) (msgID : String) (now : Nat) :
      Reachable J h → sendError J h p jd msgID now = some h1 → Reachable J h1
  | recv {h h1 : Hub} (p : Ptr) (m : Bytes) :
      Reachable J h → recv h p = some (h1, m) → Reachable J h1

/-- Whether the client at `p` is in the client registry under its own id. -/
def Registered (h : Hub) (p : Ptr) : Prop :=
  ∃ c, h.heap[p]? = some c ∧ mapGet h.clients c.ID = some p

/-- Whether the client at `p` is in the member set of room `r`. -/
def Member (h : Hub) (p : Ptr) (r : String) : Prop :=
  ∃ room, mapGet h.rooms r = some room ∧ p ∈ room.Clients

/-- Whether room id `r` is in the room set of the client at `p`. -/
def InRooms (h : Hub) (p : Ptr) (r : String) : Prop :=
  ∃ c, h.heap[p]? = some c ∧ r ∈ c.Rooms

/-- What a non-blocking send does to the queue of a client whose queue is
open. -/
def offer (c : Client) (data : Bytes) : Client :=
  if c.Send.buf.length < c.Send.cap then
    { c with Send := { c.Send with buf := c.Send.buf ++ [data] } }
  else c

/-! ## A concrete codec and concrete states -/

/-- A codec for concrete runs: every envelope serializes to its type
followed by its payload, and the payload is the room id. -/
def demoCodec : Codec where
  marshal m := some (m.Type_.toList ++ m.Data)
  unmarshalRoomID d := some (String.mk d)
  connectData := []
  marshal_connect _ _ := rfl

/-! ## Invariants -/

/-- Two heaps with the same pointers whose clients are related one by one. -/
def HeapRel (R : Client → Client → Prop) (heap heap1 : List Client) : Prop :=
  heap1.length = heap.length ∧
    ∀ (p : Ptr) (c : Client), heap[p]? = some c → ∃ c1, heap1[p]? = some c1 ∧ R c c1

/-- The client `c1` is `c` up to the contents of its queue, which did not
grow beyond its capacity. -/
def QueueRel (c c1 : Client) : Prop :=
  c1.ID = c.ID ∧ c1.UserID = c.UserID ∧ c1.Rooms = c.Rooms ∧
    c1.Send.closed = c.Send.closed ∧ c1.Send.cap = c.Send.cap ∧
    (c1.Send.buf.length ≤ c.Send.buf.length ∨ c1.Send.buf.length ≤ c.Send.cap)

/-- The client `c1` is `c` up to its room set. -/
def RoomsRel (c c1 : Client) : Prop :=
  c1.ID = c.ID ∧ c1.UserID = c.UserID ∧ c1.Send = c.Send

/-- The invariant of the room registry: membership is symmetric, no
registered room is empty, and no room lists a member twice. -/
structure RoomsInv (h : Hub) : Prop where
  sym : ∀ p r, Member h p r ↔ InRooms h p r
  nonempty : ∀ r room, mapGet h.rooms r = some room → room.Clients ≠ []
  members : ∀ r room, mapGet h.rooms r = some room → room.Clients.Nodup

/-- The invariant of the client registry: every entry points to a client
with that id and an open queue, and no key occurs twice. -/
structure RegInv (h : Hub) : Prop where
  reg : ∀ k p, mapGet h.clients k = some p →
    ∃ c, h.heap[p]? = some c ∧ c.ID = k ∧ c.Send.closed = false
  keys : (h.clients.map Prod.fst).Nodup

/-- The invariant of the heap: ids are unique and every queue has capacity
256 and holds at most 256 messages. -/
structure HeapInv (h : Hub) : Prop where
  ids : ∀ (p q : Ptr) (c d : Client), h.heap[p]? = some c → h.heap[q]? = some d → c.ID = d.ID → p = q
  bound : ∀ (p : Ptr) (c : Client), h.heap[p]? = some c → c.Send.cap = 256 ∧ c.Send.buf.length ≤ 256

/-- The invariant of the reachable states. -/
structure Inv (h : Hub) : Prop where
  rooms : RoomsInv h
  registry : RegInv h
  heap : HeapInv h

/-- Any finite sequence of `JoinRoom` and `LeaveRoom` calls that return, on any
clients and room ids. -/
inductive JoinLeave : Hub → Hub → Prop
  | refl (h : Hub) : JoinLeave h h
  | join {h h1 h2 : Hub} (q : Ptr) (r : String) :
      JoinLeave h h1 → JoinRoom h1 q r = some h2 → JoinLeave h h2
  | leave {h h1 h2 : Hub} (q : Ptr) (r : String) :
      JoinLeave h h1 → LeaveRoom h1 q r = some h2 → JoinLeave h h2

/-- Connection A (pointer 0, id 1) of user 10 is allocated. -/
def stepA1 : Hub := (NewClient NewHub 1 10).1

/-- Connection A is registered. -/
def stepA2 : Hub := (registerClient demoCodec stepA1 0 "c1" 100).getD stepA1

/-- Connection A has joined `guild:7`. -/
def stepA3 : Hub := (JoinRoom stepA2 0 "guild:7").getD stepA2

/-- Connection B (pointer 1, id 2) of the same user 10 is allocated. -/
def stepA4 : Hub := (NewClient stepA3 2 10).1

/-- Scenario A of the specification: A and B of user 10 are registered, and
only A is in `guild:7`. -/
def scenarioA : Hub := (registerClient demoCodec stepA4 1 "c2" 101).getD stepA4

/-- Whether the client at `p` is allocated and its queue is open. -/
def queueOpen (h : Hub) (p : Ptr) : Bool :=
  match h.heap[p]? with
  | some c => !c.Send.closed
  | none => false

/-- The length of the queue of the client at `p`. -/
def queueLen (h : Hub) (p : Ptr) : Nat :=
  match h.heap[p]? with
  | some c => c.Send.buf.length
  | none => 0

/-- The live connections of user `u`: the clients in the client registry whose
`UserID` is `u`. -/
def connectionsOf (h : Hub) (u : UUID) : List Ptr :=
  (h.clients.map Prod.snd).filter fun p =>
    match h.heap[p]? with
    | some c => decide (c.UserID = u)
    | none => false

/-- The clients whose queue is exactly one message longer in `h1` than in `h`. -/
def grown (h h1 : Hub) : List Ptr :=
  (List.range h.heap.length).filter fun p => decide (queueLen h1 p = queueLen h p + 1)

/-- The step from `h` to `h1` delivered `data` to the clients selected by
`target` and to nobody else: a targeted client whose queue has room gets
`data` appended at the tail, a targeted client whose queue is full keeps its
queue as it was, every other client is unchanged, and so are the two
registries. -/
def Delivered (h h1 : Hub) (target : Ptr → Client → Prop) (data : Bytes) : Prop :=
  h1.clients = h.clients ∧ h1.rooms = h.rooms ∧ h1.heap.length = h.heap.length ∧
  ∀ (p : Ptr) (c : Client), h.heap[p]? = some c →
    (target p c → c.Send.buf.length < c.Send.cap →
      h1.heap[p]? = some { c with Send := { c.Send with buf := c.Send.buf ++ [data] } }) ∧
    (target p c → ¬ c.Send.buf.length < c.Send.cap → h1.heap[p]? = some c) ∧
    (¬ target p c → h1.heap[p]? = some c)

/-- The state after `n` further ticks of the keepalive timer. -/
def pingN (J : Codec) : Nat → Hub → Hub
  | 0, h => h
  | n + 1, h => (pingClients J (pingN J n h) "ping" n).getD (pingN J n h)

/-- Scenario B of the specification: connection A is registered and 255
keepalive ticks pass without a reader draining its queue. -/
def scenarioB : Hub := pingN demoCodec 255 stepA2

/-- The step from `h` to `h1` touched nothing but queue contents. -/
def QueueOnly (h h1 : Hub) : Prop :=
  h1.clients = h.clients ∧ h1.rooms = h.rooms ∧ HeapRel QueueRel h.heap h1.heap

/-! ## client.go: the writer -/

/-- The loop `for i := 0; i < n; i++ { w.Write([]byte{'\n'}); w.Write(<-c.Send) }`
of `WritePump`; `w` is what has been written to the frame so far. -/
def coalesce (p : Ptr) : Nat → Hub → Bytes → Option (Hub × Bytes)
  | 0, h, w => some (h, w)
  | n + 1, h, w =>
    match recv h p with
    | none => none
    | some (h1, m) => coalesce p n h1 (w ++ ['\n'] ++ m)

/-- What one pass through the `case message, ok := <-c.Send` branch of
`WritePump` does on the transport. -/
inductive WriteResult
  /-- The queue is open and empty: the `select` keeps waiting. -/
  | idle
  /-- The queue is closed and empty (`!ok`): a close message is written and the
  writer returns. -/
  | closeMessage
  /-- The call `c.Conn.NextWriter` failed: the writer returns. -/
  | writerFailed
  /-- One text frame with these bytes was handed to `w.Close()`; the flag tells
  whether `w.Close()` succeeded (the writer returns when it did not). -/
  | frame (bytes : Bytes) (closeOk : Bool)
deriving DecidableEq

/-- The `case message, ok := <-c.Send` branch of the loop of `WritePump`; the two
flags are the outcomes of `c.Conn.NextWriter` and of `w.Close()`.  The ticker
branch of the `select` does not touch the queue. -/
def WritePumpSend (h : Hub) (p : Ptr) (nextWriterOk closeOk : Bool) :
    Option (Hub × WriteResult) :=
  match h.heap[p]? with
  | none => none
  | some c =>
    match recv h p with
    | none => if c.Send.closed then some (h, WriteResult.closeMessage)
              else some (h, WriteResult.idle)
    | some (h1, message) =>
      if nextWriterOk then
        match coalesce p (queueLen h1 p) h1 message with
        | none => none
        | some (h2, w) => some (h2, WriteResult.frame w closeOk)
      else some (h1, WriteResult.writerFailed)

/-- The state `h` with the queue contents of the client `c` at `p` replaced by
`buf`. -/
def setBuf (h : Hub) (p : Ptr) (c : Client) (buf : List Bytes) : Hub :=
  { h with heap := h.heap.set p { c with Send := { c.Send with buf := buf } } }

/-- The frame the specification describes for the queued messages
`m0, m1, ..., mn`: `m0` followed, for each later message in order, by a newline
byte and that message. -/
def frameOf : List Bytes → Bytes
  | [] => []
  | m0 :: rest => m0 ++ (rest.map fun m => '\n' :: m).flatten

/-- An event on one client's queue: a non-blocking enqueue, or one pass of the
writer with a working transport. -/
inductive QueueEvent
  | enqueue (data : Bytes)
  | write
deriving DecidableEq

/-- What a run of queue events produced: the frames written, oldest first,
and the messages that the enqueues put into the queue (an enqueue on a full
queue puts nothing), oldest first. -/
structure WriterLog where
  frames : List Bytes
  enqueued : List Bytes
deriving DecidableEq

/-- Runs a sequence of enqueues and writer passes on the queue of the client
at `p`. -/
def runWriter (p : Ptr) : List QueueEvent → Hub → Option (Hub × WriterLog)
  | [], h => some (h, { frames := [], enqueued := [] })
  | QueueEvent.enqueue data :: evs, h =>
    match sendTo h.heap p data with
    | none => none
    | some heap1 =>
      match runWriter p evs { h with heap := heap1 } with
      | none => none
      | some (h2, log) =>
        some (h2, { log with enqueued :=
          (if queueLen { h with heap := heap1 } p = queueLen h p + 1 then [data] else [])
            ++ log.enqueued })
  | QueueEvent.write :: evs, h =>
    match WritePumpSend h p true true with
    | none => none
    | some (h1, res) =>
      match runWriter p evs h1 with
      | none => none
      | some (h2, log) =>
        some (h2, { log with frames :=
          (match res with
           | WriteResult.frame bytes _ => [bytes]
           | _ => []) ++ log.frames })

/-! ## client.go: the reader -/

/-- The call `json.Marshal(map[string]string{"error": errorMsg})` of
`sendError`, for a message without characters that JSON escapes. -/
def errorJSON (errorMsg : String) : Bytes :=
  ("\x7b\"error\":\"" ++ errorMsg ++ "\"\x7d").toList

/-- What `c.Conn.ReadJSON(&message)` returned. -/
inductive ReadResult
  /-- No error: the unit was decoded into `message`. -/
  | envelope (message : Message)
  /-- The transport delivered the unit, and decoding it failed: `err != nil`. -/
  | undecodable
  /-- The transport failed or was closed: `err != nil`. -/
  | transportError
deriving DecidableEq

/-- One inbound read together with the values `uuid.New()` and `time.Now()`
yield while it is processed: `msgID` and `now` for the stamping of the
envelope, `errID` and `errNow` inside `sendError`. -/
structure Inbound where
  result : ReadResult
  msgID : String
  now : Nat
  errID : String
  errNow : Nat
deriving DecidableEq

/-- What `ReadPump` did towards the hub and the transport: the envelopes it
sent on `c.Hub.broadcast` (oldest first), how many times it sent the client
on `c.Hub.unregister`, and whether it closed the connection. -/
structure ReadLog where
  forwarded : List Message
  unregisterRequests : Nat
  connClosed : Bool
deriving DecidableEq

/-- The body of the loop of `ReadPump` after a successful `ReadJSON`: stamps
the envelope, screens it by type, and returns the state (changed by
`sendError` at most) and the envelope sent on `c.Hub.broadcast`, if any.  In
every case the loop goes on to the next read. -/
def ReadPumpStep (J : Codec) (h : Hub) (p : Ptr) (message : Message)
    (msgID : String) (now : Nat) (errID : String) (errNow : Nat) :
    Option (Hub × Option Message) :=
  match h.heap[p]? with
  | none => none
  | some c =>
    let message1 : Message :=
      { message with ID := msgID, UserID := c.UserID, Timestamp := now }
    if message1.Type_ = MessageTypePong then some (h, none)
    else if message1.Type_ = MessageTypeChatGuild ∨
        message1.Type_ = MessageTypeChatDistrict then
      match J.unmarshalRoomID message1.Data with
      | none =>
        match sendError J h p (errorJSON "Invalid message format") errID errNow with
        | none => none
        | some h1 => some (h1, none)
      | some roomID =>
        if roomID ∈ c.Rooms then some (h, some message1)
        else
          match sendError J h p (errorJSON "No access to this room") errID errNow with
          | none => none
          | some h1 => some (h1, none)
    else if message1.Type_ = MessageTypeNotification then
      match sendError J h p (errorJSON "Cannot send notifications") errID errNow with
      | none => none
      | some h1 => some (h1, none)
    else some (h, some message1)

/-- The method `ReadPump` on the reads the connection delivers.  When the
reads run out the reader is waiting for the next one; the first read that
returns an error leaves the loop, and the deferred function sends the client
on `c.Hub.unregister` and closes the connection. -/
def ReadPump (J : Codec) (p : Ptr) : List Inbound → Hub → Option (Hub × ReadLog)
  | [], h => some (h, { forwarded := [], unregisterRequests := 0, connClosed := false })
  | i :: rest, h =>
    match i.result with
    | ReadResult.envelope message =>
      match ReadPumpStep J h p message i.msgID i.now i.errID i.errNow with
      | none => none
      | some (h1, fwd) =>
        match ReadPump J p rest h1 with
        | none => none
        | some (h2, log) => some (h2, { log with forwarded := fwd.toList ++ log.forwarded })
    | _ => some (h, { forwarded := [], unregisterRequests := 1, connClosed := true })

/-! ## client.go: decoding of an inbound unit -/

/-- A member of the JSON object a client sent, as far as decoding it into a
field of `Message` goes. -/
inductive Field
  /-- The member is absent or `null`: the field keeps its zero value. -/
  | absent
  /-- The member is the JSON string `s`. -/
  | str (s : String)
  /-- The member is a JSON value of another kind (a number, an object, ...). -/
  | other
deriving DecidableEq

/-- A syntactically valid JSON object as the client sent it, member by member;
`data` is the raw text of the member `data`. -/
structure RawUnit where
  id : Field
  type_ : Field
  userID : Field
  timestamp : Field
  data : Bytes
deriving DecidableEq

/-- The text decoders that `ReadJSON` calls for the fields `UserID` and
`Timestamp` of `Message`: `uuid.UUID.UnmarshalText` and
`time.Time.UnmarshalJSON`; `none` is an error. -/
structure Wire where
  parseUUID : String → Option UUID
  parseTime : String → Option Nat

/-- Decoding into a field of a string type (`ID`, `Type`): a JSON value that
is not a string is a type error. -/
def decodeString : Field → Option String
  | Field.absent => some ""
  | Field.str s => some s
  | Field.other => none

/-- Decoding into a field that unmarshals from text (`UserID`, `Timestamp`);
the zero value is `0`. -/
def decodeText (parse : String → Option Nat) : Field → Option Nat
  | Field.absent => some 0
  | Field.str s => parse s
  | Field.other => none

/-- The call `c.Conn.ReadJSON(&message)` on a unit the transport delivered:
every field of `Message` is decoded, and an error on any of them is the error
of the call. -/
def ReadJSON (W : Wire) (u : RawUnit) : ReadResult :=
  match decodeString u.id, decodeString u.type_, decodeText W.parseUUID u.userID,
        decodeText W.parseTime u.timestamp with
  | some id, some t, some uid, some ts =>
    ReadResult.envelope { ID := id, Type_ := t, UserID := uid, Timestamp := ts, Data := u.data }
  | _, _, _, _ => ReadResult.undecodable

/-- Text decoders for concrete runs: they return what the Go functions return
on the texts used below (one UUID, which stands for user 999, one RFC 3339
time, and texts that are neither). -/
def demoWire : Wire where
  parseUUID s := if s = "00000000-0000-0000-0000-0000000003e7" then some 999 else none
  parseTime s := if s = "2024-01-01T00:00:00Z" then some 1704067200 else none

/-- A chat unit for `guild:7` that supplies no id, user id or timestamp. -/
def plainUnit : RawUnit :=
  { id := Field.absent, type_ := Field.str "chat_guild", userID := Field.absent,
    timestamp := Field.absent, data := "guild:7".toList }

/-- The same unit with an id, the user id of another user and a timestamp
supplied by the client. -/
def forgedUnit : RawUnit :=
  { id := Field.str "forged", type_ := Field.str "chat_guild",
    userID := Field.str "00000000-0000-0000-0000-0000000003e7",
    timestamp := Field.str "2024-01-01T00:00:00Z", data := "guild:7".toList }

/-- The same unit with a user id that is not the text of a UUID. -/
def badUserUnit : RawUnit :=
  { id := Field.absent, type_ := Field.str "chat_guild", userID := Field.str "not-a-uuid",
    timestamp := Field.absent, data := "guild:7".toList }

/-! ## hub.go and handler.go: statistics -/

/-- The loop `for _, client := range h.clients { uniqueUsers[client.UserID] = true }`
of `GetOnlineUsers`; `us` is the key set of `uniqueUsers` so far. -/
def uniqueUsers (heap : List Client) : List (UUID × Ptr) → List UUID → Option (List UUID)
  | [], us => some us
  | (_, p) :: rest, us =>
    match heap[p]? with
    | none => none
    | some c => uniqueUsers heap rest (setAdd us c.UserID)

/-- The method `GetOnlineUsers`. -/
def GetOnlineUsers (h : Hub) : Option Nat :=
  match uniqueUsers h.heap h.clients [] with
  | none => none
  | some us => some us.length

/-- The method `GetOnlineStats` of handler.go; the result is the map literal
it returns. -/
def GetOnlineStats (h : Hub) : Option (List (String × Nat)) :=
  match GetOnlineUsers h with
  | none => none
  | some n =>
    some [("online_users", n), ("total_connections", h.clients.length),
          ("active_rooms", h.rooms.length)]

/-- The thirteen message types of the catalog (the constants of hub.go). -/
def catalog : List MessageType :=
  [MessageTypeConnect, MessageTypeDisconnect, MessageTypePing, MessageTypePong,
   MessageTypeResourceUpdate, MessageTypeBuildingUpdate, MessageTypeDistrictUpdate,
   MessageTypeGuildUpdate, MessageTypeBattleEvent, MessageTypeNotification,
   MessageTypeChatGuild, MessageTypeChatDistrict, MessageTypeChatPrivate]

/-! ## handler.go: server-side events -/

/-- The method `SendNotification` of handler.go: the envelope it sends on
`h.hub.broadcast`.  `data` is what `json.Marshal` returned for the map of
title, message and type (its error is discarded). -/
def SendNotification (userID : UUID) (data : Bytes) (msgID : String) (now : Nat) : Message :=
  { ID := msgID, Type_ := MessageTypeNotification, UserID := userID, Timestamp := now,
    Data := data }

/-- The method `NotifyGuildEvent` of handler.go: the envelope it sends on
`h.hub.broadcast`.  `marshalEvent` is `json.Marshal` on the map of `room_id`,
`event_type` and `event_data`, as a function of the value of `room_id` (its
error is discarded); the envelope carries no user id. -/
def NotifyGuildEvent (marshalEvent : String → Bytes) (guildID : String) (msgID : String)
    (now : Nat) : Message :=
  { ID := msgID, Type_ := MessageTypeGuildUpdate, UserID := 0, Timestamp := now,
    Data := marshalEvent ("guild:" ++ guildID) }

/-- Connection C (pointer 1, id 3) of another user, 20, is allocated next to
connection A of user 10, which is registered and in `guild:7`. -/
def stepD1 : Hub := (NewClient stepA3 3 20).1

/-- Two users: A of user 10 is registered and in `guild:7`; C of user 20 is
registered and in no room. -/
def scenarioTwoUsers : Hub := (registerClient demoCodec stepD1 1 "c3" 102).getD stepD1

/-- Connection A was registered and then unregistered: its queue is closed. -/
def stepC1 : Hub := (unregisterClient stepA2 0).getD stepA2

/-- The calls of `HandleWebSocket` when the connection fails early: A is
registered, its reader ends and A is unregistered, and only then
`autoJoinRooms` joins A to its personal room. -/
def lateJoin : Hub := (JoinRoom stepC1 0 "user:10").getD stepC1

/-- After the late join of A, connection B (pointer 1, id 2) of the same user
10 is allocated. -/
def stepC2 : Hub := (NewClient lateJoin 2 10).1

/-- Connection B is registered. -/
def stepC3 : Hub := (registerClient demoCodec stepC2 1 "c2" 101).getD stepC2

/-- The personal room `user:10` holds A, whose queue is closed, and B, whose
queue is open and holds one message: B has been joined by `autoJoinRooms`. -/
def closedMemberRoom : Hub := (JoinRoom stepC3 1 "user:10").getD stepC3

/-- Connection B is allocated but not registered, and has joined `guild:7`
next to the registered connection A. -/
def unregisteredMember : Hub := (JoinRoom stepA4 1 "guild:7").getD stepA4

/-- What `removeFromRoom` of the client at `p` leaves of the room-registry
entry of the room: the room without `p`, or no entry when no member is left. -/
def withoutMember (p : Ptr) : Option Room → Option Room
  | none => none
  | some room =>
    if (setDel room.Clients p).length = 0 then none
    else some { room with Clients := setDel room.Clients p }

/-- The step from `h` to `h1` changed nothing but queues, and each queue is as
it was or has exactly one message more at its tail. -/
def AtMostOne (h h1 : Hub) : Prop :=
  h1.clients = h.clients ∧ h1.rooms = h.rooms ∧ h1.heap.length = h.heap.length ∧
  ∀ (p : Ptr) (c : Client), h.heap[p]? = some c →
    h1.heap[p]? = some c ∨
    ∃ data, h1.heap[p]? = some { c with Send := { c.Send with buf := c.Send.buf ++ [data] } }

/-! ## hub.go: locking -/

/-- What a method does with the mutexes and the two registries, in program
order. -/
inductive LockEvent
  /-- The call `h.mu.Lock()`. -/
  | hubLock
  /-- The call `h.mu.Unlock()`, deferred or not. -/
  | hubUnlock
  /-- The call `room.mu.Lock()` on the room with this id. -/
  | roomLock (roomID : String)
  /-- The call `room.mu.Unlock()`. -/
  | roomUnlock (roomID : String)
  /-- The call `client.mu.Lock()`. -/
  | clientLock (p : Ptr)
  /-- The call `client.mu.Unlock()`. -/
  | clientUnlock (p : Ptr)
  /-- An assignment `h.clients[k] = v` or a `delete(h.clients, k)`. -/
  | writeClients
  /-- An assignment `h.rooms[k] = v` or a `delete(h.rooms, k)`. -/
  | writeRooms
deriving DecidableEq

/-- The lock events of `registerClient`. -/
def registerClientLocks : List LockEvent :=
  [LockEvent.hubLock, LockEvent.writeClients, LockEvent.hubUnlock]

/-- The lock events of `removeFromRoom`, which takes no hub lock itself. -/
def removeFromRoomLocks (h : Hub) (p : Ptr) (roomID : String) : List LockEvent :=
  match mapGet h.rooms roomID with
  | none => []
  | some room =>
    [LockEvent.roomLock roomID, LockEvent.roomUnlock roomID,
     LockEvent.clientLock p, LockEvent.clientUnlock p] ++
    (if (setDel room.Clients p).length = 0 then [LockEvent.writeRooms] else [])

/-- The lock events of `LeaveRoom`: those of the `removeFromRoom` it calls. -/
def LeaveRoomLocks (h : Hub) (p : Ptr) (roomID : String) : List LockEvent :=
  removeFromRoomLocks h p roomID

/-- The lock events of the loop over `client.Rooms` in `unregisterClient`. -/
def removeFromRoomsLocks (p : Ptr) : List String → Hub → List LockEvent
  | [], _ => []
  | r :: rs, h =>
    removeFromRoomLocks h p r ++
      (match removeFromRoom h p r with
       | none => []
       | some h1 => removeFromRoomsLocks p rs h1)

/-- The lock events of `unregisterClient`. -/
def unregisterClientLocks (h : Hub) (p : Ptr) : List LockEvent :=
  match h.heap[p]? with
  | none => [LockEvent.hubLock, LockEvent.hubUnlock]
  | some c =>
    match mapGet h.clients c.ID with
    | none => [LockEvent.hubLock, LockEvent.hubUnlock]
    | some _ =>
      [LockEvent.hubLock] ++ removeFromRoomsLocks p c.Rooms h ++
        [LockEvent.writeClients, LockEvent.hubUnlock]

/-- The lock events of `JoinRoom`. -/
def JoinRoomLocks (h : Hub) (p : Ptr) (roomID : String) : List LockEvent :=
  [LockEvent.hubLock] ++
    (match mapGet h.rooms roomID with
     | some _ => []
     | none => [LockEvent.writeRooms]) ++
    [LockEvent.roomLock roomID, LockEvent.roomUnlock roomID,
     LockEvent.clientLock p, LockEvent.clientUnlock p, LockEvent.hubUnlock]

/-- Whether a sequence of lock events keeps the lock discipline: every write to
a registry happens while the hub lock is held, and the hub lock is never taken
while a room lock is held.  `held` tells whether the hub lock is held when the
sequence starts, `n` how many room locks are. -/
def serialized : Bool → Nat → List LockEvent → Bool
  | _, _, [] => true
  | _, n, LockEvent.hubLock :: t => decide (n = 0) && serialized true n t
  | _, n, LockEvent.hubUnlock :: t => serialized false n t
  | held, n, LockEvent.roomLock _ :: t => serialized held (n + 1) t
  | held, n, LockEvent.roomUnlock _ :: t => serialized held (n - 1) t
  | held, n, LockEvent.clientLock _ :: t => serialized held n t
  | held, n, LockEvent.clientUnlock _ :: t => serialized held n t
  | held, n, LockEvent.writeClients :: t => held && serialized held n t
  | held, n, LockEvent.writeRooms :: t => held && serialized held n t

end Websocket

namespace Auth

/-! ## auth/telegram.go -/

/-- The struct `TelegramUser`. -/
structure TelegramUser where
  ID : Int
  IsBot : Bool
  FirstName : String
  LastName : String
  Username : String
  LanguageCode : String
  IsPremium : Bool
  AllowsWriteToPM : Bool
  PhotoURL : String
deriving DecidableEq

/-- The struct `TelegramAuthData`; `User` is `none` for a nil pointer. -/
structure TelegramAuthData where
  QueryID : String
  User : Option TelegramUser
  AuthDate : Int
  Hash : String
  StartParam : String
  CanSendAfter : Int
  ChatType : String
  ChatInstance : String
deriving DecidableEq

/-- The type `url.Values`, a `map[string][]string`, as a list of entries. -/
abbrev Values := List (String × List String)

/-- The method `Values.Get`: the first value of the key, or the empty string. -/
def Values.Get : Values → String → String
  | [], _ => ""
  | (k, vs) :: rest, key => if k = key then vs.headD "" else Values.Get rest key

/-- The method `Values.Del`. -/
def Values.Del (v : Values) (key : String) : Values :=
  v.filter fun e => decide (e.1 ≠ key)

/-- The library functions `ValidateTelegramAuth` calls. -/
structure Lib where
  /-- The function `url.ParseQuery`; `none` is an error. -/
  parseQuery : String → Option Values
  /-- The function `sort.Strings`. -/
  sortStrings : List String → List String
  /-- The function `hmacSHA256(data, key)` of telegram.go, which wraps
  `crypto/hmac` and `crypto/sha256`; byte slices are strings here. -/
  hmacSHA256 : String → String → String
  /-- The function `hex.EncodeToString`. -/
  hexEncode : String → String
  /-- The call `strconv.ParseInt(s, 10, 64)`; `none` is an error. -/
  parseInt : String → Option Int
  /-- What `strconv.ParseInt` returns without error is an `int64`. -/
  parseInt_range : ∀ s n, parseInt s = some n → -(2 ^ 63) ≤ n ∧ n < 2 ^ 63
  /-- The call `json.Unmarshal([]byte(userStr), &user)`; `none` is an error. -/
  unmarshalUser : String → Option TelegramUser
  /-- The function `strconv.Atoi`; `none` is an error. -/
  atoi : String → Option Int

/-- The value of an `int64` expression whose exact value is `x`: Go integer
arithmetic wraps around. -/
def wrapInt64 (x : Int) : Int := (x + 2 ^ 63) % 2 ^ 64 - 2 ^ 63

/-- The function `verifyTelegramHash`. -/
def verifyTelegramHash (L : Lib) (dataCheckString hash botToken : String) : Bool :=
  let secretKey := L.hmacSHA256 "WebAppData" botToken
  let calculatedHash := L.hmacSHA256 dataCheckString secretKey
  let calculatedHashHex := L.hexEncode calculatedHash
  decide (calculatedHashHex = hash)

/-- The last two blocks of `ValidateTelegramAuth`: "Parse user data" and
"Parse can_send_after". -/
def parseUserAndCanSendAfter (L : Lib) (values : Values) (authData : TelegramAuthData) :
    Except String TelegramAuthData :=
  let afterUser : Except String TelegramAuthData :=
    if values.Get "user" ≠ "" then
      match L.unmarshalUser (values.Get "user") with
      | none => Except.error "failed to parse user data"
      | some user => Except.ok { authData with User := some user }
    else Except.ok authData
  match afterUser with
  | Except.error e => Except.error e
  | Except.ok authData1 =>
    if values.Get "can_send_after" ≠ "" then
      match L.atoi (values.Get "can_send_after") with
      | none => Except.error "invalid can_send_after"
      | some canSendAfter => Except.ok { authData1 with CanSendAfter := canSendAfter }
    else Except.ok authData1

/-- The function `ValidateTelegramAuth`; `now` is what `time.Now().Unix()`
returns. -/
def ValidateTelegramAuth (L : Lib) (initData botToken : String) (now : Int) :
    Except String TelegramAuthData :=
  match L.parseQuery initData with
  | none => Except.error "failed to parse init data"
  | some values0 =>
    let hash := values0.Get "hash"
    if hash = "" then Except.error "hash is missing from init data"
    else
      let values := values0.Del "hash"
      let keys := L.sortStrings (values.map Prod.fst)
      let dataCheckStr := String.intercalate "\n" (keys.map fun k => k ++ "=" ++ values.Get k)
      if verifyTelegramHash L dataCheckStr hash botToken = false then
        Except.error "invalid hash"
      else
        let authData : TelegramAuthData :=
          { QueryID := values.Get "query_id", User := none, AuthDate := 0, Hash := hash,
            StartParam := values.Get "start_param", CanSendAfter := 0,
            ChatType := values.Get "chat_type", ChatInstance := values.Get "chat_instance" }
        if values.Get "auth_date" ≠ "" then
          match L.parseInt (values.Get "auth_date") with
          | none => Except.error "invalid auth_date"
          | some authDate =>
            if wrapInt64 (now - authDate) > 300 then Except.error "auth data is too old"
            else parseUserAndCanSendAfter L values { authData with AuthDate := authDate }
        else parseUserAndCanSendAfter L values authData

/-- One hexadecimal digit. -/
def hexDigit (n : Nat) : Char := "0123456789abcdef".toList.getD n '0'

/-- The function `hex.EncodeToString`, on a byte slice held as a string with
one character per byte. -/
def hexOf (s : String) : String :=
  String.mk (s.toList.flatMap fun c => [hexDigit (c.toNat / 16), hexDigit (c.toNat % 16)])

/-- A byte slice as a string with one character per byte. -/
def ofBytes (bs : List Nat) : String := String.mk (bs.map Char.ofNat)

/-- The secret key of the bot token `token`: the HMAC-SHA256 of `WebAppData`
under the key `token`. -/
def demoSecret : String :=
  ofBytes [0x83, 0x78, 0x4c, 0xeb, 0xd1, 0xf8, 0x3a, 0x48, 0x08, 0x73, 0xe3, 0x6a, 0x45, 0x68,
           0xcf, 0xb7, 0xff, 0x3a, 0xf6, 0xec, 0xcd, 0xe5, 0x65, 0x34, 0x29, 0xea, 0x7d, 0x43,
           0x62, 0xc1, 0xe3, 0xf7]

/-- Init data that carries a hash and nothing else; the hash is the one of the
empty data-check string under the bot token `token`. -/
def initDataNoDate : String :=
  "hash=32654343dd2ca7745fffa7cbb232a910c9f8b7e13937734d2459af182d3324c6"

/-- Init data with `auth_date` 1000 and the hash of its data-check string
`auth_date=1000` under the bot token `token`. -/
def initDataDated : String :=
  "auth_date=1000&hash=742e25e116da1139e0102837658422fe930a9a752ea40923294c562b2c81d73a"

/-- Library functions for concrete runs with the bot token `token`: they
return what the Go functions return on the arguments that
`ValidateTelegramAuth` passes them for `initDataNoDate` and `initDataDated`. -/
def demoLib : Lib where
  parseQuery s :=
    if s = initDataNoDate then
      some [("hash", ["32654343dd2ca7745fffa7cbb232a910c9f8b7e13937734d2459af182d3324c6"])]
    else if s = initDataDated then
      some [("auth_date", ["1000"]),
            ("hash", ["742e25e116da1139e0102837658422fe930a9a752ea40923294c562b2c81d73a"])]
    else none
  sortStrings ks := ks
  hmacSHA256 data key :=
    if data = "WebAppData" ∧ key = "token" then demoSecret
    else if data = "" ∧ key = demoSecret then
      ofBytes [0x32, 0x65, 0x43, 0x43, 0xdd, 0x2c, 0xa7, 0x74, 0x5f, 0xff, 0xa7, 0xcb, 0xb2,
               0x32, 0xa9, 0x10, 0xc9, 0xf8, 0xb7, 0xe1, 0x39, 0x37, 0x73, 0x4d, 0x24, 0x59,
               0xaf, 0x18, 0x2d, 0x33, 0x24, 0xc6]
    else if data = "auth_date=1000" ∧ key = demoSecret then
      ofBytes [0x74, 0x2e, 0x25, 0xe1, 0x16, 0xda, 0x11, 0x39, 0xe0, 0x10, 0x28, 0x37, 0x65,
               0x84, 0x22, 0xfe, 0x93, 0x0a, 0x9a, 0x75, 0x2e, 0xa4, 0x09, 0x23, 0x29, 0x4c,
               0x56, 0x2b, 0x2c, 0x81, 0xd7, 0x3a]
    else ""
  hexEncode := hexOf
  parseInt s := if s = "1000" then some 1000 else none
  parseInt_range s n h := by
    dsimp only at h
    split at h
    · cases h; decide
    · cases h
  unmarshalUser _ := none
  atoi _ := none

end Auth

namespace Websocket

/-! # Theorems -/

/-! ## Maps and sets -/

section MapLemmas

variable {K V : Type} [DecidableEq K]

theorem mapGet_mapSet_self (m : List (K × V)) (k : K) (v : V) :
    mapGet (mapSet m k v) k = some v := by
  induction m with
  | nil => simp [mapSet, mapGet]
  | cons e m ih =>
    obtain ⟨k1, v1⟩ := e
    by_cases hk : k1 = k
    · simp [mapSet, mapGet, hk]
    · simp [mapSet, mapGet, hk, ih]

theorem mapGet_mapSet_ne (m : List (K × V)) {k a : K} (v : V) (hne : a ≠ k) :
    mapGet (mapSet m k v) a = mapGet m a := by
  induction m with
  | nil => simp [mapSet, mapGet, Ne.symm hne]
  | cons e m ih =>
    obtain ⟨k1, v1⟩ := e
    by_cases hk : k1 = k
    · subst hk
      simp [mapSet, mapGet, Ne.symm hne]
    · by_cases ha : k1 = a
      · subst ha
        simp [mapSet, mapGet, hk]
      · simp [mapSet, mapGet, hk, ha, ih]

theorem mapGet_mapDelete_self (m : List (K × V)) (k : K) :
    mapGet (mapDelete m k) k = none := by
  induction m with
  | nil => simp [mapDelete, mapGet]
  | cons e m ih =>
    obtain ⟨k1, v1⟩ := e
    by_cases hk : k1 = k
    · simpa [mapDelete, List.filter_cons, hk] using ih
    · simpa [mapDelete, List.filter_cons, hk, mapGet] using ih

theorem mapGet_mapDelete_ne (m : List (K × V)) {k a : K} (hne : a ≠ k) :
    mapGet (mapDelete m k) a = mapGet m a := by
  induction m with
  | nil => simp [mapDelete, mapGet]
  | cons e m ih =>
    obtain ⟨k1, v1⟩ := e
    by_cases hk : k1 = k
    · subst hk
      simpa [mapDelete, List.filter_cons, mapGet, Ne.symm hne] using ih
    · by_cases ha : k1 = a
      · subst ha
        simp [mapDelete, List.filter_cons, hk, mapGet]
      · simpa [mapDelete, List.filter_cons, hk, mapGet, ha] using ih

theorem mapSet_of_mapGet (m : List (K × V)) {k : K} {v : V} (hg : mapGet m k = some v) :
    mapSet m k v = m := by
  induction m with
  | nil => simp [mapGet] at hg
  | cons e m ih =>
    obtain ⟨k1, v1⟩ := e
    by_cases hk : k1 = k
    · subst hk
      simp [mapGet] at hg
      simp [mapSet, hg]
    · simp [mapGet, hk] at hg
      simp [mapSet, hk, ih hg]

theorem mapDelete_of_mapGet_none (m : List (K × V)) {k : K} (hg : mapGet m k = none) :
    mapDelete m k = m := by
  induction m with
  | nil => simp [mapDelete]
  | cons e m ih =>
    obtain ⟨k1, v1⟩ := e
    by_cases hk : k1 = k
    · simp [mapGet, hk] at hg
    · simp [mapGet, hk] at hg
      have := ih hg
      simp [mapDelete, List.filter_cons, hk] at this ⊢
      exact this

theorem mem_of_mapGet (m : List (K × V)) {k : K} {v : V} (hg : mapGet m k = some v) :
    (k, v) ∈ m := by
  induction m with
  | nil => simp [mapGet] at hg
  | cons e m ih =>
    obtain ⟨k1, v1⟩ := e
    by_cases hk : k1 = k
    · subst hk
      simp [mapGet] at hg
      simp [hg]
    · simp [mapGet, hk] at hg
      exact List.mem_cons_of_mem _ (ih hg)

theorem mapGet_of_mem (m : List (K × V)) {k : K} {v : V}
    (hnd : (m.map Prod.fst).Nodup) (hm : (k, v) ∈ m) : mapGet m k = some v := by
  induction m with
  | nil => simp at hm
  | cons e m ih =>
    obtain ⟨k1, v1⟩ := e
    simp only [List.map_cons, List.nodup_cons] at hnd
    rcases List.mem_cons.mp hm with heq | hin
    · cases heq
      simp [mapGet]
    · have hk : k1 ≠ k := by
        intro hk
        subst hk
        exact hnd.1 (List.mem_map_of_mem Prod.fst hin)
      simp [mapGet, hk, ih hnd.2 hin]

theorem mem_setAdd {A : Type} [DecidableEq A] (xs : List A) (x y : A) :
    y ∈ setAdd xs x ↔ y ∈ xs ∨ y = x := by
  unfold setAdd
  split
  · constructor
    · exact Or.inl
    · rintro (hy | rfl)
      · exact hy
      · assumption
  · simp

theorem mem_setDel {A : Type} [DecidableEq A] (xs : List A) (x y : A) :
    y ∈ setDel xs x ↔ y ∈ xs ∧ y ≠ x := by
  simp [setDel, List.mem_filter]

theorem nodup_setAdd {A : Type} [DecidableEq A] {xs : List A} (x : A) (hnd : xs.Nodup) :
    (setAdd xs x).Nodup := by
  unfold setAdd
  split
  · exact hnd
  · rename_i hx
    rw [List.nodup_append]
    refine ⟨hnd, List.nodup_singleton x, ?_⟩
    intro a ha hb
    simp at hb
    subst hb
    exact hx ha

theorem nodup_setDel {A : Type} [DecidableEq A] {xs : List A} (x : A) (hnd : xs.Nodup) :
    (setDel xs x).Nodup :=
  hnd.filter _

theorem setAdd_of_mem {A : Type} [DecidableEq A] {xs : List A} {x : A} (hx : x ∈ xs) :
    setAdd xs x = xs := by
  simp [setAdd, hx]

theorem setDel_of_not_mem {A : Type} [DecidableEq A] {xs : List A} {x : A} (hx : x ∉ xs) :
    setDel xs x = xs := by
  unfold setDel
  rw [List.filter_eq_self]
  intro a ha
  have : a ≠ x := fun e => hx (e ▸ ha)
  simp [this]

theorem keys_mapSet (m : List (K × V)) (k : K) (v : V) :
    (mapSet m k v).map Prod.fst = setAdd (m.map Prod.fst) k := by
  induction m with
  | nil => simp [mapSet, setAdd]
  | cons e m ih =>
    obtain ⟨k1, v1⟩ := e
    by_cases hk : k1 = k
    · subst hk
      simp [mapSet, setAdd]
    · have hk2 : ¬ k = k1 := fun e => hk e.symm
      simp only [mapSet, hk, if_false, List.map_cons, ih]
      unfold setAdd
      by_cases hin : k ∈ List.map Prod.fst m
      · simp [hin]
      · simp [hin, hk2]

theorem nodup_keys_mapSet {m : List (K × V)} (k : K) (v : V)
    (hnd : (m.map Prod.fst).Nodup) : ((mapSet m k v).map Prod.fst).Nodup := by
  rw [keys_mapSet]
  exact nodup_setAdd k hnd

theorem nodup_keys_mapDelete {m : List (K × V)} (k : K)
    (hnd : (m.map Prod.fst).Nodup) : ((mapDelete m k).map Prod.fst).Nodup :=
  List.Nodup.sublist ((List.filter_sublist m).map Prod.fst) hnd

end MapLemmas

/-! ## Related heaps -/

theorem HeapRel.refl_heap {R : Client → Client → Prop} (hR : ∀ c, R c c) (heap : List Client) :
    HeapRel R heap heap :=
  ⟨rfl, fun _ c hc => ⟨c, hc, hR c⟩⟩

theorem HeapRel.trans_heap {R : Client → Client → Prop} (hR : ∀ a b c, R a b → R b c → R a c)
    {h1 h2 h3 : List Client} (h12 : HeapRel R h1 h2) (h23 : HeapRel R h2 h3) :
    HeapRel R h1 h3 := by
  refine ⟨h23.1.trans h12.1, fun p c hc => ?_⟩
  obtain ⟨c2, hc2, r12⟩ := h12.2 p c hc
  obtain ⟨c3, hc3, r23⟩ := h23.2 p c2 hc2
  exact ⟨c3, hc3, hR _ _ _ r12 r23⟩

theorem HeapRel.mono {R S : Client → Client → Prop} (hRS : ∀ a b, R a b → S a b)
    {h1 h2 : List Client} (h12 : HeapRel R h1 h2) : HeapRel S h1 h2 :=
  ⟨h12.1, fun p c hc => by
    obtain ⟨c2, hc2, r⟩ := h12.2 p c hc
    exact ⟨c2, hc2, hRS _ _ r⟩⟩

theorem HeapRel.back {R : Client → Client → Prop} {h1 h2 : List Client}
    (h12 : HeapRel R h1 h2) {p : Ptr} {c2 : Client} (hc2 : h2[p]? = some c2) :
    ∃ c, h1[p]? = some c ∧ R c c2 := by
  obtain ⟨hlt, _⟩ := List.getElem?_eq_some.mp hc2
  have hlt1 : p < h1.length := h12.1 ▸ hlt
  obtain ⟨c2b, hc2b, r⟩ := h12.2 p h1[p] (List.getElem?_eq_getElem hlt1)
  rw [hc2] at hc2b
  cases hc2b
  exact ⟨h1[p], List.getElem?_eq_getElem hlt1, r⟩

theorem HeapRel.set {R : Client → Client → Prop} (hR : ∀ c, R c c) {heap : List Client}
    {p : Ptr} {c c1 : Client} (hc : heap[p]? = some c) (r : R c c1) :
    HeapRel R heap (heap.set p c1) := by
  refine ⟨List.length_set _ _ _, fun q d hd => ?_⟩
  obtain ⟨hlt, _⟩ := List.getElem?_eq_some.mp hc
  by_cases hq : p = q
  · subst hq
    rw [hc] at hd
    cases hd
    exact ⟨c1, by simp [List.getElem?_set, hlt], r⟩
  · exact ⟨d, by simp [List.getElem?_set, hq, hd], hR d⟩

theorem QueueRel.refl_queue (c : Client) : QueueRel c c :=
  ⟨rfl, rfl, rfl, rfl, rfl, Or.inl (le_refl _)⟩

theorem QueueRel.trans_queue (a b c : Client) (hab : QueueRel a b) (hbc : QueueRel b c) :
    QueueRel a c := by
  obtain ⟨a1, a2, a3, a4, a5, a6⟩ := hab
  obtain ⟨b1, b2, b3, b4, b5, b6⟩ := hbc
  refine ⟨b1.trans a1, b2.trans a2, b3.trans a3, b4.trans a4, b5.trans a5, ?_⟩
  rw [a5] at b6
  omega

theorem RoomsRel.refl_rooms (c : Client) : RoomsRel c c := ⟨rfl, rfl, rfl⟩

theorem RoomsRel.trans_rooms (a b c : Client) (hab : RoomsRel a b) (hbc : RoomsRel b c) :
    RoomsRel a c :=
  ⟨hbc.1.trans hab.1, hbc.2.1.trans hab.2.1, hbc.2.2.trans hab.2.2⟩

theorem QueueOnly.refl_hub (h : Hub) : QueueOnly h h :=
  ⟨rfl, rfl, HeapRel.refl_heap QueueRel.refl_queue _⟩

/-! ## Channel sends -/

theorem sendTo_eq {heap heap1 : List Client} {p : Ptr} {data : Bytes}
    (hs : sendTo heap p data = some heap1) :
    ∃ c, heap[p]? = some c ∧ c.Send.closed = false ∧ heap1 = heap.set p (offer c data) := by
  unfold sendTo at hs
  cases hc : heap[p]? with
  | none => simp [hc] at hs
  | some c =>
    simp only [hc] at hs
    unfold trySend at hs
    by_cases hcl : c.Send.closed = true
    · simp [hcl] at hs
    · have hcl2 : c.Send.closed = false := by simpa using hcl
      refine ⟨c, rfl, hcl2, ?_⟩
      unfold offer
      by_cases hlen : c.Send.buf.length < c.Send.cap
      · simp [hcl2, hlen] at hs
        simp [hlen, ← hs, hcl2]
      · simp [hcl2, hlen] at hs
        simp [hlen, ← hs]

theorem sendTo_of_open {heap : List Client} {p : Ptr} {c : Client} (data : Bytes)
    (hc : heap[p]? = some c) (hopen : c.Send.closed = false) :
    sendTo heap p data = some (heap.set p (offer c data)) := by
  unfold sendTo trySend offer
  by_cases hlen : c.Send.buf.length < c.Send.cap
  · simp [hc, hopen, hlen]
  · simp [hc, hopen, hlen]

theorem QueueRel.offer (c : Client) (data : Bytes) : QueueRel c (offer c data) := by
  unfold Websocket.offer
  by_cases hlen : c.Send.buf.length < c.Send.cap
  · simp only [hlen, if_true]
    refine ⟨rfl, rfl, rfl, rfl, rfl, Or.inr ?_⟩
    simp
    omega
  · simp only [hlen, if_false]
    exact QueueRel.refl_queue c

theorem sendTo_rel {heap heap1 : List Client} {p : Ptr} {data : Bytes}
    (hs : sendTo heap p data = some heap1) : HeapRel QueueRel heap heap1 := by
  obtain ⟨c, hc, _, rfl⟩ := sendTo_eq hs
  exact HeapRel.set QueueRel.refl_queue hc (QueueRel.offer c data)

theorem rangeSend_rel (cond : Client → Bool) (data : Bytes) (ps : List Ptr) :
    ∀ {heap heap1 : List Client}, rangeSend cond data ps heap = some heap1 →
      HeapRel QueueRel heap heap1 := by
  induction ps with
  | nil =>
    intro heap heap1 hs
    simp [rangeSend] at hs
    subst hs
    exact HeapRel.refl_heap QueueRel.refl_queue _
  | cons p ps ih =>
    intro heap heap1 hs
    unfold rangeSend at hs
    cases hc : heap[p]? with
    | none => simp [hc] at hs
    | some c =>
      simp only [hc] at hs
      by_cases hcond : cond c = true
      · simp only [hcond, if_true] at hs
        cases hst : sendTo heap p data with
        | none => simp [hst] at hs
        | some heap2 =>
          simp only [hst] at hs
          exact HeapRel.trans_heap QueueRel.trans_queue (sendTo_rel hst) (ih hs)
      · simp only [hcond] at hs
        exact ih hs

theorem rangeSend_spec (cond : Client → Bool) (data : Bytes) (ps : List Ptr) :
    ∀ (heap : List Client), ps.Nodup →
      (∀ p ∈ ps, ∃ c, heap[p]? = some c ∧ (cond c = true → c.Send.closed = false)) →
      ∃ heap1, rangeSend cond data ps heap = some heap1 ∧ heap1.length = heap.length ∧
        ∀ (q : Ptr) (c : Client), heap[q]? = some c →
          heap1[q]? = some (if q ∈ ps ∧ cond c = true then offer c data else c) := by
  induction ps with
  | nil =>
    intro heap _ _
    exact ⟨heap, rfl, rfl, fun q c hc => by simpa using hc⟩
  | cons p ps ih =>
    intro heap hnd hall
    obtain ⟨hp, hnd2⟩ := List.nodup_cons.mp hnd
    obtain ⟨c, hc, hopen⟩ := hall p (List.mem_cons_self _ _)
    obtain ⟨hlt, _⟩ := List.getElem?_eq_some.mp hc
    by_cases hcond : cond c = true
    · have hst := sendTo_of_open data hc (hopen hcond)
      have hall2 : ∀ q ∈ ps, ∃ d, (heap.set p (offer c data))[q]? = some d ∧
          (cond d = true → d.Send.closed = false) := by
        intro q hq
        have hne : p ≠ q := fun e => hp (e ▸ hq)
        obtain ⟨d, hd, ho⟩ := hall q (List.mem_cons_of_mem _ hq)
        exact ⟨d, by simp [List.getElem?_set, hne, hd], ho⟩
      obtain ⟨heap1, hr, hlen, hpt⟩ := ih (heap.set p (offer c data)) hnd2 hall2
      refine ⟨heap1, ?_, by simpa using hlen, ?_⟩
      · simp [rangeSend, hc, hcond, hst, hr]
      · intro q d hd
        by_cases hq : p = q
        · subst hq
          rw [hc] at hd
          cases hd
          have := hpt p (offer c data) (by simp [List.getElem?_set, hlt])
          simpa [hp, hcond] using this
        · have := hpt q d (by simp [List.getElem?_set, hq, hd])
          have hq2 : ¬ q = p := fun e => hq e.symm
          simpa [hq2] using this
    · have hall2 : ∀ q ∈ ps, ∃ d, heap[q]? = some d ∧
          (cond d = true → d.Send.closed = false) :=
        fun q hq => hall q (List.mem_cons_of_mem _ hq)
      obtain ⟨heap1, hr, hlen, hpt⟩ := ih heap hnd2 hall2
      refine ⟨heap1, ?_, hlen, ?_⟩
      · simp [rangeSend, hc, hcond, hr]
      · intro q d hd
        by_cases hq : p = q
        · subst hq
          rw [hc] at hd
          cases hd
          have := hpt p c hc
          simpa [hcond] using this
        · have := hpt q d hd
          have hq2 : ¬ q = p := fun e => hq e.symm
          simpa [hq2] using this

/-! ## Transfer of the invariants along related heaps -/

theorem inRooms_congr {h h1 : Hub}
    (hh : HeapRel (fun c c1 => c1.Rooms = c.Rooms) h.heap h1.heap) (p : Ptr) (r : String) :
    InRooms h1 p r ↔ InRooms h p r := by
  constructor
  · rintro ⟨c1, hc1, hr⟩
    obtain ⟨c, hc, e⟩ := hh.back hc1
    exact ⟨c, hc, e ▸ hr⟩
  · rintro ⟨c, hc, hr⟩
    obtain ⟨c1, hc1, e⟩ := hh.2 p c hc
    exact ⟨c1, hc1, e.symm ▸ hr⟩

theorem RoomsInv.transfer_rooms {h h1 : Hub} (hr : h1.rooms = h.rooms)
    (hh : HeapRel (fun c c1 => c1.Rooms = c.Rooms) h.heap h1.heap) (inv : RoomsInv h) :
    RoomsInv h1 := by
  refine ⟨fun p r => ?_, fun r room hg => ?_, fun r room hg => ?_⟩
  · rw [inRooms_congr hh, ← inv.sym]
    unfold Member
    rw [hr]
  · rw [hr] at hg
    exact inv.nonempty r room hg
  · rw [hr] at hg
    exact inv.members r room hg

theorem RegInv.transfer_reg {h h1 : Hub} (hcl : h1.clients = h.clients)
    (hh : HeapRel (fun c c1 => c1.ID = c.ID ∧ c1.Send.closed = c.Send.closed) h.heap h1.heap)
    (inv : RegInv h) : RegInv h1 := by
  refine ⟨fun k p hg => ?_, hcl ▸ inv.keys⟩
  rw [hcl] at hg
  obtain ⟨c, hc, hid, hopen⟩ := inv.reg k p hg
  obtain ⟨c1, hc1, e1, e2⟩ := hh.2 p c hc
  exact ⟨c1, hc1, e1.trans hid, e2.trans hopen⟩

theorem HeapInv.transfer_heap {h h1 : Hub}
    (hh : HeapRel (fun c c1 => c1.ID = c.ID ∧ c1.Send.cap = c.Send.cap ∧
      (c1.Send.buf.length ≤ c.Send.buf.length ∨ c1.Send.buf.length ≤ c.Send.cap))
      h.heap h1.heap)
    (inv : HeapInv h) : HeapInv h1 := by
  refine ⟨fun p q c1 d1 hc1 hd1 e => ?_, fun p c1 hc1 => ?_⟩
  · obtain ⟨c, hc, ec, _⟩ := hh.back hc1
    obtain ⟨d, hd, ed, _⟩ := hh.back hd1
    exact inv.ids p q c d hc hd (by rw [← ec, ← ed, e])
  · obtain ⟨c, hc, _, ecap, elen⟩ := hh.back hc1
    obtain ⟨b1, b2⟩ := inv.bound p c hc
    refine ⟨ecap.trans b1, ?_⟩
    rw [b1] at elen
    omega

theorem Inv.queueOnly {h h1 : Hub} (hq : QueueOnly h h1) (inv : Inv h) : Inv h1 := by
  obtain ⟨hcl, hr, hh⟩ := hq
  exact ⟨inv.rooms.transfer_rooms hr (hh.mono fun _ _ r => r.2.2.1),
    inv.registry.transfer_reg hcl (hh.mono fun _ _ r => ⟨r.1, r.2.2.2.1⟩),
    inv.heap.transfer_heap (hh.mono fun _ _ r => ⟨r.1, r.2.2.2.2.1, r.2.2.2.2.2⟩)⟩

theorem Inv.roomsRel {h h1 : Hub} (hcl : h1.clients = h.clients)
    (hh : HeapRel RoomsRel h.heap h1.heap) (rinv : RoomsInv h1) (inv : Inv h) : Inv h1 :=
  ⟨rinv,
    inv.registry.transfer_reg hcl (hh.mono fun _ _ r => ⟨r.1, by rw [r.2.2]⟩),
    inv.heap.transfer_heap (hh.mono fun _ _ r => ⟨r.1, by rw [r.2.2], Or.inl (by rw [r.2.2])⟩)⟩

/-! ## The operations that only touch queues -/

theorem broadcastToAll_queueOnly {J : Codec} {h h1 : Hub} {m : Message}
    (hs : broadcastToAll J h m = some h1) : QueueOnly h h1 := by
  unfold broadcastToAll at hs
  cases hm : J.marshal m with
  | none =>
    simp [hm] at hs
    subst hs
    exact QueueOnly.refl_hub h
  | some data =>
    simp only [hm] at hs
    cases hr : rangeSend (fun _ => true) data (h.clients.map Prod.snd) h.heap with
    | none => simp [hr] at hs
    | some heap1 =>
      simp [hr] at hs
      subst hs
      exact ⟨rfl, rfl, rangeSend_rel _ _ _ hr⟩

theorem sendToUser_queueOnly {J : Codec} {h h1 : Hub} {u : UUID} {m : Message}
    (hs : sendToUser J h u m = some h1) : QueueOnly h h1 := by
  unfold sendToUser at hs
  cases hm : J.marshal m with
  | none =>
    simp [hm] at hs
    subst hs
    exact QueueOnly.refl_hub h
  | some data =>
    simp only [hm] at hs
    cases hr : rangeSend (fun c => decide (c.UserID = u)) data (h.clients.map Prod.snd) h.heap with
    | none => simp [hr] at hs
    | some heap1 =>
      simp [hr] at hs
      subst hs
      exact ⟨rfl, rfl, rangeSend_rel _ _ _ hr⟩

theorem broadcastToRoom_queueOnly {J : Codec} {h h1 : Hub} {m : Message}
    (hs : broadcastToRoom J h m = some h1) : QueueOnly h h1 := by
  unfold broadcastToRoom at hs
  cases hu : J.unmarshalRoomID m.Data with
  | none =>
    simp [hu] at hs
    subst hs
    exact QueueOnly.refl_hub h
  | some r =>
    simp only [hu] at hs
    cases hg : mapGet h.rooms r with
    | none =>
      simp [hg] at hs
      subst hs
      exact QueueOnly.refl_hub h
    | some room =>
      simp only [hg] at hs
      cases hm : J.marshal m with
      | none =>
        simp [hm] at hs
        subst hs
        exact QueueOnly.refl_hub h
      | some data =>
        simp only [hm] at hs
        cases hr : rangeSend (fun _ => true) data room.Clients h.heap with
        | none => simp [hr] at hs
        | some heap1 =>
          simp [hr] at hs
          subst hs
          exact ⟨rfl, rfl, rangeSend_rel _ _ _ hr⟩

theorem handleMessage_queueOnly {J : Codec} {h h1 : Hub} {m : Message}
    (hs : handleMessage J h m = some h1) : QueueOnly h h1 := by
  unfold handleMessage at hs
  split at hs
  · exact broadcastToRoom_queueOnly hs
  · split at hs
    · exact sendToUser_queueOnly hs
    · exact broadcastToAll_queueOnly hs

theorem pingClients_queueOnly {J : Codec} {h h1 : Hub} {msgID : String} {now : Nat}
    (hs : pingClients J h msgID now = some h1) : QueueOnly h h1 := by
  unfold pingClients at hs
  split at hs
  · cases hs
    exact QueueOnly.refl_hub h
  · split at hs
    · cases hs
    · rename_i hr
      cases hs
      exact ⟨rfl, rfl, rangeSend_rel _ _ _ hr⟩

theorem SendMessage_queueOnly {J : Codec} {h h1 : Hub} {p : Ptr} {t : MessageType}
    {jd : Option Bytes} {msgID : String} {now : Nat} {e : Bool}
    (hs : SendMessage J h p t jd msgID now = some (h1, e)) : QueueOnly h h1 := by
  unfold SendMessage at hs
  split at hs
  · cases hs
  · split at hs
    · cases hs
      exact QueueOnly.refl_hub h
    · split at hs
      · cases hs
        exact QueueOnly.refl_hub h
      · split at hs
        · cases hs
        · rename_i hr
          cases hs
          exact ⟨rfl, rfl, sendTo_rel hr⟩

theorem sendError_queueOnly {J : Codec} {h h1 : Hub} {p : Ptr} {jd : Bytes}
    {msgID : String} {now : Nat}
    (hs : sendError J h p jd msgID now = some h1) : QueueOnly h h1 := by
  unfold sendError at hs
  split at hs
  · cases hs
  · split at hs
    · cases hs
      exact QueueOnly.refl_hub h
    · split at hs
      · cases hs
      · rename_i hr
        cases hs
        exact ⟨rfl, rfl, sendTo_rel hr⟩

theorem recv_queueOnly {h h1 : Hub} {p : Ptr} {m : Bytes}
    (hs : recv h p = some (h1, m)) : QueueOnly h h1 := by
  unfold recv at hs
  split at hs
  · cases hs
  · rename_i c hc
    split at hs
    · cases hs
    · rename_i m1 rest hb
      cases hs
      refine ⟨rfl, rfl, HeapRel.set QueueRel.refl_queue hc ⟨rfl, rfl, rfl, rfl, rfl, Or.inl ?_⟩⟩
      simp [hb]

/-! ## NewClient and registerClient -/

theorem getElem?_concat_eq_some {heap : List Client} {c0 c : Client} {p : Ptr}
    (hc : (heap ++ [c0])[p]? = some c) :
    heap[p]? = some c ∨ (p = heap.length ∧ c = c0) := by
  by_cases hlt : p < heap.length
  · rw [List.getElem?_append_left hlt] at hc
    exact Or.inl hc
  · have hle : heap.length ≤ p := Nat.le_of_not_lt hlt
    obtain ⟨hlt2, _⟩ := List.getElem?_eq_some.mp hc
    have hlt3 : p < heap.length + 1 := by simpa using hlt2
    have hp : p = heap.length := Nat.le_antisymm (Nat.le_of_lt_succ hlt3) hle
    subst hp
    simp at hc
    exact Or.inr ⟨rfl, hc.symm⟩

theorem getElem?_concat_of_some {heap : List Client} (c0 : Client) {c : Client} {p : Ptr}
    (hc : heap[p]? = some c) : (heap ++ [c0])[p]? = some c := by
  obtain ⟨hlt, _⟩ := List.getElem?_eq_some.mp hc
  rw [List.getElem?_append_left hlt]
  exact hc

theorem Inv.newClient {h : Hub} (id userID : UUID) (inv : Inv h)
    (hfresh : id ∉ h.heap.map Client.ID) : Inv (NewClient h id userID).1 := by
  have hnot : ∀ (q : Ptr) (d : Client), h.heap[q]? = some d → d.ID ≠ id := by
    intro q d hd e
    apply hfresh
    obtain ⟨hlt, he⟩ := List.getElem?_eq_some.mp hd
    exact List.mem_map.mpr ⟨d, he ▸ List.getElem_mem hlt, e⟩
  refine ⟨⟨fun p r => ?_, inv.rooms.nonempty, inv.rooms.members⟩,
    ⟨fun k p hg => ?_, inv.registry.keys⟩, ⟨fun p q c d hc hd e => ?_, fun p c hc => ?_⟩⟩
  · constructor
    · intro hm
      obtain ⟨c, hc, hr⟩ := (inv.rooms.sym p r).mp hm
      exact ⟨c, getElem?_concat_of_some _ hc, hr⟩
    · rintro ⟨c, hc, hr⟩
      rcases getElem?_concat_eq_some hc with hold | ⟨_, rfl⟩
      · exact (inv.rooms.sym p r).mpr ⟨c, hold, hr⟩
      · simp at hr
  · obtain ⟨c, hc, h1, h2⟩ := inv.registry.reg k p hg
    exact ⟨c, getElem?_concat_of_some _ hc, h1, h2⟩
  · rcases getElem?_concat_eq_some hc with hc1 | ⟨hp, rfl⟩
    · rcases getElem?_concat_eq_some hd with hd1 | ⟨hq, rfl⟩
      · exact inv.heap.ids p q c d hc1 hd1 e
      · exact absurd e (hnot p c hc1)
    · rcases getElem?_concat_eq_some hd with hd1 | ⟨hq, rfl⟩
      · exact absurd e.symm (hnot q d hd1)
      · rw [hp, hq]
  · rcases getElem?_concat_eq_some hc with hc1 | ⟨_, rfl⟩
    · exact inv.heap.bound p c hc1
    · simp

theorem registerClient_eq {J : Codec} {h h1 : Hub} {p : Ptr} {msgID : String} {now : Nat}
    (hs : registerClient J h p msgID now = some h1) :
    ∃ c data, h.heap[p]? = some c ∧ c.Send.closed = false ∧
      J.marshal { ID := msgID, Type_ := MessageTypeConnect, UserID := 0,
                  Timestamp := now, Data := J.connectData } = some data ∧
      h1 = { clients := mapSet h.clients c.ID p, rooms := h.rooms,
             heap := h.heap.set p (offer c data) } := by
  unfold registerClient at hs
  cases hc : h.heap[p]? with
  | none => simp [hc] at hs
  | some c =>
    simp only [hc] at hs
    have hsome := J.marshal_connect msgID now
    cases hm : J.marshal { ID := msgID, Type_ := MessageTypeConnect, UserID := 0,
                           Timestamp := now, Data := J.connectData } with
    | none => simp [hm] at hsome
    | some data =>
      simp only [hm] at hs
      cases hst : sendTo h.heap p data with
      | none => simp [hst] at hs
      | some heap1 =>
        simp only [hst, Option.some.injEq] at hs
        obtain ⟨c2, hc2, hopen, rfl⟩ := sendTo_eq hst
        rw [hc] at hc2
        cases hc2
        exact ⟨c, data, rfl, hopen, rfl, hs.symm⟩

theorem Inv.register {J : Codec} {h h1 : Hub} {p : Ptr} {msgID : String} {now : Nat}
    (hs : registerClient J h p msgID now = some h1) (inv : Inv h) : Inv h1 := by
  obtain ⟨c, data, hc, hopen, _, he⟩ := registerClient_eq hs
  have hcl : h1.clients = mapSet h.clients c.ID p := by rw [he]
  have hr : h1.rooms = h.rooms := by rw [he]
  have hh : HeapRel QueueRel h.heap h1.heap := by
    rw [he]
    exact HeapRel.set QueueRel.refl_queue hc (QueueRel.offer c data)
  refine ⟨inv.rooms.transfer_rooms hr (hh.mono fun _ _ r => r.2.2.1), ⟨fun k q hg => ?_, ?_⟩,
    inv.heap.transfer_heap (hh.mono fun _ _ r => ⟨r.1, r.2.2.2.2.1, r.2.2.2.2.2⟩)⟩
  · rw [hcl] at hg
    by_cases hk : k = c.ID
    · subst hk
      simp only [mapGet_mapSet_self, Option.some.injEq] at hg
      subst hg
      obtain ⟨c1, hc1, r⟩ := hh.2 p c hc
      exact ⟨c1, hc1, r.1, r.2.2.2.1.trans hopen⟩
    · simp only [mapGet_mapSet_ne _ _ hk] at hg
      obtain ⟨d, hd, hid, ho⟩ := inv.registry.reg k q hg
      obtain ⟨d1, hd1, r⟩ := hh.2 q d hd
      exact ⟨d1, hd1, r.1.trans hid, r.2.2.2.1.trans ho⟩
  · rw [hcl]
    exact nodup_keys_mapSet _ _ inv.registry.keys

/-! ## JoinRoom and removeFromRoom -/

theorem inRooms_set {h h1 : Hub} {p : Ptr} {c c1 : Client} (hc : h.heap[p]? = some c)
    (hheap : h1.heap = h.heap.set p c1) (q : Ptr) (r : String) :
    InRooms h1 q r ↔ (q = p ∧ r ∈ c1.Rooms) ∨ (q ≠ p ∧ InRooms h q r) := by
  obtain ⟨hlt, _⟩ := List.getElem?_eq_some.mp hc
  unfold InRooms
  rw [hheap]
  by_cases hq : p = q
  · subst hq
    simp [List.getElem?_set, hlt]
  · have hq2 : ¬ q = p := fun e => hq e.symm
    simp [List.getElem?_set, hq, hq2]

theorem RoomsInv.update {h h1 : Hub} {p : Ptr} {r : String} {c : Client}
    {rs1 : List String} {cl1 : List Ptr} (inv : RoomsInv h)
    (hc : h.heap[p]? = some c)
    (hheap : h1.heap = h.heap.set p { c with Rooms := rs1 })
    (hother : ∀ r1, r1 ≠ r → mapGet h1.rooms r1 = mapGet h.rooms r1)
    (hself : ∀ room1, mapGet h1.rooms r = some room1 → room1.Clients = cl1 ∧ cl1 ≠ [])
    (hself2 : cl1 ≠ [] → ∃ room1, mapGet h1.rooms r = some room1 ∧ room1.Clients = cl1)
    (hcl : ∀ q, q ∈ cl1 ↔ (q ≠ p ∧ Member h q r) ∨ (q = p ∧ r ∈ rs1))
    (hrs : ∀ r1, r1 ≠ r → (r1 ∈ rs1 ↔ r1 ∈ c.Rooms))
    (hnd : cl1.Nodup) : RoomsInv h1 := by
  refine ⟨fun q r1 => ?_, fun r1 room hg => ?_, fun r1 room hg => ?_⟩
  · rw [inRooms_set hc hheap]
    by_cases hr : r1 = r
    · subst hr
      have hmem : Member h1 q r1 ↔ q ∈ cl1 := by
        constructor
        · rintro ⟨room1, hg, hq⟩
          exact (hself room1 hg).1 ▸ hq
        · intro hq
          obtain ⟨room1, hg, e⟩ := hself2 (List.ne_nil_of_mem hq)
          exact ⟨room1, hg, e.symm ▸ hq⟩
      rw [hmem, hcl, inv.sym]
      simp only [ne_eq]
      tauto
    · have hmem : Member h1 q r1 ↔ Member h q r1 := by
        unfold Member
        rw [hother r1 hr]
      rw [hmem, inv.sym]
      by_cases hq : q = p
      · subst hq
        have : InRooms h q r1 ↔ r1 ∈ c.Rooms := by
          unfold InRooms
          simp [hc]
        simp [this, hrs r1 hr]
      · simp [hq]
  · by_cases hr : r1 = r
    · subst hr
      obtain ⟨e, hne⟩ := hself room hg
      rw [e]
      exact hne
    · rw [hother r1 hr] at hg
      exact inv.nonempty r1 room hg
  · by_cases hr : r1 = r
    · subst hr
      obtain ⟨e, _⟩ := hself room hg
      rw [e]
      exact hnd
    · rw [hother r1 hr] at hg
      exact inv.members r1 room hg

theorem JoinRoom_eq {h h1 : Hub} {p : Ptr} {r : String} (hs : JoinRoom h p r = some h1) :
    ∃ c, h.heap[p]? = some c ∧
      h1 = { clients := h.clients,
             rooms := mapSet h.rooms r
               { ID := (match mapGet h.rooms r with
                        | some room => room
                        | none => { ID := r, Clients := [] }).ID,
                 Clients := setAdd (match mapGet h.rooms r with
                        | some room => room
                        | none => { ID := r, Clients := [] }).Clients p },
             heap := h.heap.set p { c with Rooms := setAdd c.Rooms r } } := by
  unfold JoinRoom at hs
  cases hc : h.heap[p]? with
  | none => simp [hc] at hs
  | some c =>
    simp only [hc, Option.some.injEq] at hs
    exact ⟨c, rfl, hs.symm⟩

theorem JoinRoom_rel {h h1 : Hub} {p : Ptr} {r : String} (hs : JoinRoom h p r = some h1) :
    h1.clients = h.clients ∧ HeapRel RoomsRel h.heap h1.heap := by
  obtain ⟨c, hc, rfl⟩ := JoinRoom_eq hs
  exact ⟨rfl, HeapRel.set RoomsRel.refl_rooms hc ⟨rfl, rfl, rfl⟩⟩

theorem RoomsInv.join_rooms {h h1 : Hub} {p : Ptr} {r : String} (hs : JoinRoom h p r = some h1)
    (inv : RoomsInv h) : RoomsInv h1 := by
  obtain ⟨c, hc, rfl⟩ := JoinRoom_eq hs
  have hmem : ∀ q, q ∈ (match mapGet h.rooms r with
      | some room => room
      | none => ({ ID := r, Clients := [] } : Room)).Clients ↔ Member h q r := by
    intro q
    unfold Member
    cases hg : mapGet h.rooms r with
    | none => simp
    | some room => simp
  have hnd : (match mapGet h.rooms r with
      | some room => room
      | none => ({ ID := r, Clients := [] } : Room)).Clients.Nodup := by
    cases hg : mapGet h.rooms r with
    | none => simp
    | some room => exact inv.members r room hg
  have hne : setAdd (match mapGet h.rooms r with
      | some room => room
      | none => ({ ID := r, Clients := [] } : Room)).Clients p ≠ [] :=
    List.ne_nil_of_mem ((mem_setAdd _ _ _).mpr (Or.inr rfl))
  refine inv.update hc rfl (fun r1 hr => mapGet_mapSet_ne _ _ hr) (fun room1 hg => ?_)
    (fun _ => ⟨_, mapGet_mapSet_self _ _ _, rfl⟩) (fun q => ?_) (fun r1 hr => ?_)
    (nodup_setAdd p hnd)
  · simp only [mapGet_mapSet_self, Option.some.injEq] at hg
    subst hg
    exact ⟨rfl, hne⟩
  · rw [mem_setAdd, hmem]
    have hr : r ∈ setAdd c.Rooms r := (mem_setAdd _ _ _).mpr (Or.inr rfl)
    by_cases hq : q = p
    · simp [hq, hr]
    · simp [hq]
  · rw [mem_setAdd]
    simp [hr]

theorem Inv.join_inv {h h1 : Hub} {p : Ptr} {r : String} (hs : JoinRoom h p r = some h1)
    (inv : Inv h) : Inv h1 :=
  inv.roomsRel (JoinRoom_rel hs).1 (JoinRoom_rel hs).2 (inv.rooms.join_rooms hs)

theorem removeFromRoom_eq {h h1 : Hub} {p : Ptr} {r : String}
    (hs : removeFromRoom h p r = some h1) :
    (mapGet h.rooms r = none ∧ h1 = h) ∨
    ∃ room c, mapGet h.rooms r = some room ∧ h.heap[p]? = some c ∧
      h1.clients = h.clients ∧
      h1.heap = h.heap.set p { c with Rooms := setDel c.Rooms r } ∧
      ((setDel room.Clients p = [] ∧ h1.rooms = mapDelete h.rooms r) ∨
       (setDel room.Clients p ≠ [] ∧
        h1.rooms = mapSet h.rooms r { room with Clients := setDel room.Clients p })) := by
  unfold removeFromRoom at hs
  cases hg : mapGet h.rooms r with
  | none =>
    simp only [hg, Option.some.injEq] at hs
    exact Or.inl ⟨rfl, hs.symm⟩
  | some room =>
    simp only [hg] at hs
    cases hc : h.heap[p]? with
    | none => simp [hc] at hs
    | some c =>
      simp only [hc] at hs
      refine Or.inr ⟨room, c, rfl, rfl, ?_⟩
      by_cases hl : (setDel room.Clients p).length = 0
      · simp only [hl, if_true, Option.some.injEq] at hs
        subst hs
        exact ⟨rfl, rfl, Or.inl ⟨List.length_eq_zero.mp hl, rfl⟩⟩
      · simp only [hl, if_false, Option.some.injEq] at hs
        subst hs
        exact ⟨rfl, rfl, Or.inr ⟨fun e => hl (List.length_eq_zero.mpr e), rfl⟩⟩

theorem removeFromRoom_total {h : Hub} {p : Ptr} {c : Client} (r : String)
    (hc : h.heap[p]? = some c) : ∃ h1, removeFromRoom h p r = some h1 := by
  unfold removeFromRoom
  cases hg : mapGet h.rooms r with
  | none => exact ⟨h, rfl⟩
  | some room =>
    simp only [hc]
    split
    · exact ⟨_, rfl⟩
    · exact ⟨_, rfl⟩

theorem removeFromRoom_rel {h h1 : Hub} {p : Ptr} {r : String}
    (hs : removeFromRoom h p r = some h1) :
    h1.clients = h.clients ∧ HeapRel RoomsRel h.heap h1.heap := by
  rcases removeFromRoom_eq hs with ⟨_, rfl⟩ | ⟨room, c, _, hc, hcl, hheap, _⟩
  · exact ⟨rfl, HeapRel.refl_heap RoomsRel.refl_rooms _⟩
  · rw [hheap]
    exact ⟨hcl, HeapRel.set RoomsRel.refl_rooms hc ⟨rfl, rfl, rfl⟩⟩

theorem RoomsInv.leave_rooms {h h1 : Hub} {p : Ptr} {r : String}
    (hs : removeFromRoom h p r = some h1) (inv : RoomsInv h) : RoomsInv h1 := by
  rcases removeFromRoom_eq hs with ⟨_, rfl⟩ | ⟨room, c, hg, hc, _, hheap, hrooms⟩
  · exact inv
  · have hmem : ∀ q, Member h q r ↔ q ∈ room.Clients := by
      intro q
      unfold Member
      simp [hg]
    refine @RoomsInv.update h h1 p r c _ _ inv hc hheap (fun r1 hr => ?_)
      (fun room1 hg1 => ?_) (fun hne => ?_)
      (fun q => ?_) (fun r1 hr => ?_) (nodup_setDel p (inv.members r room hg))
    · rcases hrooms with ⟨_, e⟩ | ⟨_, e⟩
      · rw [e, mapGet_mapDelete_ne _ hr]
      · rw [e, mapGet_mapSet_ne _ _ hr]
    · rcases hrooms with ⟨_, e⟩ | ⟨hne, e⟩
      · rw [e, mapGet_mapDelete_self] at hg1
        cases hg1
      · rw [e, mapGet_mapSet_self] at hg1
        cases hg1
        exact ⟨rfl, hne⟩
    · rcases hrooms with ⟨he, _⟩ | ⟨_, e⟩
      · exact absurd he hne
      · exact ⟨_, by rw [e, mapGet_mapSet_self], rfl⟩
    · rw [mem_setDel, mem_setDel, hmem]
      by_cases hq : q = p
      · simp [hq]
      · simp [hq]
    · rw [mem_setDel]
      simp [hr]

theorem Inv.leave_inv {h h1 : Hub} {p : Ptr} {r : String}
    (hs : removeFromRoom h p r = some h1) (inv : Inv h) : Inv h1 :=
  inv.roomsRel (removeFromRoom_rel hs).1 (removeFromRoom_rel hs).2 (inv.rooms.leave_rooms hs)

theorem removeFromRoom_rooms {h h1 : Hub} {p : Ptr} {r : String} {c : Client}
    (inv : RoomsInv h) (hc : h.heap[p]? = some c) (hs : removeFromRoom h p r = some h1) :
    h1.heap[p]? = some { c with Rooms := setDel c.Rooms r } := by
  obtain ⟨hlt, _⟩ := List.getElem?_eq_some.mp hc
  rcases removeFromRoom_eq hs with ⟨hg, rfl⟩ | ⟨room, c2, _, hc2, _, hheap, _⟩
  · have hnot : r ∉ c.Rooms := by
      intro hr
      obtain ⟨room, hg2, _⟩ := (inv.sym p r).mpr ⟨c, hc, hr⟩
      rw [hg] at hg2
      cases hg2
    rw [setDel_of_not_mem hnot]
    exact hc
  · rw [hc] at hc2
    cases hc2
    rw [hheap]
    simp [List.getElem?_set, hlt]

/-! ## unregisterClient -/

theorem removeFromRooms_total (p : Ptr) (rs : List String) :
    ∀ {h : Hub} {c : Client}, h.heap[p]? = some c → ∃ h1, removeFromRooms p rs h = some h1 := by
  induction rs with
  | nil => exact fun {h} _ _ => ⟨h, rfl⟩
  | cons r rs ih =>
    intro h c hc
    obtain ⟨h2, hs⟩ := removeFromRoom_total r hc
    obtain ⟨c2, hc2, _⟩ := (removeFromRoom_rel hs).2.2 p c hc
    obtain ⟨h1, hs1⟩ := ih hc2
    exact ⟨h1, by simp [removeFromRooms, hs, hs1]⟩

theorem removeFromRooms_inv (p : Ptr) (rs : List String) :
    ∀ {h h1 : Hub}, removeFromRooms p rs h = some h1 → Inv h →
      Inv h1 ∧ h1.clients = h.clients ∧ HeapRel RoomsRel h.heap h1.heap := by
  induction rs with
  | nil =>
    intro h h1 hs inv
    simp only [removeFromRooms, Option.some.injEq] at hs
    subst hs
    exact ⟨inv, rfl, HeapRel.refl_heap RoomsRel.refl_rooms _⟩
  | cons r rs ih =>
    intro h h1 hs inv
    unfold removeFromRooms at hs
    cases hr : removeFromRoom h p r with
    | none => simp [hr] at hs
    | some h2 =>
      simp only [hr] at hs
      obtain ⟨inv1, hcl, hh⟩ := ih hs (inv.leave_inv hr)
      exact ⟨inv1, hcl.trans (removeFromRoom_rel hr).1,
        HeapRel.trans_heap RoomsRel.trans_rooms (removeFromRoom_rel hr).2 hh⟩

theorem removeFromRooms_rooms (p : Ptr) (rs : List String) :
    ∀ {h h1 : Hub} {c : Client}, RoomsInv h → h.heap[p]? = some c →
      removeFromRooms p rs h = some h1 →
      ∃ c1, h1.heap[p]? = some c1 ∧ ∀ x, x ∈ c1.Rooms ↔ x ∈ c.Rooms ∧ x ∉ rs := by
  induction rs with
  | nil =>
    intro h h1 c _ hc hs
    simp only [removeFromRooms, Option.some.injEq] at hs
    subst hs
    exact ⟨c, hc, fun x => by simp⟩
  | cons r rs ih =>
    intro h h1 c inv hc hs
    unfold removeFromRooms at hs
    cases hr : removeFromRoom h p r with
    | none => simp [hr] at hs
    | some h2 =>
      simp only [hr] at hs
      obtain ⟨c1, hc1, hx⟩ := ih (inv.leave_rooms hr) (removeFromRoom_rooms inv hc hr) hs
      refine ⟨c1, hc1, fun x => ?_⟩
      rw [hx]
      simp only [mem_setDel, List.mem_cons, not_or]
      tauto

theorem removeFromRooms_rel (p : Ptr) (rs : List String) :
    ∀ {h h1 : Hub}, removeFromRooms p rs h = some h1 →
      h1.clients = h.clients ∧ HeapRel RoomsRel h.heap h1.heap := by
  induction rs with
  | nil =>
    intro h h1 hs
    simp only [removeFromRooms, Option.some.injEq] at hs
    subst hs
    exact ⟨rfl, HeapRel.refl_heap RoomsRel.refl_rooms _⟩
  | cons r rs ih =>
    intro h h1 hs
    unfold removeFromRooms at hs
    cases hr : removeFromRoom h p r with
    | none => simp [hr] at hs
    | some h2 =>
      simp only [hr] at hs
      obtain ⟨hcl, hh⟩ := ih hs
      exact ⟨hcl.trans (removeFromRoom_rel hr).1,
        HeapRel.trans_heap RoomsRel.trans_rooms (removeFromRoom_rel hr).2 hh⟩

theorem unregisterClient_eq {h h1 : Hub} {p : Ptr} (hs : unregisterClient h p = some h1) :
    ∃ c, h.heap[p]? = some c ∧
      ((mapGet h.clients c.ID = none ∧ h1 = h) ∨
       ∃ q h2 c2, mapGet h.clients c.ID = some q ∧ removeFromRooms p c.Rooms h = some h2 ∧
         h2.heap[p]? = some c2 ∧ c2.Send.closed = false ∧
         h1 = { clients := mapDelete h2.clients c.ID, rooms := h2.rooms,
                heap := h2.heap.set p { c2 with Send := { c2.Send with closed := true } } }) := by
  unfold unregisterClient at hs
  cases hc : h.heap[p]? with
  | none => simp [hc] at hs
  | some c =>
    simp only [hc] at hs
    refine ⟨c, rfl, ?_⟩
    cases hg : mapGet h.clients c.ID with
    | none =>
      simp only [hg, Option.some.injEq] at hs
      exact Or.inl ⟨rfl, hs.symm⟩
    | some q =>
      simp only [hg] at hs
      cases hr : removeFromRooms p c.Rooms h with
      | none => simp [hr] at hs
      | some h2 =>
        simp only [hr] at hs
        cases hc2 : h2.heap[p]? with
        | none => simp [hc2] at hs
        | some c2 =>
          simp only [hc2] at hs
          unfold closeChan at hs
          by_cases hcl : c2.Send.closed = true
          · simp [hcl] at hs
          · have hcl2 : c2.Send.closed = false := by simpa using hcl
            simp only [hcl2, Bool.false_eq_true, if_false, Option.some.injEq] at hs
            exact Or.inr ⟨q, h2, c2, rfl, rfl, hc2, hcl2, hs.symm⟩

theorem Inv.unregister {h h1 : Hub} {p : Ptr} (hs : unregisterClient h p = some h1)
    (inv : Inv h) : Inv h1 := by
  obtain ⟨c, hc, ⟨_, rfl⟩ | ⟨q, h2, c2, _, hr, hc2, _, he⟩⟩ := unregisterClient_eq hs
  · exact inv
  · obtain ⟨inv2, _, hh2⟩ := removeFromRooms_inv p c.Rooms hr inv
    obtain ⟨c2b, hc2b, rel⟩ := hh2.2 p c hc
    rw [hc2] at hc2b
    cases hc2b
    have hcl : h1.clients = mapDelete h2.clients c.ID := by rw [he]
    have hrm : h1.rooms = h2.rooms := by rw [he]
    have hheap : h1.heap = h2.heap.set p { c2 with Send := { c2.Send with closed := true } } := by
      rw [he]
    have hh : HeapRel (fun a b => b.ID = a.ID ∧ b.Rooms = a.Rooms ∧ b.Send.cap = a.Send.cap ∧
        b.Send.buf = a.Send.buf) h2.heap h1.heap := by
      rw [hheap]
      exact HeapRel.set (fun _ => ⟨rfl, rfl, rfl, rfl⟩) hc2 ⟨rfl, rfl, rfl, rfl⟩
    refine ⟨inv2.rooms.transfer_rooms hrm (hh.mono fun _ _ r => r.2.1), ⟨fun k s hg => ?_, ?_⟩,
      inv2.heap.transfer_heap (hh.mono fun _ _ r => ⟨r.1, r.2.2.1, Or.inl (by rw [r.2.2.2])⟩)⟩
    · rw [hcl] at hg
      have hk : k ≠ c.ID := by
        intro e
        rw [e, mapGet_mapDelete_self] at hg
        cases hg
      rw [mapGet_mapDelete_ne _ hk] at hg
      obtain ⟨d, hd, hid, ho⟩ := inv2.registry.reg k s hg
      have hsp : p ≠ s := by
        intro e
        subst e
        rw [hc2] at hd
        cases hd
        exact hk (hid.symm.trans rel.1)
      exact ⟨d, by rw [hheap]; simp [List.getElem?_set, hsp, hd], hid, ho⟩
    · rw [hcl]
      exact nodup_keys_mapDelete _ inv2.registry.keys

/-! ## The invariant holds in every reachable state -/

theorem Inv.init : Inv NewHub := by
  refine ⟨⟨fun p r => ?_, fun r room hg => ?_, fun r room hg => ?_⟩,
    ⟨fun k p hg => ?_, List.nodup_nil⟩, ⟨fun p q c d hc => ?_, fun p c hc => ?_⟩⟩
  · simp [Member, InRooms, NewHub, mapGet]
  · simp [NewHub, mapGet] at hg
  · simp [NewHub, mapGet] at hg
  · simp [NewHub, mapGet] at hg
  · simp [NewHub] at hc
  · simp [NewHub] at hc

theorem inv_of_reachable {J : Codec} {h : Hub} (hr : Reachable J h) : Inv h := by
  induction hr with
  | init => exact Inv.init
  | newClient id userID _ hfresh ih => exact ih.newClient id userID hfresh
  | register p msgID now _ hs ih => exact ih.register hs
  | unregister p _ hs ih => exact ih.unregister hs
  | join p r _ hs ih => exact ih.join_inv hs
  | leave p r _ hs ih => exact ih.leave_inv hs
  | handle m _ hs ih => exact ih.queueOnly (handleMessage_queueOnly hs)
  | ping msgID now _ hs ih => exact ih.queueOnly (pingClients_queueOnly hs)
  | sendMessage p t jd msgID now e _ hs ih => exact ih.queueOnly (SendMessage_queueOnly hs)
  | sendError p jd msgID now _ hs ih => exact ih.queueOnly (sendError_queueOnly hs)
  | recv p m _ hs ih => exact ih.queueOnly (recv_queueOnly hs)

/-! ## Frames and totality of unregisterClient -/

theorem removeFromRoom_frame {h h1 : Hub} {p q : Ptr} {r : String}
    (hs : removeFromRoom h p r = some h1) (hq : q ≠ p) : h1.heap[q]? = h.heap[q]? := by
  rcases removeFromRoom_eq hs with ⟨_, rfl⟩ | ⟨room, c, _, _, _, hheap, _⟩
  · rfl
  · rw [hheap, List.getElem?_set_ne (Ne.symm hq)]

theorem removeFromRooms_frame (p : Ptr) (rs : List String) :
    ∀ {h h1 : Hub} {q : Ptr}, removeFromRooms p rs h = some h1 → q ≠ p →
      h1.heap[q]? = h.heap[q]? := by
  induction rs with
  | nil =>
    intro h h1 q hs _
    simp only [removeFromRooms, Option.some.injEq] at hs
    rw [hs]
  | cons r rs ih =>
    intro h h1 q hs hq
    unfold removeFromRooms at hs
    cases hr : removeFromRoom h p r with
    | none => simp [hr] at hs
    | some h2 =>
      simp only [hr] at hs
      rw [ih hs hq, removeFromRoom_frame hr hq]

theorem unregisterClient_frame {h h1 : Hub} {p q : Ptr}
    (hs : unregisterClient h p = some h1) (hq : q ≠ p) : h1.heap[q]? = h.heap[q]? := by
  obtain ⟨c, hc, ⟨_, rfl⟩ | ⟨s, h2, c2, _, hr, hc2, _, he⟩⟩ := unregisterClient_eq hs
  · rfl
  · rw [he]
    simp only
    rw [List.getElem?_set_ne (Ne.symm hq), removeFromRooms_frame p c.Rooms hr hq]

theorem registered_ptr {h : Hub} (inv : Inv h) {p q : Ptr} {c : Client}
    (hc : h.heap[p]? = some c) (hreg : mapGet h.clients c.ID = some q) :
    q = p ∧ c.Send.closed = false := by
  obtain ⟨d, hd, hid, ho⟩ := inv.registry.reg c.ID q hreg
  have hqp := inv.heap.ids q p d c hd hc hid
  subst hqp
  rw [hc] at hd
  cases hd
  exact ⟨rfl, ho⟩

theorem unregisterClient_registered {h : Hub} (inv : Inv h) {p q : Ptr} {c : Client}
    (hc : h.heap[p]? = some c) (hreg : mapGet h.clients c.ID = some q) :
    ∃ h1, unregisterClient h p = some h1 ∧
      h1.heap[p]? = some { ID := c.ID, UserID := c.UserID,
                           Send := { c.Send with closed := true }, Rooms := [] } ∧
      h1.clients = mapDelete h.clients c.ID := by
  obtain ⟨_, hopen⟩ := registered_ptr inv hc hreg
  obtain ⟨h2, hr⟩ := removeFromRooms_total p c.Rooms hc
  obtain ⟨_, hcl, hh⟩ := removeFromRooms_inv p c.Rooms hr inv
  obtain ⟨c2, hc2, hrooms⟩ := removeFromRooms_rooms p c.Rooms inv.rooms hc hr
  obtain ⟨c2b, hc2b, hid, huid, hsend⟩ := hh.2 p c hc
  rw [hc2] at hc2b
  cases hc2b
  have hnil : c2.Rooms = [] := by
    apply List.eq_nil_iff_forall_not_mem.mpr
    intro x hx
    have := (hrooms x).mp hx
    exact this.2 this.1
  obtain ⟨hlt, _⟩ := List.getElem?_eq_some.mp hc2
  have hopen2 : c2.Send.closed = false := by rw [hsend]; exact hopen
  refine ⟨{ clients := mapDelete h2.clients c.ID, rooms := h2.rooms,
            heap := h2.heap.set p { c2 with Send := { c2.Send with closed := true } } },
    ?_, ?_, ?_⟩
  · simp [unregisterClient, hc, hreg, hr, hc2, closeChan, hopen2]
  · simp [List.getElem?_set, hlt, hid, huid, hsend, hnil]
  · simp [hcl]

theorem unregisterClient_total {h : Hub} (inv : Inv h) {p : Ptr} {c : Client}
    (hc : h.heap[p]? = some c) : ∃ h1, unregisterClient h p = some h1 := by
  cases hreg : mapGet h.clients c.ID with
  | none => exact ⟨h, by simp [unregisterClient, hc, hreg]⟩
  | some q =>
    obtain ⟨h1, hs, _⟩ := unregisterClient_registered inv hc hreg
    exact ⟨h1, hs⟩

theorem JoinLeave.reachable {J : Codec} {h h1 : Hub} (hs : JoinLeave h h1)
    (hr : Reachable J h) : Reachable J h1 := by
  induction hs with
  | refl => exact hr
  | join q r _ hj ih => exact Reachable.join q r ih hj
  | leave q r _ hl ih => exact Reachable.leave q r ih hl

theorem JoinLeave.rel {h h1 : Hub} (hs : JoinLeave h h1) :
    h1.clients = h.clients ∧ HeapRel RoomsRel h.heap h1.heap := by
  induction hs with
  | refl => exact ⟨rfl, HeapRel.refl_heap RoomsRel.refl_rooms _⟩
  | join q r _ hj ih =>
    exact ⟨(JoinRoom_rel hj).1.trans ih.1, HeapRel.trans_heap RoomsRel.trans_rooms ih.2 (JoinRoom_rel hj).2⟩
  | leave q r _ hl ih =>
    exact ⟨(removeFromRoom_rel hl).1.trans ih.1,
      HeapRel.trans_heap RoomsRel.trans_rooms ih.2 (removeFromRoom_rel hl).2⟩

/-! ## Concrete runs -/

theorem scenarioA_reachable : Reachable demoCodec scenarioA :=
  Reachable.register 1 "c2" 101
    (Reachable.newClient 2 10
      (Reachable.join 0 "guild:7"
        (Reachable.register 0 "c1" 100
          (Reachable.newClient 1 10 Reachable.init (by decide))
          (by rfl))
        (by rfl))
      (by decide))
    (by rfl)

/-! ## The claims -/

/-- C1: membership symmetry is an invariant of the hub.  In every state
reachable from `NewHub()` by calls of `registerClient`, `unregisterClient`,
`JoinRoom` and `LeaveRoom` (and of every other operation of the hub and its
clients), for every client pointer `p` and room id `r`, the client is in
`rooms[r].Clients` if and only if `r` is in its `Rooms`. -/
theorem C1_membership_symmetric (J : Codec) (h : Hub) (hr : Reachable J h)
    (p : Ptr) (r : String) :
    Member h p r ↔ InRooms h p r :=
  (inv_of_reachable hr).rooms.sym p r

theorem C1_membership_symmetric_witness :
    Reachable demoCodec scenarioA ∧
      (Member scenarioA 0 "guild:7" ↔ InRooms scenarioA 0 "guild:7") ∧
      (Member scenarioA 1 "guild:7" ↔ InRooms scenarioA 1 "guild:7") :=
  ⟨scenarioA_reachable,
    C1_membership_symmetric demoCodec scenarioA scenarioA_reachable 0 "guild:7",
    C1_membership_symmetric demoCodec scenarioA scenarioA_reachable 1 "guild:7"⟩

/-- C2: no empty room is ever registered.  In every reachable state a room id
is a key of the room registry if and only if some client is a member of that
room (equivalently, if and only if some client lists the room), and a
registered room has a non-empty member set; when the only member of `r`
leaves, or is registered and gets unregistered, `r` is no longer a key. -/
theorem C2_no_empty_room (J : Codec) (h : Hub) (hr : Reachable J h) :
    (∀ r, (mapGet h.rooms r).isSome = true ↔ ∃ p, Member h p r) ∧
    (∀ r, (mapGet h.rooms r).isSome = true ↔ ∃ p, InRooms h p r) ∧
    (∀ r room, mapGet h.rooms r = some room → room.Clients ≠ []) ∧
    (∀ r room p, mapGet h.rooms r = some room → room.Clients = [p] →
      ∃ h1, LeaveRoom h p r = some h1 ∧ mapGet h1.rooms r = none) ∧
    (∀ r room p, mapGet h.rooms r = some room → room.Clients = [p] → Registered h p →
      ∃ h1, unregisterClient h p = some h1 ∧ mapGet h1.rooms r = none) := by
  have inv := inv_of_reachable hr
  have hkey : ∀ r, (mapGet h.rooms r).isSome = true ↔ ∃ p, Member h p r := by
    intro r
    constructor
    · intro hs
      obtain ⟨room, hg⟩ := Option.isSome_iff_exists.mp hs
      obtain ⟨p, hp⟩ := List.exists_mem_of_ne_nil _ (inv.rooms.nonempty r room hg)
      exact ⟨p, room, hg, hp⟩
    · rintro ⟨p, room, hg, _⟩
      simp [hg]
  refine ⟨hkey, fun r => ?_, inv.rooms.nonempty, fun r room p hg hcl => ?_,
    fun r room p hg hcl hreg => ?_⟩
  · rw [hkey r]
    exact exists_congr fun p => inv.rooms.sym p r
  · obtain ⟨c, hc, _⟩ := (inv.rooms.sym p r).mp ⟨room, hg, by simp [hcl]⟩
    refine ⟨{ h with rooms := mapDelete h.rooms r,
                     heap := h.heap.set p { c with Rooms := setDel c.Rooms r } }, ?_,
      mapGet_mapDelete_self _ _⟩
    simp [LeaveRoom, removeFromRoom, hg, hc, hcl, setDel]
  · obtain ⟨c, hc, hregc⟩ := hreg
    obtain ⟨h1, hs, hp1, _⟩ := unregisterClient_registered inv hc hregc
    refine ⟨h1, hs, ?_⟩
    have inv1 := inv.unregister hs
    cases hg1 : mapGet h1.rooms r with
    | none => rfl
    | some room1 =>
      exfalso
      obtain ⟨q, hq⟩ := List.exists_mem_of_ne_nil _ (inv1.rooms.nonempty r room1 hg1)
      obtain ⟨d, hd, hrd⟩ := (inv1.rooms.sym q r).mp ⟨room1, hg1, hq⟩
      by_cases hqp : q = p
      · subst hqp
        rw [hp1] at hd
        cases hd
        simp at hrd
      · rw [unregisterClient_frame hs hqp] at hd
        obtain ⟨room2, hg2, hq2⟩ := (inv.rooms.sym q r).mpr ⟨d, hd, hrd⟩
        rw [hg] at hg2
        cases hg2
        rw [hcl] at hq2
        exact hqp (List.mem_singleton.mp hq2)

theorem C2_no_empty_room_witness :
    Reachable demoCodec scenarioA ∧
      (∃ h1, LeaveRoom scenarioA 0 "guild:7" = some h1 ∧ mapGet h1.rooms "guild:7" = none) ∧
      (∃ h1, unregisterClient scenarioA 0 = some h1 ∧ mapGet h1.rooms "guild:7" = none) :=
  ⟨scenarioA_reachable,
    (C2_no_empty_room demoCodec scenarioA scenarioA_reachable).2.2.2.1 "guild:7"
      { ID := "guild:7", Clients := [0] } 0 (by rfl) (by rfl),
    (C2_no_empty_room demoCodec scenarioA scenarioA_reachable).2.2.2.2 "guild:7"
      { ID := "guild:7", Clients := [0] } 0 (by rfl) (by rfl)
      ⟨_, by rfl, by rfl⟩⟩

/-- C3: for every reachable state and every client at `p` whose queue is open,
`registerClient` returns, and after any interleaved `JoinRoom` and `LeaveRoom`
calls `unregisterClient` on that client returns a state in which the client's
id is not a key of the client registry, the client is a member of no room,
its `Rooms` is empty and its outbound queue is closed. -/
theorem C3_register_then_unregister (J : Codec) (h : Hub) (hr : Reachable J h)
    (p : Ptr) (c : Client) (msgID : String) (now : Nat)
    (hc : h.heap[p]? = some c) (hopen : c.Send.closed = false) :
    ∃ h1, registerClient J h p msgID now = some h1 ∧
      ∀ h2, JoinLeave h1 h2 →
        ∃ h3 c3, unregisterClient h2 p = some h3 ∧ h3.heap[p]? = some c3 ∧
          c3.ID = c.ID ∧ mapGet h3.clients c3.ID = none ∧ (∀ r, ¬ Member h3 p r) ∧
          c3.Rooms = [] ∧ c3.Send.closed = true := by
  obtain ⟨data, hm⟩ := Option.isSome_iff_exists.mp (J.marshal_connect msgID now)
  have hreg : registerClient J h p msgID now =
      some { clients := mapSet h.clients c.ID p, rooms := h.rooms,
             heap := h.heap.set p (offer c data) } := by
    simp [registerClient, hc, hm, sendTo_of_open data hc hopen]
  refine ⟨_, hreg, fun h2 hsteps => ?_⟩
  have hr1 : Reachable J _ := Reachable.register p msgID now hr hreg
  have hr2 := hsteps.reachable hr1
  have inv2 := inv_of_reachable hr2
  obtain ⟨hcl2, hh2⟩ := hsteps.rel
  obtain ⟨hlt, _⟩ := List.getElem?_eq_some.mp hc
  obtain ⟨c2, hc2, hid2, _, _⟩ := hh2.2 p (offer c data) (by simp [List.getElem?_set, hlt])
  have hid : c2.ID = c.ID := hid2.trans (QueueRel.offer c data).1
  have hreg2 : mapGet h2.clients c2.ID = some p := by
    rw [hcl2, hid]
    exact mapGet_mapSet_self _ _ _
  obtain ⟨h3, hs3, hp3, hcl3⟩ := unregisterClient_registered inv2 hc2 hreg2
  have inv3 := inv2.unregister hs3
  refine ⟨h3, _, hs3, hp3, hid, ?_, fun r hmem => ?_, rfl, rfl⟩
  · rw [hcl3]
    exact mapGet_mapDelete_self _ _
  · obtain ⟨d, hd, hrd⟩ := (inv3.rooms.sym p r).mp hmem
    rw [hp3] at hd
    cases hd
    simp at hrd

theorem C3_register_then_unregister_witness :
    ∃ h3 c3, unregisterClient ((JoinRoom scenarioA 1 "guild:7").getD scenarioA) 1 = some h3 ∧
      h3.heap[1]? = some c3 ∧ c3.ID = 2 ∧ mapGet h3.clients c3.ID = none ∧
      (∀ r, ¬ Member h3 1 r) ∧ c3.Rooms = [] ∧ c3.Send.closed = true := by
  obtain ⟨h1, hreg, hall⟩ := C3_register_then_unregister demoCodec stepA4
    (Reachable.newClient 2 10
      (Reachable.join 0 "guild:7"
        (Reachable.register 0 "c1" 100
          (Reachable.newClient 1 10 Reachable.init (by decide))
          (by rfl))
        (by rfl))
      (by decide))
    1 { ID := 2, UserID := 10, Send := { buf := [], cap := 256, closed := false }, Rooms := [] }
    "c2" 101 (by rfl) (by rfl)
  have e : registerClient demoCodec stepA4 1 "c2" 101 = some scenarioA := rfl
  rw [e] at hreg
  cases hreg
  exact hall _ (JoinLeave.join 1 "guild:7" (JoinLeave.refl _) rfl)

/-- C4: `unregisterClient` is idempotent.  In every state and for every
client, whenever `unregisterClient` returns, applying it a second time returns
the very same state; applied to a client whose id is not a key of the client
registry it returns the state it was given, so no registry, room, queue or
closed flag changes and no queue is closed twice; and in every reachable
state `unregisterClient` does return. -/
theorem C4_unregister_idempotent (h : Hub) (p : Ptr) (c : Client)
    (hc : h.heap[p]? = some c) :
    (∀ h1, unregisterClient h p = some h1 → unregisterClient h1 p = some h1) ∧
    (mapGet h.clients c.ID = none → unregisterClient h p = some h) ∧
    (∀ J, Reachable J h → ∃ h1, unregisterClient h p = some h1) := by
  have hnone : mapGet h.clients c.ID = none → unregisterClient h p = some h := by
    intro hg
    simp [unregisterClient, hc, hg]
  refine ⟨fun h1 hs => ?_, hnone, fun J hr => unregisterClient_total (inv_of_reachable hr) hc⟩
  obtain ⟨c0, hc0, ⟨hg, rfl⟩ | ⟨q, h2, c2, _, hr, hc2, _, he⟩⟩ := unregisterClient_eq hs
  · exact hs
  · rw [hc] at hc0
    cases hc0
    obtain ⟨_, hh⟩ := removeFromRooms_rel p c.Rooms hr
    obtain ⟨c2b, hc2b, hid, _, _⟩ := hh.2 p c hc
    rw [hc2] at hc2b
    cases hc2b
    obtain ⟨hlt, _⟩ := List.getElem?_eq_some.mp hc2
    have hp1 : h1.heap[p]? = some { c2 with Send := { c2.Send with closed := true } } := by
      rw [he]
      simp [List.getElem?_set, hlt]
    have hg1 : mapGet h1.clients c2.ID = none := by
      rw [he, hid]
      exact mapGet_mapDelete_self _ _
    simp [unregisterClient, hp1, hg1]

theorem C4_unregister_idempotent_witness :
    (∃ h1, unregisterClient scenarioA 0 = some h1 ∧ unregisterClient h1 0 = some h1) ∧
    unregisterClient stepA4 1 = some stepA4 := by
  have hA := C4_unregister_idempotent scenarioA 0
    { ID := 1, UserID := 10,
      Send := { buf := ["connect".toList], cap := 256, closed := false },
      Rooms := ["guild:7"] } (by rfl)
  obtain ⟨h1, hs⟩ := hA.2.2 demoCodec scenarioA_reachable
  exact ⟨⟨h1, hs, hA.1 h1 hs⟩,
    (C4_unregister_idempotent stepA4 1
      { ID := 2, UserID := 10, Send := { buf := [], cap := 256, closed := false },
        Rooms := [] } (by rfl)).2.1 (by rfl)⟩

/-- C5: `JoinRoom` and `LeaveRoom` are idempotent.  In every state and for
every client and room id, `JoinRoom` returns and a second `JoinRoom` returns
the very same state, `LeaveRoom` returns and a second `LeaveRoom` returns the
very same state, and `LeaveRoom` on a room id that is not a key of the room
registry returns the state it was given. -/
theorem C5_join_leave_idempotent (h : Hub) (p : Ptr) (r : String) (c : Client)
    (hc : h.heap[p]? = some c) :
    (∃ h1, JoinRoom h p r = some h1 ∧ JoinRoom h1 p r = some h1) ∧
    (∃ h1, LeaveRoom h p r = some h1 ∧ LeaveRoom h1 p r = some h1) ∧
    (∀ q, mapGet h.rooms r = none → LeaveRoom h q r = some h) := by
  obtain ⟨hlt, _⟩ := List.getElem?_eq_some.mp hc
  have hnone : ∀ q, mapGet h.rooms r = none → LeaveRoom h q r = some h := by
    intro q hg
    simp [LeaveRoom, removeFromRoom, hg]
  refine ⟨?_, ?_, hnone⟩
  · refine ⟨_, by simp only [JoinRoom, hc]; rfl, ?_⟩
    have hin : p ∈ setAdd (match mapGet h.rooms r with
        | some room => room
        | none => ({ ID := r, Clients := [] } : Room)).Clients p :=
      (mem_setAdd _ _ _).mpr (Or.inr rfl)
    have hrin : r ∈ setAdd c.Rooms r := (mem_setAdd _ _ _).mpr (Or.inr rfl)
    simp only [JoinRoom, List.getElem?_set, hlt, if_true, mapGet_mapSet_self,
      setAdd_of_mem hin, setAdd_of_mem hrin, List.set_set]
    rw [mapSet_of_mapGet _ (mapGet_mapSet_self _ _ _)]
  · cases hg : mapGet h.rooms r with
    | none => exact ⟨h, hnone p hg, hnone p hg⟩
    | some room =>
      have hnp : p ∉ setDel room.Clients p := fun hm => ((mem_setDel _ _ _).mp hm).2 rfl
      have hnr : r ∉ setDel c.Rooms r := fun hm => ((mem_setDel _ _ _).mp hm).2 rfl
      by_cases hl : (setDel room.Clients p).length = 0
      · refine ⟨{ h with rooms := mapDelete h.rooms r,
                         heap := h.heap.set p { c with Rooms := setDel c.Rooms r } }, ?_, ?_⟩
        · simp [LeaveRoom, removeFromRoom, hg, hc, hl]
        · simp [LeaveRoom, removeFromRoom, mapGet_mapDelete_self]
      · refine ⟨{ h with rooms := mapSet h.rooms r { room with Clients := setDel room.Clients p },
                         heap := h.heap.set p { c with Rooms := setDel c.Rooms r } }, ?_, ?_⟩
        · simp [LeaveRoom, removeFromRoom, hg, hc, hl]
        · simp only [LeaveRoom, removeFromRoom, mapGet_mapSet_self, List.getElem?_set, hlt,
            if_true, setDel_of_not_mem hnp, setDel_of_not_mem hnr, hl, if_false, List.set_set]
          rw [mapSet_of_mapGet _ (mapGet_mapSet_self _ _ _)]

theorem C5_join_leave_idempotent_witness :
    (∃ h1, JoinRoom scenarioA 1 "guild:7" = some h1 ∧ JoinRoom h1 1 "guild:7" = some h1) ∧
    (∃ h1, LeaveRoom scenarioA 0 "guild:7" = some h1 ∧ LeaveRoom h1 0 "guild:7" = some h1) ∧
    LeaveRoom scenarioA 1 "district:3" = some scenarioA :=
  ⟨(C5_join_leave_idempotent scenarioA 1 "guild:7"
      { ID := 2, UserID := 10,
        Send := { buf := ["connect".toList], cap := 256, closed := false },
        Rooms := [] } (by rfl)).1,
   (C5_join_leave_idempotent scenarioA 0 "guild:7"
      { ID := 1, UserID := 10,
        Send := { buf := ["connect".toList], cap := 256, closed := false },
        Rooms := ["guild:7"] } (by rfl)).2.1,
   (C5_join_leave_idempotent scenarioA 1 "district:3"
      { ID := 2, UserID := 10,
        Send := { buf := ["connect".toList], cap := 256, closed := false },
        Rooms := [] } (by rfl)).2.2 1 (by rfl)⟩

/-! ## Delivery -/

theorem registry_targets {h : Hub} (inv : Inv h) :
    (h.clients.map Prod.snd).Nodup ∧
    (∀ p, p ∈ h.clients.map Prod.snd ↔ Registered h p) ∧
    (∀ p ∈ h.clients.map Prod.snd, ∃ c, h.heap[p]? = some c ∧ c.Send.closed = false) := by
  have hmem : ∀ k p, (k, p) ∈ h.clients →
      ∃ c, h.heap[p]? = some c ∧ c.ID = k ∧ c.Send.closed = false :=
    fun k p hkp => inv.registry.reg k p (mapGet_of_mem _ inv.registry.keys hkp)
  refine ⟨?_, fun p => ⟨fun hp => ?_, fun hp => ?_⟩, fun p hp => ?_⟩
  · refine List.Nodup.map_on (fun x hx y hy hxy => ?_) (List.Nodup.of_map _ inv.registry.keys)
    obtain ⟨k1, p1⟩ := x
    obtain ⟨k2, p2⟩ := y
    simp only at hxy
    subst hxy
    obtain ⟨c1, hc1, hid1, _⟩ := hmem k1 p1 hx
    obtain ⟨c2, hc2, hid2, _⟩ := hmem k2 p1 hy
    rw [hc1] at hc2
    cases hc2
    rw [← hid1, ← hid2]
  · obtain ⟨⟨k, q⟩, hkq, rfl⟩ := List.mem_map.mp hp
    obtain ⟨c, hc, hid, _⟩ := hmem k q hkq
    have hg : mapGet h.clients k = some q := mapGet_of_mem _ inv.registry.keys hkq
    rw [← hid] at hg
    exact ⟨c, hc, hg⟩
  · obtain ⟨c, _, hg⟩ := hp
    exact List.mem_map.mpr ⟨(c.ID, p), mem_of_mapGet _ hg, rfl⟩
  · obtain ⟨⟨k, q⟩, hkq, rfl⟩ := List.mem_map.mp hp
    obtain ⟨c, hc, _, ho⟩ := hmem k q hkq
    exact ⟨c, hc, ho⟩

theorem offer_of_lt {c : Client} (data : Bytes) (hlt : c.Send.buf.length < c.Send.cap) :
    offer c data = { c with Send := { c.Send with buf := c.Send.buf ++ [data] } } := by
  simp [offer, hlt]

theorem offer_of_not_lt {c : Client} (data : Bytes) (hlt : ¬ c.Send.buf.length < c.Send.cap) :
    offer c data = c := by
  simp [offer, hlt]

theorem rangeSend_delivered (cond : Client → Bool) (data : Bytes) (ps : List Ptr) (h : Hub)
    (hnd : ps.Nodup)
    (hall : ∀ p ∈ ps, ∃ c, h.heap[p]? = some c ∧ (cond c = true → c.Send.closed = false)) :
    ∃ heap1, rangeSend cond data ps h.heap = some heap1 ∧
      Delivered h { h with heap := heap1 } (fun p c => p ∈ ps ∧ cond c = true) data := by
  obtain ⟨heap1, hr, hlen, hpt⟩ := rangeSend_spec cond data ps h.heap hnd hall
  refine ⟨heap1, hr, rfl, rfl, hlen, fun p c hc => ⟨fun ht hlt => ?_, fun ht hlt => ?_, fun ht => ?_⟩⟩
  · simp only [hpt p c hc, ht, and_self, if_true, offer_of_lt data hlt]
  · simp only [hpt p c hc, ht, and_self, if_true, offer_of_not_lt data hlt]
  · simp only [hpt p c hc, ht, if_false]

theorem Delivered.congr {h h1 : Hub} {T T1 : Ptr → Client → Prop} {data : Bytes}
    (hd : Delivered h h1 T data)
    (hT : ∀ p c, h.heap[p]? = some c → (T p c ↔ T1 p c)) : Delivered h h1 T1 data := by
  obtain ⟨h1c, h1r, h1l, hpt⟩ := hd
  refine ⟨h1c, h1r, h1l, fun p c hc => ?_⟩
  obtain ⟨a, b, d⟩ := hpt p c hc
  exact ⟨fun t => a ((hT p c hc).mpr t), fun t => b ((hT p c hc).mpr t),
    fun t => d (fun t1 => t ((hT p c hc).mp t1))⟩

theorem broadcastToAll_spec (J : Codec) {h : Hub} (inv : Inv h) {m : Message} {data : Bytes}
    (hm : J.marshal m = some data) :
    ∃ h1, broadcastToAll J h m = some h1 ∧ Delivered h h1 (fun p _ => Registered h p) data := by
  obtain ⟨hnd, hreg, hopen⟩ := registry_targets inv
  obtain ⟨heap1, hr, hd⟩ := rangeSend_delivered (fun _ => true) data (h.clients.map Prod.snd) h hnd
    (fun p hp => by
      obtain ⟨c, hc, ho⟩ := hopen p hp
      exact ⟨c, hc, fun _ => ho⟩)
  refine ⟨{ h with heap := heap1 }, by simp [broadcastToAll, hm, hr], hd.congr fun p c _ => ?_⟩
  simp [hreg p]

theorem sendToUser_spec (J : Codec) {h : Hub} (inv : Inv h) (u : UUID) {m : Message}
    {data : Bytes} (hm : J.marshal m = some data) :
    ∃ h1, sendToUser J h u m = some h1 ∧
      Delivered h h1 (fun p c => Registered h p ∧ c.UserID = u) data := by
  obtain ⟨hnd, hreg, hopen⟩ := registry_targets inv
  obtain ⟨heap1, hr, hd⟩ := rangeSend_delivered (fun c => decide (c.UserID = u)) data
    (h.clients.map Prod.snd) h hnd
    (fun p hp => by
      obtain ⟨c, hc, ho⟩ := hopen p hp
      exact ⟨c, hc, fun _ => ho⟩)
  refine ⟨{ h with heap := heap1 }, by simp [sendToUser, hm, hr], hd.congr fun p c _ => ?_⟩
  simp [hreg p]

theorem pingClients_spec (J : Codec) {h : Hub} (inv : Inv h) (msgID : String) (now : Nat)
    {data : Bytes}
    (hm : J.marshal { ID := msgID, Type_ := MessageTypePing, UserID := 0,
                      Timestamp := now, Data := [] } = some data) :
    ∃ h1, pingClients J h msgID now = some h1 ∧
      Delivered h h1 (fun p _ => Registered h p) data := by
  obtain ⟨hnd, hreg, hopen⟩ := registry_targets inv
  obtain ⟨heap1, hr, hd⟩ := rangeSend_delivered (fun _ => true) data (h.clients.map Prod.snd) h hnd
    (fun p hp => by
      obtain ⟨c, hc, ho⟩ := hopen p hp
      exact ⟨c, hc, fun _ => ho⟩)
  refine ⟨{ h with heap := heap1 }, by simp [pingClients, hm, hr], hd.congr fun p c _ => ?_⟩
  simp [hreg p]

theorem queueOpen_iff {h : Hub} {p : Ptr} :
    queueOpen h p = true ↔ ∃ c, h.heap[p]? = some c ∧ c.Send.closed = false := by
  unfold queueOpen
  cases hc : h.heap[p]? with
  | none => simp
  | some c => simp

theorem broadcastToRoom_spec (J : Codec) {h : Hub} (inv : Inv h) {m : Message} {data : Bytes}
    {r : String} {room : Room} (hu : J.unmarshalRoomID m.Data = some r)
    (hg : mapGet h.rooms r = some room) (hm : J.marshal m = some data)
    (hopen : ∀ p ∈ room.Clients, queueOpen h p = true) :
    ∃ h1, broadcastToRoom J h m = some h1 ∧ Delivered h h1 (fun p _ => Member h p r) data := by
  obtain ⟨heap1, hr, hd⟩ := rangeSend_delivered (fun _ => true) data room.Clients h
    (inv.rooms.members r room hg)
    (fun p hp => by
      obtain ⟨c, hc, ho⟩ := queueOpen_iff.mp (hopen p hp)
      exact ⟨c, hc, fun _ => ho⟩)
  refine ⟨{ h with heap := heap1 }, by simp [broadcastToRoom, hu, hg, hm, hr],
    hd.congr fun p c _ => ?_⟩
  simp [Member, hg]

theorem handleMessage_room (J : Codec) (h : Hub) {m : Message}
    (ht : m.Type_ = MessageTypeChatGuild ∨ m.Type_ = MessageTypeChatDistrict) :
    handleMessage J h m = broadcastToRoom J h m := by
  unfold handleMessage
  rw [if_pos ht]

theorem handleMessage_user (J : Codec) (h : Hub) {m : Message}
    (ht : m.Type_ = MessageTypeResourceUpdate ∨ m.Type_ = MessageTypeBuildingUpdate ∨
      m.Type_ = MessageTypeDistrictUpdate) :
    handleMessage J h m = sendToUser J h m.UserID m := by
  have hnot : ¬ (m.Type_ = MessageTypeChatGuild ∨ m.Type_ = MessageTypeChatDistrict) := by
    rcases ht with e | e | e <;> rw [e] <;> decide
  unfold handleMessage
  rw [if_neg hnot, if_pos ht]

theorem mem_grown {h h1 : Hub} {p : Ptr} :
    p ∈ grown h h1 ↔ p < h.heap.length ∧ queueLen h1 p = queueLen h p + 1 := by
  simp [grown, List.mem_filter]

theorem mem_connectionsOf {h : Hub} {u : UUID} {p : Ptr} :
    p ∈ connectionsOf h u ↔
      p ∈ h.clients.map Prod.snd ∧ ∃ c, h.heap[p]? = some c ∧ c.UserID = u := by
  unfold connectionsOf
  rw [List.mem_filter]
  cases hc : h.heap[p]? with
  | none => simp
  | some c => simp

theorem grown_iff {h h1 : Hub} {T : Ptr → Client → Prop} {data : Bytes}
    (hd : Delivered h h1 T data)
    (hroom : ∀ p c, h.heap[p]? = some c → T p c → c.Send.buf.length < c.Send.cap) (p : Ptr) :
    p ∈ grown h h1 ↔ ∃ c, h.heap[p]? = some c ∧ T p c := by
  rw [mem_grown]
  constructor
  · rintro ⟨hlt, hq⟩
    refine ⟨h.heap[p], List.getElem?_eq_getElem hlt, ?_⟩
    by_contra hT
    have h1p := (hd.2.2.2 p _ (List.getElem?_eq_getElem hlt)).2.2 hT
    simp [queueLen, h1p, List.getElem?_eq_getElem hlt] at hq
  · rintro ⟨c, hc, hT⟩
    obtain ⟨hlt, _⟩ := List.getElem?_eq_some.mp hc
    have h1p := (hd.2.2.2 p c hc).1 hT (hroom p c hc hT)
    exact ⟨hlt, by simp [queueLen, h1p, hc]⟩

/-- C6: user-scoped fan-out is exact.  In every reachable state, for every
envelope of type `resource_update`, `building_update` or `district_update`
that serializes to `data`, `handleMessage` returns; it appends `data` to the
queue of every registered client whose `UserID` is the envelope's user id and
whose queue is not full, and leaves every other client (another user's, an
unregistered one, one with a full queue) and both registries unchanged.  When
none of the user's connections has a full queue, the queues that grew by one
message are exactly those connections, and there are as many of them. -/
theorem C6_user_fanout (J : Codec) (h : Hub) (hr : Reachable J h) (m : Message) (data : Bytes)
    (ht : m.Type_ = MessageTypeResourceUpdate ∨ m.Type_ = MessageTypeBuildingUpdate ∨
      m.Type_ = MessageTypeDistrictUpdate)
    (hm : J.marshal m = some data) :
    ∃ h1, handleMessage J h m = some h1 ∧
      Delivered h h1 (fun p c => Registered h p ∧ c.UserID = m.UserID) data ∧
      (∀ (p : Ptr) (c : Client), h.heap[p]? = some c → c.UserID ≠ m.UserID → h1.heap[p]? = some c) ∧
      ((∀ p ∈ connectionsOf h m.UserID, ∀ c, h.heap[p]? = some c →
          c.Send.buf.length < c.Send.cap) →
        (∀ p, p ∈ grown h h1 ↔ p ∈ connectionsOf h m.UserID) ∧
        (grown h h1).length = (connectionsOf h m.UserID).length) := by
  have inv := inv_of_reachable hr
  obtain ⟨hnd, hreg, _⟩ := registry_targets inv
  obtain ⟨h1, hs, hd⟩ := sendToUser_spec J inv m.UserID hm
  refine ⟨h1, by rw [handleMessage_user J h ht, hs], hd,
    fun p c hc hne => (hd.2.2.2 p c hc).2.2 (fun t => hne t.2), fun hroom => ?_⟩
  have hconn : ∀ p, p ∈ connectionsOf h m.UserID ↔
      ∃ c, h.heap[p]? = some c ∧ (Registered h p ∧ c.UserID = m.UserID) := by
    intro p
    rw [mem_connectionsOf, hreg p]
    constructor
    · rintro ⟨hp, c, hc, hu⟩
      exact ⟨c, hc, hp, hu⟩
    · rintro ⟨c, hc, hp, hu⟩
      exact ⟨hp, c, hc, hu⟩
  have hiff : ∀ p, p ∈ grown h h1 ↔ p ∈ connectionsOf h m.UserID := by
    intro p
    rw [hconn p]
    refine grown_iff hd (fun q c hc hT => ?_) p
    exact hroom q ((hconn q).mpr ⟨c, hc, hT⟩) c hc
  refine ⟨hiff, List.Perm.length_eq ?_⟩
  exact (List.perm_ext_iff_of_nodup (List.nodup_range _ |>.filter _) (hnd.filter _)).mpr hiff

theorem C6_user_fanout_witness :
    ∃ h1, handleMessage demoCodec scenarioA
        { ID := "m1", Type_ := MessageTypeResourceUpdate, UserID := 10, Timestamp := 5,
          Data := "gold".toList } = some h1 ∧
      h1.heap[0]? = some
        { ID := 1, UserID := 10,
          Send := { buf := ["connect".toList, "resource_updategold".toList], cap := 256,
                    closed := false },
          Rooms := ["guild:7"] } ∧
      h1.heap[1]? = some
        { ID := 2, UserID := 10,
          Send := { buf := ["connect".toList, "resource_updategold".toList], cap := 256,
                    closed := false },
          Rooms := [] } ∧
      (grown scenarioA h1).length = 2 := by
  obtain ⟨h1, hs, hd, _, hcount⟩ := C6_user_fanout demoCodec scenarioA scenarioA_reachable
    { ID := "m1", Type_ := MessageTypeResourceUpdate, UserID := 10, Timestamp := 5,
      Data := "gold".toList } "resource_updategold".toList (Or.inl rfl) (by rfl)
  refine ⟨h1, hs, ?_, ?_, ?_⟩
  · exact (hd.2.2.2 0 _ rfl).1 ⟨⟨_, rfl, rfl⟩, rfl⟩ (by decide)
  · exact (hd.2.2.2 1 _ rfl).1 ⟨⟨_, rfl, rfl⟩, rfl⟩ (by decide)
  · refine (hcount (fun p hp c hc => ?_)).2
    have hp2 : p = 0 ∨ p = 1 := by
      have hl : connectionsOf scenarioA 10 = [0, 1] := by rfl
      rw [hl] at hp
      simpa using hp
    rcases hp2 with rfl | rfl
    · have e : scenarioA.heap[0]? = some
          { ID := 1, UserID := 10,
            Send := { buf := ["connect".toList], cap := 256, closed := false },
            Rooms := ["guild:7"] } := rfl
      rw [e] at hc
      cases hc
      decide
    · have e : scenarioA.heap[1]? = some
          { ID := 2, UserID := 10,
            Send := { buf := ["connect".toList], cap := 256, closed := false },
            Rooms := [] } := rfl
      rw [e] at hc
      cases hc
      decide

/-- Room-scoped delivery when the members' queues are open.  In every reachable state,
for every envelope of type `chat_guild` or `chat_district` whose payload names
a room id `r` of the room registry and that serializes to `data`, when the
queues of the members of `r` are open, `handleMessage` returns; it appends
`data` to the queue of every member of `r` whose queue is not full and leaves
every client that is not a member of `r`, and both registries, unchanged. -/
theorem room_delivery_of_open (J : Codec) (h : Hub) (hr : Reachable J h) (m : Message)
    (data : Bytes) (r : String) (room : Room)
    (ht : m.Type_ = MessageTypeChatGuild ∨ m.Type_ = MessageTypeChatDistrict)
    (hu : J.unmarshalRoomID m.Data = some r) (hg : mapGet h.rooms r = some room)
    (hm : J.marshal m = some data)
    (hopen : ∀ p ∈ room.Clients, queueOpen h p = true) :
    ∃ h1, handleMessage J h m = some h1 ∧
      Delivered h h1 (fun p _ => Member h p r) data ∧
      (∀ (p : Ptr) (c : Client), h.heap[p]? = some c → ¬ Member h p r → h1.heap[p]? = some c) := by
  obtain ⟨h1, hs, hd⟩ := broadcastToRoom_spec J (inv_of_reachable hr) hu hg hm hopen
  exact ⟨h1, by rw [handleMessage_room J h ht, hs], hd,
    fun p c hc hn => (hd.2.2.2 p c hc).2.2 hn⟩

theorem room_delivery_of_open_scenarioA :
    ∃ h1, handleMessage demoCodec scenarioA
        { ID := "m2", Type_ := MessageTypeChatGuild, UserID := 10, Timestamp := 6,
          Data := "guild:7".toList } = some h1 ∧
      h1.heap[0]? = some
        { ID := 1, UserID := 10,
          Send := { buf := ["connect".toList, "chat_guildguild:7".toList], cap := 256,
                    closed := false },
          Rooms := ["guild:7"] } ∧
      h1.heap[1]? = scenarioA.heap[1]? := by
  obtain ⟨h1, hs, hd, hnot⟩ := room_delivery_of_open demoCodec scenarioA scenarioA_reachable
    { ID := "m2", Type_ := MessageTypeChatGuild, UserID := 10, Timestamp := 6,
      Data := "guild:7".toList } "chat_guildguild:7".toList "guild:7"
    { ID := "guild:7", Clients := [0] } (Or.inl rfl) (by rfl) (by rfl) (by rfl) (by decide)
  refine ⟨h1, hs, ?_, ?_⟩
  · exact (hd.2.2.2 0 _ rfl).1 ⟨_, rfl, by decide⟩ (by decide)
  · refine hnot 1 _ rfl ?_
    rintro ⟨room, hg, hp⟩
    have e : mapGet scenarioA.rooms "guild:7" = some { ID := "guild:7", Clients := [0] } := rfl
    rw [e] at hg
    cases hg
    simp at hp

/-- C8: a room-scoped envelope (type `chat_guild` or `chat_district`) whose
payload cannot be parsed for a room id, or names a room id that is not a key
of the room registry, is dropped: in every state `handleMessage` returns the
state it was given, so every queue and both registries are unchanged and
nothing is raised. -/
theorem C8_unknown_room_dropped (J : Codec) (h : Hub) (m : Message)
    (ht : m.Type_ = MessageTypeChatGuild ∨ m.Type_ = MessageTypeChatDistrict)
    (hbad : J.unmarshalRoomID m.Data = none ∨
      ∃ r, J.unmarshalRoomID m.Data = some r ∧ mapGet h.rooms r = none) :
    handleMessage J h m = some h := by
  rw [handleMessage_room J h ht]
  unfold broadcastToRoom
  rcases hbad with hu | ⟨r, hu, hg⟩
  · simp [hu]
  · simp [hu, hg]

theorem C8_unknown_room_dropped_witness :
    handleMessage demoCodec scenarioA
      { ID := "m3", Type_ := MessageTypeChatDistrict, UserID := 10, Timestamp := 7,
        Data := "district:3".toList } = some scenarioA :=
  C8_unknown_room_dropped demoCodec scenarioA
    { ID := "m3", Type_ := MessageTypeChatDistrict, UserID := 10, Timestamp := 7,
      Data := "district:3".toList } (Or.inr rfl) (Or.inr ⟨"district:3", by rfl, by rfl⟩)

/-! ## Full queues -/

theorem set_self {heap : List Client} {p : Ptr} {c : Client} (hc : heap[p]? = some c) :
    heap.set p c = heap := by
  apply List.ext_getElem?
  intro q
  obtain ⟨hlt, _⟩ := List.getElem?_eq_some.mp hc
  by_cases hq : p = q
  · subst hq
    simp [List.getElem?_set, hlt, hc]
  · simp [List.getElem?_set, hq]

theorem sendTo_full {heap : List Client} {p : Ptr} {c : Client} (data : Bytes)
    (hc : heap[p]? = some c) (hopen : c.Send.closed = false)
    (hfull : ¬ c.Send.buf.length < c.Send.cap) : sendTo heap p data = some heap := by
  rw [sendTo_of_open data hc hopen, offer_of_not_lt data hfull, set_self hc]

theorem rangeSend_full (cond : Client → Bool) (data : Bytes) (ps : List Ptr) :
    ∀ {heap heap1 : List Client} {p : Ptr} {c : Client},
      rangeSend cond data ps heap = some heap1 → heap[p]? = some c →
      ¬ c.Send.buf.length < c.Send.cap → heap1[p]? = some c := by
  induction ps with
  | nil =>
    intro heap heap1 p c hs hc _
    simp only [rangeSend, Option.some.injEq] at hs
    rw [← hs]
    exact hc
  | cons q ps ih =>
    intro heap heap1 p c hs hc hfull
    unfold rangeSend at hs
    cases hd : heap[q]? with
    | none => simp [hd] at hs
    | some d =>
      simp only [hd] at hs
      by_cases hcond : cond d = true
      · simp only [hcond, if_true] at hs
        cases hst : sendTo heap q data with
        | none => simp [hst] at hs
        | some heap2 =>
          simp only [hst] at hs
          obtain ⟨d2, hd2, _, rfl⟩ := sendTo_eq hst
          rw [hd] at hd2
          cases hd2
          refine ih hs ?_ hfull
          obtain ⟨hlt, _⟩ := List.getElem?_eq_some.mp hd
          by_cases hq : q = p
          · subst hq
            rw [hd] at hc
            cases hc
            simp [List.getElem?_set, hlt, offer_of_not_lt data hfull]
          · simp [List.getElem?_set, hq, hc]
      · simp only [hcond] at hs
        exact ih hs hc hfull

theorem handleMessage_cases {J : Codec} {h h1 : Hub} {m : Message}
    (hs : handleMessage J h m = some h1) :
    h1 = h ∨ ∃ cond data ps, rangeSend cond data ps h.heap = some h1.heap := by
  unfold handleMessage at hs
  split at hs
  · unfold broadcastToRoom at hs
    split at hs
    · cases hs
      exact Or.inl rfl
    · split at hs
      · cases hs
        exact Or.inl rfl
      · split at hs
        · cases hs
          exact Or.inl rfl
        · split at hs
          · cases hs
          · rename_i hr
            cases hs
            exact Or.inr ⟨_, _, _, hr⟩
  · split at hs
    · unfold sendToUser at hs
      split at hs
      · cases hs
        exact Or.inl rfl
      · split at hs
        · cases hs
        · rename_i hr
          cases hs
          exact Or.inr ⟨_, _, _, hr⟩
    · unfold broadcastToAll at hs
      split at hs
      · cases hs
        exact Or.inl rfl
      · split at hs
        · cases hs
        · rename_i hr
          cases hs
          exact Or.inr ⟨_, _, _, hr⟩

theorem broadcastToAll_total (J : Codec) {h : Hub} (inv : Inv h) (m : Message) :
    ∃ h1, broadcastToAll J h m = some h1 := by
  cases hm : J.marshal m with
  | none => exact ⟨h, by simp [broadcastToAll, hm]⟩
  | some data =>
    obtain ⟨h1, hs, _⟩ := broadcastToAll_spec J inv hm
    exact ⟨h1, hs⟩

theorem sendToUser_total (J : Codec) {h : Hub} (inv : Inv h) (u : UUID) (m : Message) :
    ∃ h1, sendToUser J h u m = some h1 := by
  cases hm : J.marshal m with
  | none => exact ⟨h, by simp [sendToUser, hm]⟩
  | some data =>
    obtain ⟨h1, hs, _⟩ := sendToUser_spec J inv u hm
    exact ⟨h1, hs⟩

theorem pingClients_total (J : Codec) {h : Hub} (inv : Inv h) (msgID : String) (now : Nat) :
    ∃ h1, pingClients J h msgID now = some h1 := by
  cases hm : J.marshal { ID := msgID, Type_ := MessageTypePing, UserID := 0,
                         Timestamp := now, Data := [] } with
  | none => exact ⟨h, by simp [pingClients, hm]⟩
  | some data =>
    obtain ⟨h1, hs, _⟩ := pingClients_spec J inv msgID now hm
    exact ⟨h1, hs⟩

theorem full_of_queueOnly {h h1 : Hub} {p : Ptr} {c : Client}
    (hs : h1 = h ∨ ∃ cond data ps, rangeSend cond data ps h.heap = some h1.heap)
    (hc : h.heap[p]? = some c) (hfull : ¬ c.Send.buf.length < c.Send.cap) :
    h1.heap[p]? = some c := by
  rcases hs with rfl | ⟨cond, data, ps, hr⟩
  · exact hc
  · exact rangeSend_full cond data ps hr hc hfull

theorem rangeSend_perm (cond : Client → Bool) (data : Bytes) {targets order : List Ptr}
    (heap : List Client) (hperm : List.Perm order targets) (hnd : targets.Nodup)
    (hall : ∀ p ∈ targets, ∃ c, heap[p]? = some c ∧ (cond c = true → c.Send.closed = false)) :
    rangeSend cond data order heap = rangeSend cond data targets heap := by
  obtain ⟨heap1, hr1, hlen1, hpt1⟩ := rangeSend_spec cond data targets heap hnd hall
  obtain ⟨heap2, hr2, hlen2, hpt2⟩ := rangeSend_spec cond data order heap
    (hperm.nodup_iff.mpr hnd) (fun p hp => hall p (hperm.mem_iff.mp hp))
  rw [hr1, hr2]
  congr 1
  apply List.ext_getElem?
  intro q
  cases hc : heap[q]? with
  | none =>
    have hle := List.getElem?_eq_none_iff.mp hc
    have e1 : heap1[q]? = none := List.getElem?_eq_none_iff.mpr (by rw [hlen1]; exact hle)
    have e2 : heap2[q]? = none := List.getElem?_eq_none_iff.mpr (by rw [hlen2]; exact hle)
    rw [e1, e2]
  | some c =>
    rw [hpt1 q c hc, hpt2 q c hc]
    simp only [hperm.mem_iff]

theorem pingN_reachable (J : Codec) (n : Nat) {h : Hub} (hr : Reachable J h) :
    Reachable J (pingN J n h) := by
  induction n with
  | zero => exact hr
  | succ n ih =>
    obtain ⟨h1, hs⟩ := pingClients_total J (inv_of_reachable ih) "ping" n
    have he : pingN J (n + 1) h = h1 := by simp [pingN, hs]
    rw [he]
    exact Reachable.ping "ping" n ih hs

theorem pingN_queue (n : Nat) {h : Hub} (hr : Reachable demoCodec h) {p : Ptr} {c : Client}
    (hc : h.heap[p]? = some c) (hreg : mapGet h.clients c.ID = some p) :
    (pingN demoCodec n h).clients = h.clients ∧
    ∃ c1, (pingN demoCodec n h).heap[p]? = some c1 ∧ c1.ID = c.ID ∧
      c1.Send.closed = c.Send.closed ∧ c1.Send.cap = c.Send.cap ∧
      c1.Send.buf.length = min (c.Send.buf.length + n) c.Send.cap := by
  have hb := (inv_of_reachable hr).heap.bound p c hc
  induction n with
  | zero =>
    refine ⟨rfl, c, hc, rfl, rfl, rfl, ?_⟩
    simp only [Nat.add_zero]
    omega
  | succ n ih =>
    obtain ⟨hcl, c1, hc1, hid, hclosed, hcap, hlen⟩ := ih
    have hrn := pingN_reachable demoCodec n hr
    obtain ⟨h1, hs, hd⟩ := pingClients_spec demoCodec (inv_of_reachable hrn) "ping" n
      (show demoCodec.marshal _ = some ("ping".toList ++ []) from rfl)
    have he : pingN demoCodec (n + 1) h = h1 := by simp [pingN, hs]
    rw [he]
    have hregn : Registered (pingN demoCodec n h) p := ⟨c1, hc1, by rw [hcl, hid]; exact hreg⟩
    refine ⟨hd.1.trans hcl, ?_⟩
    by_cases hlt : c1.Send.buf.length < c1.Send.cap
    · refine ⟨_, (hd.2.2.2 p c1 hc1).1 hregn hlt, hid, hclosed, hcap, ?_⟩
      simp only [List.length_append, List.length_singleton]
      omega
    · refine ⟨_, (hd.2.2.2 p c1 hc1).2.1 hregn hlt, hid, hclosed, hcap, ?_⟩
      omega

theorem stepA2_reachable : Reachable demoCodec stepA2 :=
  Reachable.register 0 "c1" 100 (Reachable.newClient 1 10 Reachable.init (by decide)) (by rfl)

theorem scenarioB_reachable : Reachable demoCodec scenarioB :=
  pingN_reachable demoCodec 255 stepA2_reachable

theorem scenarioB_full :
    ∃ c, scenarioB.heap[0]? = some c ∧ c.Send.closed = false ∧ c.Send.buf.length = 256 ∧
      c.Send.cap = 256 ∧ Registered scenarioB 0 := by
  have hc0 : stepA2.heap[0]? = some
      { ID := 1, UserID := 10,
        Send := { buf := ["connect".toList], cap := 256, closed := false }, Rooms := [] } := rfl
  obtain ⟨hcl, c1, hc1, hid, hclosed, hcap, hlen⟩ :=
    pingN_queue 255 stepA2_reachable hc0 (by rfl)
  refine ⟨c1, hc1, hclosed, hlen, hcap, c1, hc1, ?_⟩
  have e : mapGet scenarioB.clients c1.ID = mapGet stepA2.clients 1 := by
    rw [hid]
    exact congrArg (fun cl => mapGet cl 1) hcl
  rw [e]
  rfl

/-- C9: the outbound queue bound is an invariant.  In every reachable state
(any sequence of `registerClient`, `handleMessage`, `pingClients`,
`SendMessage`, `sendError` and the other operations on clients made by
`NewClient`) every client's queue has capacity 256 and holds at most 256
messages.  When a client's open queue holds 256 messages, the non-blocking
send, `SendMessage`, `sendError`, `registerClient`, `pingClients`,
`broadcastToAll` and `sendToUser` all return and leave that queue as it was,
and so does every `handleMessage` call that returns. -/
theorem C9_queue_bound (J : Codec) (h : Hub) (hr : Reachable J h) (p : Ptr) (c : Client)
    (hc : h.heap[p]? = some c) :
    c.Send.cap = 256 ∧ c.Send.buf.length ≤ 256 ∧
    (c.Send.closed = false → c.Send.buf.length = 256 →
      (∀ data, sendTo h.heap p data = some h.heap) ∧
      (∀ t jd msgID now, ∃ e, SendMessage J h p t jd msgID now = some (h, e)) ∧
      (∀ jd msgID now, sendError J h p jd msgID now = some h) ∧
      (∀ msgID now, ∃ h1, registerClient J h p msgID now = some h1 ∧ h1.heap = h.heap) ∧
      (∀ msgID now, ∃ h1, pingClients J h msgID now = some h1 ∧ h1.heap[p]? = some c) ∧
      (∀ m, ∃ h1, broadcastToAll J h m = some h1 ∧ h1.heap[p]? = some c) ∧
      (∀ u m, ∃ h1, sendToUser J h u m = some h1 ∧ h1.heap[p]? = some c) ∧
      (∀ m h1, handleMessage J h m = some h1 → h1.heap[p]? = some c)) := by
  have inv := inv_of_reachable hr
  obtain ⟨hcap, hlen⟩ := inv.heap.bound p c hc
  refine ⟨hcap, hlen, fun hopen h256 => ?_⟩
  have hfull : ¬ c.Send.buf.length < c.Send.cap := by omega
  have hsend : ∀ data, sendTo h.heap p data = some h.heap :=
    fun data => sendTo_full data hc hopen hfull
  refine ⟨hsend, fun t jd msgID now => ?_, fun jd msgID now => ?_, fun msgID now => ?_,
    fun msgID now => ?_, fun m => ?_, fun u m => ?_, fun m h1 hs => ?_⟩
  · cases jd with
    | none => exact ⟨true, by simp [SendMessage, hc]⟩
    | some d =>
      cases hm : J.marshal { ID := msgID, Type_ := t, UserID := 0, Timestamp := now,
                             Data := d } with
      | none => exact ⟨true, by simp [SendMessage, hc, hm]⟩
      | some b => exact ⟨false, by simp [SendMessage, hc, hm, hsend b]⟩
  · cases hm : J.marshal { ID := msgID, Type_ := "error", UserID := 0, Timestamp := now,
                           Data := jd } with
    | none => simp [sendError, hc, hm]
    | some b => simp [sendError, hc, hm, hsend b]
  · obtain ⟨data, hm⟩ := Option.isSome_iff_exists.mp (J.marshal_connect msgID now)
    exact ⟨{ h with clients := mapSet h.clients c.ID p },
      by simp only [registerClient, hc, hm, hsend data], rfl⟩
  · obtain ⟨h1, hs⟩ := pingClients_total J inv msgID now
    refine ⟨h1, hs, ?_⟩
    unfold pingClients at hs
    split at hs
    · cases hs
      exact hc
    · split at hs
      · cases hs
      · rename_i hrs
        cases hs
        exact rangeSend_full _ _ _ hrs hc hfull
  · obtain ⟨h1, hs⟩ := broadcastToAll_total J inv m
    refine ⟨h1, hs, ?_⟩
    unfold broadcastToAll at hs
    split at hs
    · cases hs
      exact hc
    · split at hs
      · cases hs
      · rename_i hrs
        cases hs
        exact rangeSend_full _ _ _ hrs hc hfull
  · obtain ⟨h1, hs⟩ := sendToUser_total J inv u m
    refine ⟨h1, hs, ?_⟩
    unfold sendToUser at hs
    split at hs
    · cases hs
      exact hc
    · split at hs
      · cases hs
      · rename_i hrs
        cases hs
        exact rangeSend_full _ _ _ hrs hc hfull
  · exact full_of_queueOnly (handleMessage_cases hs) hc hfull

theorem C9_queue_bound_witness :
    ∃ c, scenarioB.heap[0]? = some c ∧ c.Send.cap = 256 ∧ c.Send.buf.length = 256 ∧
      (∀ data, sendTo scenarioB.heap 0 data = some scenarioB.heap) ∧
      (∀ jd msgID now, sendError demoCodec scenarioB 0 jd msgID now = some scenarioB) ∧
      (∀ msgID now, ∃ h1, pingClients demoCodec scenarioB msgID now = some h1 ∧
        h1.heap[0]? = some c) := by
  obtain ⟨c, hc, hopen, hlen, _, _⟩ := scenarioB_full
  have hb := C9_queue_bound demoCodec scenarioB scenarioB_reachable 0 c hc
  obtain ⟨hsend, _, herr, _, hping, _⟩ := hb.2.2 hopen hlen
  exact ⟨c, hc, hb.1, hlen, hsend, herr, hping⟩

/-- Overflow drops the new message for that recipient only, as long as the
queues of the targets are open.  In every reachable state, for an envelope that serializes to `data`, each of
`broadcastToAll`, `sendToUser`, `broadcastToRoom` (on a room whose members
have open queues) and `pingClients` returns a state in which a targeted
recipient whose queue is full keeps exactly its previous queue, every
targeted recipient whose queue has room has `data` appended at the tail, and
nobody else changes; and the delivery loop gives the same result in whatever
order it visits the recipients. -/
theorem overflow_drops_newest_of_open (J : Codec) (h : Hub) (hr : Reachable J h) (m : Message)
    (data : Bytes) (hm : J.marshal m = some data) :
    (∃ h1, broadcastToAll J h m = some h1 ∧
      Delivered h h1 (fun p _ => Registered h p) data) ∧
    (∀ u, ∃ h1, sendToUser J h u m = some h1 ∧
      Delivered h h1 (fun p c => Registered h p ∧ c.UserID = u) data) ∧
    (∀ r room, J.unmarshalRoomID m.Data = some r → mapGet h.rooms r = some room →
      (∀ p ∈ room.Clients, queueOpen h p = true) →
      ∃ h1, broadcastToRoom J h m = some h1 ∧
        Delivered h h1 (fun p _ => Member h p r) data) ∧
    (∀ msgID now pdata,
      J.marshal { ID := msgID, Type_ := MessageTypePing, UserID := 0,
                  Timestamp := now, Data := [] } = some pdata →
      ∃ h1, pingClients J h msgID now = some h1 ∧
        Delivered h h1 (fun p _ => Registered h p) pdata) ∧
    (∀ (cond : Client → Bool) (targets order : List Ptr), List.Perm order targets →
      targets.Nodup → (∀ p ∈ targets, queueOpen h p = true) →
      rangeSend cond data order h.heap = rangeSend cond data targets h.heap) := by
  have inv := inv_of_reachable hr
  refine ⟨broadcastToAll_spec J inv hm, fun u => sendToUser_spec J inv u hm,
    fun r room hu hg hopen => broadcastToRoom_spec J inv hu hg hm hopen,
    fun msgID now pdata hp => pingClients_spec J inv msgID now hp,
    fun cond targets order hperm hnd hopen => ?_⟩
  refine rangeSend_perm cond data h.heap hperm hnd (fun p hp => ?_)
  obtain ⟨c, hc, ho⟩ := queueOpen_iff.mp (hopen p hp)
  exact ⟨c, hc, fun _ => ho⟩

theorem overflow_drops_newest_scenarios :
    (∃ h1, broadcastToAll demoCodec scenarioB
        { ID := "m4", Type_ := MessageTypeBattleEvent, UserID := 0, Timestamp := 8,
          Data := "x".toList } = some h1 ∧ h1.heap[0]? = scenarioB.heap[0]?) ∧
    (∃ h1, broadcastToAll demoCodec scenarioA
        { ID := "m4", Type_ := MessageTypeBattleEvent, UserID := 0, Timestamp := 8,
          Data := "x".toList } = some h1 ∧
      h1.heap[1]? = some
        { ID := 2, UserID := 10,
          Send := { buf := ["connect".toList, "battle_eventx".toList], cap := 256,
                    closed := false },
          Rooms := [] }) ∧
    rangeSend (fun _ => true) "battle_eventx".toList [1, 0] scenarioA.heap =
      rangeSend (fun _ => true) "battle_eventx".toList [0, 1] scenarioA.heap := by
  obtain ⟨c, hc, _, hlen, hcap, hreg⟩ := scenarioB_full
  obtain ⟨h1, hs, hd⟩ := (overflow_drops_newest_of_open demoCodec scenarioB scenarioB_reachable
      { ID := "m4", Type_ := MessageTypeBattleEvent, UserID := 0, Timestamp := 8,
        Data := "x".toList } "battle_eventx".toList (by rfl)).1
  have hA := overflow_drops_newest_of_open demoCodec scenarioA scenarioA_reachable
      { ID := "m4", Type_ := MessageTypeBattleEvent, UserID := 0, Timestamp := 8,
        Data := "x".toList } "battle_eventx".toList (by rfl)
  obtain ⟨h2, hs2, hd2⟩ := hA.1
  refine ⟨⟨h1, hs, ?_⟩, ⟨h2, hs2, ?_⟩, ?_⟩
  · rw [hc]
    exact (hd.2.2.2 0 c hc).2.1 hreg (by omega)
  · exact (hd2.2.2.2 1 _ rfl).1 ⟨_, rfl, rfl⟩ (by decide)
  · exact hA.2.2.2.2 (fun _ => true) [0, 1] [1, 0] (List.Perm.swap 0 1 []) (by decide)
      (by decide)

/-! ## Routing of the remaining types -/

theorem handleMessage_default (J : Codec) (h : Hub) {m : Message}
    (h1 : m.Type_ ≠ MessageTypeChatGuild) (h2 : m.Type_ ≠ MessageTypeChatDistrict)
    (h3 : m.Type_ ≠ MessageTypeResourceUpdate) (h4 : m.Type_ ≠ MessageTypeBuildingUpdate)
    (h5 : m.Type_ ≠ MessageTypeDistrictUpdate) :
    handleMessage J h m = broadcastToAll J h m := by
  unfold handleMessage
  rw [if_neg (by tauto), if_neg (by tauto)]

/-- C12 (the code at the failing input): `handleMessage` hands every envelope
of type `chat_private` to `broadcastToAll`, not to `broadcastToRoom`; in
scenario A an envelope of type `chat_private` whose payload names `guild:7`
is appended to the queue of connection B, which is not a member of
`guild:7`. -/
theorem C12_chat_private_reaches_nonmember :
    (∀ (J : Codec) (h : Hub) (m : Message), m.Type_ = MessageTypeChatPrivate →
      handleMessage J h m = broadcastToAll J h m) ∧
    ¬ Member scenarioA 1 "guild:7" ∧
    handleMessage demoCodec scenarioA
        { ID := "m5", Type_ := MessageTypeChatPrivate, UserID := 10, Timestamp := 9,
          Data := "guild:7".toList } ≠
      broadcastToRoom demoCodec scenarioA
        { ID := "m5", Type_ := MessageTypeChatPrivate, UserID := 10, Timestamp := 9,
          Data := "guild:7".toList } ∧
    ∃ h1, handleMessage demoCodec scenarioA
        { ID := "m5", Type_ := MessageTypeChatPrivate, UserID := 10, Timestamp := 9,
          Data := "guild:7".toList } = some h1 ∧
      h1.heap[1]? = some
        { ID := 2, UserID := 10,
          Send := { buf := ["connect".toList, "chat_privateguild:7".toList], cap := 256,
                    closed := false },
          Rooms := [] } := by
  refine ⟨fun J h m ht => ?_, ?_, by decide, _, rfl, rfl⟩
  · apply handleMessage_default <;> rw [ht] <;> decide
  · rintro ⟨room, hg, hp⟩
    have e : mapGet scenarioA.rooms "guild:7" = some { ID := "guild:7", Clients := [0] } := rfl
    rw [e] at hg
    cases hg
    simp at hp

/-- C13 (the claim fails): the type `bogus` is not in the catalog, and in
scenario A `handleMessage` on an envelope of that type changes the queue of
connection A. -/
theorem C13_unknown_type_counterexample :
    "bogus" ∉ catalog ∧
    ∃ h1, handleMessage demoCodec scenarioA
        { ID := "m6", Type_ := "bogus", UserID := 10, Timestamp := 9,
          Data := "x".toList } = some h1 ∧
      h1.heap[0]? ≠ scenarioA.heap[0]? ∧
      h1.heap[0]? = some
        { ID := 1, UserID := 10,
          Send := { buf := ["connect".toList, "bogusx".toList], cap := 256,
                    closed := false },
          Rooms := ["guild:7"] } := by
  refine ⟨by decide, _, rfl, by decide, rfl⟩

/-- C13 (amended): types outside the catalog get the default scope.  In every
reachable state, for every envelope whose type is not one of the thirteen
catalog types and that serializes to `data`, `handleMessage` returns and
broadcasts: `data` is appended to the queue of every registered client whose
queue is not full, and nothing else changes. -/
theorem C13_unknown_type_broadcast (J : Codec) (h : Hub) (hr : Reachable J h) (m : Message)
    (data : Bytes) (ht : m.Type_ ∉ catalog) (hm : J.marshal m = some data) :
    ∃ h1, handleMessage J h m = some h1 ∧
      Delivered h h1 (fun p _ => Registered h p) data := by
  have hne : ∀ t ∈ catalog, m.Type_ ≠ t := fun t ht1 e => ht (e ▸ ht1)
  obtain ⟨h1, hs, hd⟩ := broadcastToAll_spec J (inv_of_reachable hr) hm
  refine ⟨h1, ?_, hd⟩
  rw [handleMessage_default J h (hne _ (by simp [catalog])) (hne _ (by simp [catalog]))
    (hne _ (by simp [catalog])) (hne _ (by simp [catalog])) (hne _ (by simp [catalog]))]
  exact hs

theorem C13_unknown_type_broadcast_witness :
    ∃ h1, handleMessage demoCodec scenarioA
        { ID := "m6", Type_ := "bogus", UserID := 10, Timestamp := 9,
          Data := "x".toList } = some h1 ∧
      Delivered scenarioA h1 (fun p _ => Registered scenarioA p) "bogusx".toList :=
  C13_unknown_type_broadcast demoCodec scenarioA scenarioA_reachable
    { ID := "m6", Type_ := "bogus", UserID := 10, Timestamp := 9, Data := "x".toList }
    "bogusx".toList (by decide) (by rfl)

/-- C19: the postcondition of `registerClient`.  In every state, for every
client whose queue is open, `registerClient` returns; afterwards the client
registry maps the client's id to the client, every other registry key is as
before, the room registry is unchanged, the client's queue has the serialized
envelope of type `connect` appended at its tail if it was not full and is
unchanged if it was full, and every other client is unchanged. -/
theorem C19_register_postcondition (J : Codec) (h : Hub) (p : Ptr) (c : Client)
    (msgID : String) (now : Nat) (hc : h.heap[p]? = some c) (hopen : c.Send.closed = false) :
    ∃ h1 data, registerClient J h p msgID now = some h1 ∧
      J.marshal { ID := msgID, Type_ := MessageTypeConnect, UserID := 0,
                  Timestamp := now, Data := J.connectData } = some data ∧
      mapGet h1.clients c.ID = some p ∧
      (∀ k, k ≠ c.ID → mapGet h1.clients k = mapGet h.clients k) ∧
      h1.rooms = h.rooms ∧
      (c.Send.buf.length < c.Send.cap →
        h1.heap[p]? = some { c with Send := { c.Send with buf := c.Send.buf ++ [data] } }) ∧
      (¬ c.Send.buf.length < c.Send.cap → h1.heap[p]? = some c) ∧
      (∀ q, q ≠ p → h1.heap[q]? = h.heap[q]?) := by
  obtain ⟨data, hm⟩ := Option.isSome_iff_exists.mp (J.marshal_connect msgID now)
  obtain ⟨hlt, _⟩ := List.getElem?_eq_some.mp hc
  refine ⟨{ clients := mapSet h.clients c.ID p, rooms := h.rooms,
            heap := h.heap.set p (offer c data) }, data, ?_, hm, mapGet_mapSet_self _ _ _,
    fun k hk => mapGet_mapSet_ne _ _ hk, rfl, fun hl => ?_, fun hl => ?_, fun q hq => ?_⟩
  · simp [registerClient, hc, hm, sendTo_of_open data hc hopen]
  · simp [List.getElem?_set, hlt, offer_of_lt data hl]
  · simp [List.getElem?_set, hlt, offer_of_not_lt data hl]
  · simp [List.getElem?_set, Ne.symm hq]

theorem C19_register_postcondition_witness :
    ∃ h1, registerClient demoCodec stepA4 1 "c2" 101 = some h1 ∧
      mapGet h1.clients 2 = some 1 ∧ mapGet h1.clients 1 = some 0 ∧
      h1.rooms = stepA4.rooms ∧
      h1.heap[1]? = some
        { ID := 2, UserID := 10,
          Send := { buf := ["connect".toList], cap := 256, closed := false },
          Rooms := [] } ∧
      h1.heap[0]? = stepA4.heap[0]? := by
  obtain ⟨h1, data, hs, hm, hreg, hothers, hrooms, hroom, _, hframe⟩ :=
    C19_register_postcondition demoCodec stepA4 1
      { ID := 2, UserID := 10, Send := { buf := [], cap := 256, closed := false },
        Rooms := [] }
      "c2" 101 (by rfl) (by rfl)
  have hd : data = "connect".toList := by
    have e : ∀ m : Message, demoCodec.marshal m = some (m.Type_.toList ++ m.Data) :=
      fun _ => rfl
    rw [e] at hm
    exact (Option.some.inj hm).symm
  subst hd
  refine ⟨h1, hs, hreg, ?_, hrooms, hroom (by decide), hframe 0 (by decide)⟩
  rw [hothers 1 (by decide)]
  rfl

/-! ## Statistics -/

theorem mem_keys_iff {K V : Type} [DecidableEq K] (m : List (K × V)) (k : K) :
    k ∈ m.map Prod.fst ↔ (mapGet m k).isSome = true := by
  induction m with
  | nil => simp [mapGet]
  | cons e m ih =>
    obtain ⟨k1, v1⟩ := e
    by_cases hk : k1 = k
    · simp [mapGet, hk]
    · have hk2 : ¬ k = k1 := fun e => hk e.symm
      simp only [List.map_cons, List.mem_cons, hk2, false_or, mapGet, hk, if_false]
      exact ih

theorem removeFromRoom_keys {h h1 : Hub} {p : Ptr} {r : String}
    (hs : removeFromRoom h p r = some h1) (hnd : (h.rooms.map Prod.fst).Nodup) :
    (h1.rooms.map Prod.fst).Nodup := by
  rcases removeFromRoom_eq hs with ⟨_, rfl⟩ | ⟨room, c, _, _, _, _, ⟨_, e⟩ | ⟨_, e⟩⟩
  · exact hnd
  · rw [e]
    exact nodup_keys_mapDelete _ hnd
  · rw [e]
    exact nodup_keys_mapSet _ _ hnd

theorem removeFromRooms_keys (p : Ptr) (rs : List String) :
    ∀ {h h1 : Hub}, removeFromRooms p rs h = some h1 → (h.rooms.map Prod.fst).Nodup →
      (h1.rooms.map Prod.fst).Nodup := by
  induction rs with
  | nil =>
    intro h h1 hs hnd
    simp only [removeFromRooms, Option.some.injEq] at hs
    subst hs
    exact hnd
  | cons r rs ih =>
    intro h h1 hs hnd
    unfold removeFromRooms at hs
    cases hr : removeFromRoom h p r with
    | none => simp [hr] at hs
    | some h2 =>
      simp only [hr] at hs
      exact ih hs (removeFromRoom_keys hr hnd)

theorem rooms_keys_nodup {J : Codec} {h : Hub} (hr : Reachable J h) :
    (h.rooms.map Prod.fst).Nodup := by
  induction hr with
  | init => exact List.nodup_nil
  | newClient id userID _ _ ih => exact ih
  | register p msgID now _ hs ih =>
    obtain ⟨c, data, _, _, _, rfl⟩ := registerClient_eq hs
    exact ih
  | unregister p _ hs ih =>
    obtain ⟨c, _, ⟨_, rfl⟩ | ⟨q, h2, c2, _, hrm, _, _, rfl⟩⟩ := unregisterClient_eq hs
    · exact ih
    · have hk := removeFromRooms_keys p c.Rooms hrm ih
      exact hk
  | join p r _ hs ih =>
    obtain ⟨c, _, rfl⟩ := JoinRoom_eq hs
    exact nodup_keys_mapSet _ _ ih
  | leave p r _ hs ih => exact removeFromRoom_keys hs ih
  | handle m _ hs ih => rw [(handleMessage_queueOnly hs).2.1]; exact ih
  | ping msgID now _ hs ih => rw [(pingClients_queueOnly hs).2.1]; exact ih
  | sendMessage p t jd msgID now e _ hs ih => rw [(SendMessage_queueOnly hs).2.1]; exact ih
  | sendError p jd msgID now _ hs ih => rw [(sendError_queueOnly hs).2.1]; exact ih
  | recv p m _ hs ih => rw [(recv_queueOnly hs).2.1]; exact ih

theorem uniqueUsers_spec (heap : List Client) (cl : List (UUID × Ptr)) :
    ∀ (us0 : List UUID), us0.Nodup → (∀ e ∈ cl, ∃ c, heap[e.2]? = some c) →
      ∃ us, uniqueUsers heap cl us0 = some us ∧ us.Nodup ∧
        us.length ≤ us0.length + cl.length ∧
        ∀ u, u ∈ us ↔ u ∈ us0 ∨ ∃ e ∈ cl, ∃ c, heap[e.2]? = some c ∧ c.UserID = u := by
  induction cl with
  | nil =>
    intro us0 hnd _
    exact ⟨us0, rfl, hnd, by simp, fun u => by simp⟩
  | cons e cl ih =>
    intro us0 hnd hall
    obtain ⟨k, p⟩ := e
    obtain ⟨c, hc⟩ := hall (k, p) (List.mem_cons_self _ _)
    obtain ⟨us, hs, hnd1, hlen, hmem⟩ := ih (setAdd us0 c.UserID) (nodup_setAdd _ hnd)
      (fun e he => hall e (List.mem_cons_of_mem _ he))
    have hc2 : heap[p]? = some c := hc
    have hl : (setAdd us0 c.UserID).length ≤ us0.length + 1 := by
      unfold setAdd
      split <;> simp
    refine ⟨us, by simp [uniqueUsers, hc2, hs], hnd1, by simp only [List.length_cons]; omega,
      fun u => ?_⟩
    rw [hmem u, mem_setAdd]
    constructor
    · rintro ((hu | hu) | ⟨e, he, d, hd, hdu⟩)
      · exact Or.inl hu
      · exact Or.inr ⟨(k, p), List.mem_cons_self _ _, c, hc2, hu.symm⟩
      · exact Or.inr ⟨e, List.mem_cons_of_mem _ he, d, hd, hdu⟩
    · rintro (hu | ⟨e, he, d, hd, hdu⟩)
      · exact Or.inl (Or.inl hu)
      · rcases List.mem_cons.mp he with rfl | he2
        · have hd2 : heap[p]? = some d := hd
          rw [hc2] at hd2
          cases hd2
          exact Or.inl (Or.inr hdu.symm)
        · exact Or.inr ⟨e, he2, d, hd, hdu⟩

/-- C20: the statistics are computed from the registry snapshot.  In every
reachable state `GetOnlineStats` returns `online_users`, `total_connections`
and `active_rooms`, where `online_users` is the length of a repetition-free
list of exactly the `UserID` values of the registered clients,
`total_connections` is the length of the client registry, whose entries are
exactly the registered clients, each once, and `active_rooms` is the length
of the room registry, whose entries are exactly its room ids, each once;
`online_users` is at most `total_connections`, and it is 0 exactly when no
client is registered. -/
theorem C20_online_stats (J : Codec) (h : Hub) (hr : Reachable J h) :
    ∃ us : List UUID,
      GetOnlineStats h = some [("online_users", us.length),
        ("total_connections", h.clients.length), ("active_rooms", h.rooms.length)] ∧
      us.Nodup ∧
      (∀ u, u ∈ us ↔ ∃ (p : Ptr) (c : Client),
        Registered h p ∧ h.heap[p]? = some c ∧ c.UserID = u) ∧
      (h.clients.map Prod.snd).Nodup ∧ (h.clients.map Prod.snd).length = h.clients.length ∧
      (∀ p, p ∈ h.clients.map Prod.snd ↔ Registered h p) ∧
      (h.rooms.map Prod.fst).Nodup ∧ (h.rooms.map Prod.fst).length = h.rooms.length ∧
      (∀ r, r ∈ h.rooms.map Prod.fst ↔ (mapGet h.rooms r).isSome = true) ∧
      us.length ≤ h.clients.length ∧
      (us.length = 0 ↔ ∀ p, ¬ Registered h p) := by
  have inv := inv_of_reachable hr
  obtain ⟨hnd, hreg, hopen⟩ := registry_targets inv
  have hvalid : ∀ e ∈ h.clients, ∃ c, h.heap[e.2]? = some c := by
    intro e he
    obtain ⟨c, hc, _⟩ := hopen e.2 (List.mem_map_of_mem Prod.snd he)
    exact ⟨c, hc⟩
  obtain ⟨us, hs, hnd1, hlen, hmem⟩ := uniqueUsers_spec h.heap h.clients [] List.nodup_nil hvalid
  have hmem2 : ∀ u, u ∈ us ↔ ∃ (p : Ptr) (c : Client),
      Registered h p ∧ h.heap[p]? = some c ∧ c.UserID = u := by
    intro u
    rw [hmem u]
    constructor
    · rintro (hu | ⟨e, he, c, hc, hcu⟩)
      · simp at hu
      · exact ⟨e.2, c, (hreg e.2).mp (List.mem_map_of_mem Prod.snd he), hc, hcu⟩
    · rintro ⟨p, c, hp, hc, hcu⟩
      obtain ⟨e, he, rfl⟩ := List.mem_map.mp ((hreg p).mpr hp)
      exact Or.inr ⟨e, he, c, hc, hcu⟩
  refine ⟨us, by simp [GetOnlineStats, GetOnlineUsers, hs], hnd1, hmem2, hnd, by simp, hreg,
    rooms_keys_nodup hr, by simp, mem_keys_iff h.rooms, by simpa using hlen, ?_⟩
  rw [List.length_eq_zero]
  constructor
  · intro hnil p hp
    obtain ⟨c, hc, hg⟩ := hp
    have : c.UserID ∈ us := (hmem2 c.UserID).mpr ⟨p, c, ⟨c, hc, hg⟩, hc, rfl⟩
    rw [hnil] at this
    simp at this
  · intro hno
    apply List.eq_nil_iff_forall_not_mem.mpr
    intro u hu
    obtain ⟨p, _, hp, _⟩ := (hmem2 u).mp hu
    exact hno p hp

theorem C20_online_stats_witness :
    GetOnlineStats scenarioA =
      some [("online_users", 1), ("total_connections", 2), ("active_rooms", 1)] ∧
    ∃ us : List UUID,
      GetOnlineStats scenarioA = some [("online_users", us.length),
        ("total_connections", scenarioA.clients.length),
        ("active_rooms", scenarioA.rooms.length)] ∧
      us.Nodup ∧
      (∀ u, u ∈ us ↔ ∃ (p : Ptr) (c : Client),
        Registered scenarioA p ∧ scenarioA.heap[p]? = some c ∧ c.UserID = u) ∧
      us.length ≤ scenarioA.clients.length := by
  obtain ⟨us, hs, hnd, hmem, _, _, _, _, _, _, hle, _⟩ :=
    C20_online_stats demoCodec scenarioA scenarioA_reachable
  exact ⟨by rfl, us, hs, hnd, hmem, hle⟩

/-! ## The writer -/

theorem recv_cons {h : Hub} {p : Ptr} {c : Client} {m : Bytes} {rest : List Bytes}
    (hc : h.heap[p]? = some c) (hb : c.Send.buf = m :: rest) :
    recv h p = some (setBuf h p c rest, m) := by
  simp [recv, hc, hb, setBuf]

theorem recv_nil {h : Hub} {p : Ptr} {c : Client}
    (hc : h.heap[p]? = some c) (hb : c.Send.buf = []) : recv h p = none := by
  simp [recv, hc, hb]

theorem setBuf_get {h : Hub} {p : Ptr} {c : Client} (hc : h.heap[p]? = some c)
    (buf : List Bytes) :
    (setBuf h p c buf).heap[p]? = some { c with Send := { c.Send with buf := buf } } := by
  obtain ⟨hlt, _⟩ := List.getElem?_eq_some.mp hc
  simp [setBuf, List.getElem?_set, hlt]

theorem client_buf_self (c : Client) :
    ({ c with Send := { c.Send with buf := c.Send.buf } } : Client) = c := rfl

theorem coalesce_spec (p : Ptr) (ms : List Bytes) :
    ∀ (h : Hub) (w : Bytes) (c : Client) (rest : List Bytes),
      h.heap[p]? = some c → c.Send.buf = ms ++ rest →
      coalesce p ms.length h w =
        some (setBuf h p c rest, w ++ (ms.map fun m => '\n' :: m).flatten) := by
  induction ms with
  | nil =>
    intro h w c rest hc hb
    simp only [List.nil_append] at hb
    unfold setBuf
    rw [← hb, client_buf_self, set_self hc]
    simp [coalesce]
  | cons m ms ih =>
    intro h w c rest hc hb
    have hb1 : c.Send.buf = m :: (ms ++ rest) := by simpa using hb
    simp only [List.length_cons, coalesce, recv_cons hc hb1]
    rw [ih _ _ _ rest (setBuf_get hc (ms ++ rest)) rfl]
    simp [setBuf, List.set_set]

theorem WritePumpSend_frame {h : Hub} {p : Ptr} {c : Client} {m0 : Bytes} {rest : List Bytes}
    (closeOk : Bool) (hc : h.heap[p]? = some c) (hb : c.Send.buf = m0 :: rest) :
    WritePumpSend h p true closeOk =
      some (setBuf h p c [], WriteResult.frame (frameOf (m0 :: rest)) closeOk) := by
  have hc1 := setBuf_get hc rest
  have hq : queueLen (setBuf h p c rest) p = rest.length := by
    simp [queueLen, hc1]
  have hco := coalesce_spec p rest _ m0 _ [] hc1 (by simp)
  simp only [WritePumpSend, hc, recv_cons hc hb, if_true, hq, hco]
  simp [setBuf, List.set_set, frameOf]

theorem WritePumpSend_idle {h : Hub} {p : Ptr} {c : Client} (nextWriterOk closeOk : Bool)
    (hc : h.heap[p]? = some c) (hb : c.Send.buf = []) (hopen : c.Send.closed = false) :
    WritePumpSend h p nextWriterOk closeOk = some (h, WriteResult.idle) := by
  simp [WritePumpSend, hc, recv_nil hc hb, hopen]

theorem runWriter_spec (p : Ptr) (evs : List QueueEvent) :
    ∀ (h : Hub) (c : Client), h.heap[p]? = some c → c.Send.closed = false →
      ∃ h1 c1 log, ∃ groups : List (List Bytes),
        runWriter p evs h = some (h1, log) ∧ h1.heap[p]? = some c1 ∧
        log.frames = groups.map frameOf ∧ (∀ g ∈ groups, g ≠ []) ∧
        groups.flatten ++ c1.Send.buf = c.Send.buf ++ log.enqueued ∧
        (c.Send.buf.length + evs.length ≤ c.Send.cap →
          log.enqueued = evs.filterMap fun ev =>
            match ev with
            | QueueEvent.enqueue data => some data
            | QueueEvent.write => none) := by
  induction evs with
  | nil =>
    intro h c hc _
    exact ⟨h, c, _, [], rfl, hc, rfl, by simp, by simp, fun _ => rfl⟩
  | cons ev evs ih =>
    intro h c hc hopen
    obtain ⟨hlt, _⟩ := List.getElem?_eq_some.mp hc
    cases ev with
    | enqueue data =>
      have hst := sendTo_of_open data hc hopen
      have hc1 : ({ h with heap := h.heap.set p (offer c data) } : Hub).heap[p]? =
          some (offer c data) := by
        simp [List.getElem?_set, hlt]
      have hopen1 : (offer c data).Send.closed = false :=
        (QueueRel.offer c data).2.2.2.1.trans hopen
      obtain ⟨h1, c1, log, groups, hrun, hc1b, hfr, hne, hcat, hall⟩ := ih _ _ hc1 hopen1
      have hq0 : queueLen h p = c.Send.buf.length := by simp [queueLen, hc]
      have hq1 : queueLen { h with heap := h.heap.set p (offer c data) } p =
          (offer c data).Send.buf.length := by
        simp [queueLen, List.getElem?_set, hlt]
      have hrun2 : runWriter p (QueueEvent.enqueue data :: evs) h =
          some (h1, { frames := log.frames,
                      enqueued := (if (offer c data).Send.buf.length = c.Send.buf.length + 1
                        then [data] else []) ++ log.enqueued }) := by
        simp only [runWriter, hst, hrun, hq0, hq1]
      refine ⟨h1, c1, _, groups, hrun2, hc1b, hfr, hne, ?_, ?_⟩
      · by_cases hl : c.Send.buf.length < c.Send.cap
        · rw [offer_of_lt data hl] at hcat
          simp only [offer_of_lt data hl, List.length_append, List.length_singleton, if_true]
          rw [hcat]
          simp
        · rw [offer_of_not_lt data hl] at hcat
          have hne1 : ¬ c.Send.buf.length = c.Send.buf.length + 1 := by omega
          simp only [offer_of_not_lt data hl, hne1, if_false, List.nil_append]
          exact hcat
      · intro hfit
        simp only [List.length_cons] at hfit
        have hl : c.Send.buf.length < c.Send.cap := by omega
        rw [offer_of_lt data hl] at hall
        have hall1 := hall (by simp only [List.length_append, List.length_singleton]; omega)
        simp only [offer_of_lt data hl, List.length_append, List.length_singleton, if_true,
          hall1, List.filterMap_cons]
        simp
    | write =>
      cases hb : c.Send.buf with
      | nil =>
        obtain ⟨h1, c1, log, groups, hrun, hc1b, hfr, hne, hcat, hall⟩ := ih h c hc hopen
        have hrun2 : runWriter p (QueueEvent.write :: evs) h =
            some (h1, { frames := [] ++ log.frames, enqueued := log.enqueued }) := by
          simp only [runWriter, WritePumpSend_idle true true hc hb hopen, hrun]
        refine ⟨h1, c1, _, groups, hrun2, hc1b, by simpa using hfr, hne, ?_, ?_⟩
        · rw [hb] at hcat
          simpa using hcat
        · intro hfit
          simp only [List.length_cons] at hfit
          rw [hb] at hall
          have hall1 := hall (by simp only [List.length_nil]; omega)
          simp only [hall1, List.filterMap_cons]
      | cons m0 rest =>
        obtain ⟨h1, c1, log, groups, hrun, hc1b, hfr, hne, hcat, hall⟩ :=
          ih _ _ (setBuf_get hc []) hopen
        have hrun2 : runWriter p (QueueEvent.write :: evs) h =
            some (h1, { frames := [frameOf (m0 :: rest)] ++ log.frames,
                        enqueued := log.enqueued }) := by
          simp only [runWriter, WritePumpSend_frame true hc hb, hrun]
        refine ⟨h1, c1, _, (m0 :: rest) :: groups, hrun2, hc1b, by simp [hfr], ?_, ?_, ?_⟩
        · intro g hg
          rcases List.mem_cons.mp hg with rfl | hg
          · simp
          · exact hne g hg
        · simp only [List.flatten_cons, List.append_assoc, hcat]
          simp
        · intro hfit
          simp only [List.length_cons] at hfit
          have hall1 := hall (by simp only [List.length_nil]; omega)
          simp only [hall1, List.filterMap_cons]

/-- C11: the writer preserves FIFO order under coalescing.  When the queue of
a client holds `m0, m1, ..., mn` and the transport works, one pass of
`WritePump` writes a single frame, `m0` followed for each later message in
order by a newline byte and that message, and leaves the queue empty; and for
every sequence of enqueues and writer passes on an open queue, the frames
written are the frames of consecutive non-empty groups of messages whose
concatenation, followed by what is still queued, is what was queued at the
start followed by the messages enqueued, in enqueue order (all the messages
offered, when the queue never overflows). -/
theorem C11_writer_fifo (h : Hub) (p : Ptr) (c : Client) (hc : h.heap[p]? = some c) :
    (∀ m0 rest closeOk, c.Send.buf = m0 :: rest →
      WritePumpSend h p true closeOk =
        some (setBuf h p c [], WriteResult.frame (frameOf (m0 :: rest)) closeOk)) ∧
    (c.Send.closed = false → ∀ evs : List QueueEvent,
      ∃ h1 c1 log, ∃ groups : List (List Bytes),
        runWriter p evs h = some (h1, log) ∧ h1.heap[p]? = some c1 ∧
        log.frames = groups.map frameOf ∧ (∀ g ∈ groups, g ≠ []) ∧
        groups.flatten ++ c1.Send.buf = c.Send.buf ++ log.enqueued ∧
        (c.Send.buf.length + evs.length ≤ c.Send.cap →
          log.enqueued = evs.filterMap fun ev =>
            match ev with
            | QueueEvent.enqueue data => some data
            | QueueEvent.write => none)) :=
  ⟨fun _ _ closeOk hb => WritePumpSend_frame closeOk hc hb,
    fun hopen evs => runWriter_spec p evs h c hc hopen⟩

theorem C11_writer_fifo_witness :
    (∃ h1, WritePumpSend scenarioA 0 true true =
        some (h1, WriteResult.frame (frameOf ["connect".toList]) true) ∧
      queueLen h1 0 = 0) ∧
    (∃ h1 log, runWriter 0 [QueueEvent.enqueue "a".toList, QueueEvent.enqueue "b".toList,
        QueueEvent.write, QueueEvent.enqueue "c".toList, QueueEvent.write] scenarioA =
        some (h1, log) ∧
      log.frames = ["connect\na\nb".toList, "c".toList] ∧
      log.enqueued = ["a".toList, "b".toList, "c".toList]) ∧
    (∃ h1 c1 log, ∃ groups : List (List Bytes),
      runWriter 0 [QueueEvent.enqueue "a".toList, QueueEvent.write]
        scenarioA = some (h1, log) ∧ h1.heap[0]? = some c1 ∧
      log.frames = groups.map frameOf ∧
      groups.flatten ++ c1.Send.buf = ["connect".toList] ++ log.enqueued) := by
  have hA := C11_writer_fifo scenarioA 0
    { ID := 1, UserID := 10,
      Send := { buf := ["connect".toList], cap := 256, closed := false },
      Rooms := ["guild:7"] } (by rfl)
  refine ⟨⟨_, hA.1 "connect".toList [] true rfl, by rfl⟩, ⟨_, _, by rfl, by rfl, by rfl⟩, ?_⟩
  obtain ⟨h1, c1, log, groups, hrun, hc1, hfr, _, hcat, _⟩ :=
    hA.2 rfl [QueueEvent.enqueue "a".toList, QueueEvent.write]
  exact ⟨h1, c1, log, groups, hrun, hc1, hfr, hcat⟩

/-! ## The reader -/

theorem sendError_spec (J : Codec) {h : Hub} {p : Ptr} {c : Client} (jd : Bytes)
    (msgID : String) (now : Nat) (hc : h.heap[p]? = some c) (hopen : c.Send.closed = false) :
    ∃ h1, sendError J h p jd msgID now = some h1 ∧ h1.clients = h.clients ∧
      h1.rooms = h.rooms ∧ (∀ q, q ≠ p → h1.heap[q]? = h.heap[q]?) ∧
      (∀ data, J.marshal { ID := msgID, Type_ := "error", UserID := 0, Timestamp := now,
                           Data := jd } = some data → h1.heap[p]? = some (offer c data)) ∧
      (J.marshal { ID := msgID, Type_ := "error", UserID := 0, Timestamp := now,
                   Data := jd } = none → h1 = h) := by
  obtain ⟨hlt, _⟩ := List.getElem?_eq_some.mp hc
  cases hm : J.marshal { ID := msgID, Type_ := "error", UserID := 0, Timestamp := now,
                         Data := jd } with
  | none =>
    exact ⟨h, by simp [sendError, hc, hm], rfl, rfl, fun _ _ => rfl,
      fun _ hd => (by cases hd), fun _ => rfl⟩
  | some data =>
    refine ⟨{ h with heap := h.heap.set p (offer c data) }, ?_, rfl, rfl, fun q hq => ?_,
      fun d hd => ?_, fun hn => (by cases hn)⟩
    · simp [sendError, hc, hm, sendTo_of_open data hc hopen]
    · simp [List.getElem?_set, Ne.symm hq]
    · cases hd
      simp [List.getElem?_set, hlt]

theorem ReadPumpStep_chat (J : Codec) {h : Hub} {p : Ptr} {c : Client} {m : Message}
    (msgID : String) (now : Nat) (errID : String) (errNow : Nat) (hc : h.heap[p]? = some c)
    (ht : m.Type_ = MessageTypeChatGuild ∨ m.Type_ = MessageTypeChatDistrict) :
    ReadPumpStep J h p m msgID now errID errNow =
      match J.unmarshalRoomID m.Data with
      | none =>
        match sendError J h p (errorJSON "Invalid message format") errID errNow with
        | none => none
        | some h1 => some (h1, none)
      | some roomID =>
        if roomID ∈ c.Rooms then
          some (h, some { ID := msgID, Type_ := m.Type_, UserID := c.UserID,
                          Timestamp := now, Data := m.Data })
        else
          match sendError J h p (errorJSON "No access to this room") errID errNow with
          | none => none
          | some h1 => some (h1, none) := by
  have hpong : ¬ m.Type_ = MessageTypePong := by
    rcases ht with e | e <;> rw [e] <;> decide
  unfold ReadPumpStep
  simp only [hc]
  rw [if_neg hpong, if_pos ht]

theorem ReadPumpStep_notification (J : Codec) {h : Hub} {p : Ptr} {c : Client} {m : Message}
    (msgID : String) (now : Nat) (errID : String) (errNow : Nat) (hc : h.heap[p]? = some c)
    (ht : m.Type_ = MessageTypeNotification) :
    ReadPumpStep J h p m msgID now errID errNow =
      match sendError J h p (errorJSON "Cannot send notifications") errID errNow with
      | none => none
      | some h1 => some (h1, none) := by
  have hpong : ¬ m.Type_ = MessageTypePong := by rw [ht]; decide
  have hchat : ¬ (m.Type_ = MessageTypeChatGuild ∨ m.Type_ = MessageTypeChatDistrict) := by
    rw [ht]; decide
  unfold ReadPumpStep
  simp only [hc]
  rw [if_neg hpong, if_neg hchat, if_pos ht]

theorem ReadPumpStep_forward (J : Codec) {h : Hub} {p : Ptr} {c : Client} {m : Message}
    (msgID : String) (now : Nat) (errID : String) (errNow : Nat) (hc : h.heap[p]? = some c)
    (h1 : m.Type_ ≠ MessageTypePong) (h2 : m.Type_ ≠ MessageTypeChatGuild)
    (h3 : m.Type_ ≠ MessageTypeChatDistrict) (h4 : m.Type_ ≠ MessageTypeNotification) :
    ReadPumpStep J h p m msgID now errID errNow =
      some (h, some { ID := msgID, Type_ := m.Type_, UserID := c.UserID,
                      Timestamp := now, Data := m.Data }) := by
  have hchat : ¬ (m.Type_ = MessageTypeChatGuild ∨ m.Type_ = MessageTypeChatDistrict) := by
    tauto
  unfold ReadPumpStep
  simp only [hc]
  rw [if_neg h1, if_neg hchat, if_neg h4]

theorem ReadPump_envelope (J : Codec) (p : Ptr) {h h1 : Hub} {m : Message}
    {fwd : Option Message} (msgID : String) (now : Nat) (errID : String) (errNow : Nat)
    (rest : List Inbound)
    (hs : ReadPumpStep J h p m msgID now errID errNow = some (h1, fwd)) :
    ReadPump J p ({ result := ReadResult.envelope m, msgID := msgID, now := now,
                    errID := errID, errNow := errNow } :: rest) h =
      (ReadPump J p rest h1).map fun r =>
        (r.1, { r.2 with forwarded := fwd.toList ++ r.2.forwarded }) := by
  simp only [ReadPump, hs]
  cases ReadPump J p rest h1 with
  | none => rfl
  | some r => rfl

/-- The body of the loop of `ReadPump` on a decoded envelope.  For every client and
every inbound envelope, replacing the client-supplied `ID`, `UserID` and
`Timestamp` by any other values changes nothing in what the body of the loop
of `ReadPump` does (same state, same decision, same forwarded envelope), and
every envelope it forwards carries the client's own `UserID`, the id from
`uuid.New()` and the time from `time.Now()`, with the type and payload it
came with. -/
theorem ReadPumpStep_stamped (J : Codec) (h : Hub) (p : Ptr) (c : Client) (m : Message)
    (msgID : String) (now : Nat) (errID : String) (errNow : Nat)
    (hc : h.heap[p]? = some c) :
    (∀ (id : String) (uid : UUID) (ts : Nat),
      ReadPumpStep J h p { m with ID := id, UserID := uid, Timestamp := ts }
          msgID now errID errNow =
        ReadPumpStep J h p m msgID now errID errNow) ∧
    (∀ h1 fwd, ReadPumpStep J h p m msgID now errID errNow = some (h1, some fwd) →
      fwd = { ID := msgID, Type_ := m.Type_, UserID := c.UserID, Timestamp := now,
              Data := m.Data }) := by
  refine ⟨fun _ _ _ => rfl, fun h1 fwd hs => ?_⟩
  unfold ReadPumpStep at hs
  simp only [hc] at hs
  split at hs
  · cases hs
  · split at hs
    · split at hs
      · split at hs
        · cases hs
        · cases hs
      · split at hs
        · cases hs
          rfl
        · split at hs
          · cases hs
          · cases hs
    · split at hs
      · split at hs
        · cases hs
        · cases hs
      · cases hs
        rfl

theorem ReadPumpStep_stamped_scenarioA :
    ReadPumpStep demoCodec scenarioA 0
        { ID := "forged", Type_ := MessageTypeChatGuild, UserID := 999, Timestamp := 1,
          Data := "guild:7".toList } "s1" 50 "e1" 51 =
      ReadPumpStep demoCodec scenarioA 0
        { ID := "", Type_ := MessageTypeChatGuild, UserID := 0, Timestamp := 0,
          Data := "guild:7".toList } "s1" 50 "e1" 51 ∧
    ReadPumpStep demoCodec scenarioA 0
        { ID := "forged", Type_ := MessageTypeChatGuild, UserID := 999, Timestamp := 1,
          Data := "guild:7".toList } "s1" 50 "e1" 51 =
      some (scenarioA, some { ID := "s1", Type_ := MessageTypeChatGuild, UserID := 10,
                              Timestamp := 50, Data := "guild:7".toList }) := by
  have hA := ReadPumpStep_stamped demoCodec scenarioA 0
    { ID := 1, UserID := 10,
      Send := { buf := ["connect".toList], cap := 256, closed := false },
      Rooms := ["guild:7"] }
    { ID := "", Type_ := MessageTypeChatGuild, UserID := 0, Timestamp := 0,
      Data := "guild:7".toList } "s1" 50 "e1" 51 (by rfl)
  exact ⟨hA.1 "forged" 999 1, by rfl⟩

/-- C15: the inbound membership check.  For every client with an open queue
and every inbound envelope of type `chat_guild` or `chat_district`: when the
payload parses to a room id in the client's `Rooms`, the body of the loop of
`ReadPump` forwards the stamped envelope and changes nothing; otherwise it
forwards nothing and calls `sendError` once, which offers one envelope of
type `error` to the client's own queue and leaves the registries and every
other client unchanged; in both cases `ReadPump` goes on with the next
read. -/
theorem C15_membership_check (J : Codec) (h : Hub) (p : Ptr) (c : Client) (m : Message)
    (msgID : String) (now : Nat) (errID : String) (errNow : Nat)
    (hc : h.heap[p]? = some c) (hopen : c.Send.closed = false)
    (ht : m.Type_ = MessageTypeChatGuild ∨ m.Type_ = MessageTypeChatDistrict) :
    ((∃ r, J.unmarshalRoomID m.Data = some r ∧ r ∈ c.Rooms) →
      ReadPumpStep J h p m msgID now errID errNow =
        some (h, some { ID := msgID, Type_ := m.Type_, UserID := c.UserID,
                        Timestamp := now, Data := m.Data })) ∧
    (¬ (∃ r, J.unmarshalRoomID m.Data = some r ∧ r ∈ c.Rooms) →
      ∃ h1 errorMsg, ReadPumpStep J h p m msgID now errID errNow = some (h1, none) ∧
        sendError J h p (errorJSON errorMsg) errID errNow = some h1 ∧
        h1.clients = h.clients ∧ h1.rooms = h.rooms ∧
        (∀ q, q ≠ p → h1.heap[q]? = h.heap[q]?) ∧
        (∀ data, J.marshal { ID := errID, Type_ := "error", UserID := 0,
                             Timestamp := errNow, Data := errorJSON errorMsg } = some data →
          h1.heap[p]? = some (offer c data))) ∧
    (∀ rest, ∃ h1 fwd, ReadPumpStep J h p m msgID now errID errNow = some (h1, fwd) ∧
      ReadPump J p ({ result := ReadResult.envelope m, msgID := msgID, now := now,
                      errID := errID, errNow := errNow } :: rest) h =
        (ReadPump J p rest h1).map fun r =>
          (r.1, { r.2 with forwarded := fwd.toList ++ r.2.forwarded })) := by
  have hstep := ReadPumpStep_chat J msgID now errID errNow hc ht
  have hyes : (∃ r, J.unmarshalRoomID m.Data = some r ∧ r ∈ c.Rooms) →
      ReadPumpStep J h p m msgID now errID errNow =
        some (h, some { ID := msgID, Type_ := m.Type_, UserID := c.UserID,
                        Timestamp := now, Data := m.Data }) := by
    rintro ⟨r, hu, hr⟩
    rw [hstep]
    simp [hu, hr]
  have hno : ¬ (∃ r, J.unmarshalRoomID m.Data = some r ∧ r ∈ c.Rooms) →
      ∃ h1 errorMsg, ReadPumpStep J h p m msgID now errID errNow = some (h1, none) ∧
        sendError J h p (errorJSON errorMsg) errID errNow = some h1 ∧
        h1.clients = h.clients ∧ h1.rooms = h.rooms ∧
        (∀ q, q ≠ p → h1.heap[q]? = h.heap[q]?) ∧
        (∀ data, J.marshal { ID := errID, Type_ := "error", UserID := 0,
                             Timestamp := errNow, Data := errorJSON errorMsg } = some data →
          h1.heap[p]? = some (offer c data)) := by
    intro hnot
    cases hu : J.unmarshalRoomID m.Data with
    | none =>
      obtain ⟨h1, hs, hcl, hrm, hfr, hq, _⟩ :=
        sendError_spec J (errorJSON "Invalid message format") errID errNow hc hopen
      refine ⟨h1, "Invalid message format", ?_, hs, hcl, hrm, hfr, hq⟩
      rw [hstep]
      simp [hu, hs]
    | some r =>
      have hr : r ∉ c.Rooms := fun hr => hnot ⟨r, hu, hr⟩
      obtain ⟨h1, hs, hcl, hrm, hfr, hq, _⟩ :=
        sendError_spec J (errorJSON "No access to this room") errID errNow hc hopen
      refine ⟨h1, "No access to this room", ?_, hs, hcl, hrm, hfr, hq⟩
      rw [hstep]
      simp [hu, hr, hs]
  refine ⟨hyes, hno, fun rest => ?_⟩
  by_cases hex : ∃ r, J.unmarshalRoomID m.Data = some r ∧ r ∈ c.Rooms
  · exact ⟨_, _, hyes hex, ReadPump_envelope J p msgID now errID errNow rest (hyes hex)⟩
  · obtain ⟨h1, _, hs, _⟩ := hno hex
    exact ⟨_, _, hs, ReadPump_envelope J p msgID now errID errNow rest hs⟩

theorem C15_membership_check_witness :
    ReadPumpStep demoCodec scenarioA 0
        { ID := "x", Type_ := MessageTypeChatGuild, UserID := 0, Timestamp := 0,
          Data := "guild:7".toList } "s1" 50 "e1" 51 =
      some (scenarioA, some { ID := "s1", Type_ := MessageTypeChatGuild, UserID := 10,
                              Timestamp := 50, Data := "guild:7".toList }) ∧
    ∃ h1, ReadPumpStep demoCodec scenarioA 1
        { ID := "x", Type_ := MessageTypeChatGuild, UserID := 0, Timestamp := 0,
          Data := "guild:7".toList } "s1" 50 "e1" 51 = some (h1, none) ∧
      h1.heap[0]? = scenarioA.heap[0]? ∧ queueLen h1 1 = 2 := by
  have hA := C15_membership_check demoCodec scenarioA 0
    { ID := 1, UserID := 10,
      Send := { buf := ["connect".toList], cap := 256, closed := false },
      Rooms := ["guild:7"] }
    { ID := "x", Type_ := MessageTypeChatGuild, UserID := 0, Timestamp := 0,
      Data := "guild:7".toList } "s1" 50 "e1" 51 (by rfl) (by rfl) (Or.inl rfl)
  have hB := C15_membership_check demoCodec scenarioA 1
    { ID := 2, UserID := 10,
      Send := { buf := ["connect".toList], cap := 256, closed := false },
      Rooms := [] }
    { ID := "x", Type_ := MessageTypeChatGuild, UserID := 0, Timestamp := 0,
      Data := "guild:7".toList } "s1" 50 "e1" 51 (by rfl) (by rfl) (Or.inl rfl)
  refine ⟨hA.1 ⟨"guild:7", by rfl, by decide⟩, ?_⟩
  obtain ⟨h1, _, hs, _, _, _, hfr, _⟩ := hB.2.1 (by rintro ⟨r, _, hr⟩; simp at hr)
  refine ⟨h1, hs, hfr 0 (by decide), ?_⟩
  have e : ReadPumpStep demoCodec scenarioA 1
      { ID := "x", Type_ := MessageTypeChatGuild, UserID := 0, Timestamp := 0,
        Data := "guild:7".toList } "s1" 50 "e1" 51 =
      some ((sendError demoCodec scenarioA 1 (errorJSON "No access to this room")
        "e1" 51).getD scenarioA, none) := by rfl
  rw [e] at hs
  cases hs
  rfl

/-- C16: for every client with an open queue and every inbound envelope of
type `notification`, the body of the loop of `ReadPump` forwards nothing to
the hub and calls `sendError` once, which offers one envelope of type `error`
to the client's own queue and leaves the registries and every other client
unchanged; `ReadPump` then goes on with the next read, so the connection
stays open. -/
theorem C16_notification_rejected (J : Codec) (h : Hub) (p : Ptr) (c : Client) (m : Message)
    (msgID : String) (now : Nat) (errID : String) (errNow : Nat)
    (hc : h.heap[p]? = some c) (hopen : c.Send.closed = false)
    (ht : m.Type_ = MessageTypeNotification) :
    ∃ h1, ReadPumpStep J h p m msgID now errID errNow = some (h1, none) ∧
      sendError J h p (errorJSON "Cannot send notifications") errID errNow = some h1 ∧
      h1.clients = h.clients ∧ h1.rooms = h.rooms ∧
      (∀ q, q ≠ p → h1.heap[q]? = h.heap[q]?) ∧
      (∀ data, J.marshal { ID := errID, Type_ := "error", UserID := 0, Timestamp := errNow,
                           Data := errorJSON "Cannot send notifications" } = some data →
        h1.heap[p]? = some (offer c data)) ∧
      (∀ rest, ReadPump J p ({ result := ReadResult.envelope m, msgID := msgID, now := now,
                               errID := errID, errNow := errNow } :: rest) h =
        (ReadPump J p rest h1).map fun r =>
          (r.1, { r.2 with forwarded := [] ++ r.2.forwarded })) := by
  obtain ⟨h1, hs, hcl, hrm, hfr, hq, _⟩ :=
    sendError_spec J (errorJSON "Cannot send notifications") errID errNow hc hopen
  have hstep : ReadPumpStep J h p m msgID now errID errNow = some (h1, none) := by
    rw [ReadPumpStep_notification J msgID now errID errNow hc ht]
    simp [hs]
  exact ⟨h1, hstep, hs, hcl, hrm, hfr, hq,
    fun rest => ReadPump_envelope J p msgID now errID errNow rest hstep⟩

theorem C16_notification_rejected_witness :
    ∃ h1, ReadPumpStep demoCodec scenarioA 0
        { ID := "x", Type_ := MessageTypeNotification, UserID := 0, Timestamp := 0,
          Data := "hi".toList } "s1" 50 "e1" 51 = some (h1, none) ∧
      h1.heap[1]? = scenarioA.heap[1]? ∧
      h1.heap[0]? = some (offer
        { ID := 1, UserID := 10,
          Send := { buf := ["connect".toList], cap := 256, closed := false },
          Rooms := ["guild:7"] }
        ("error".toList ++ errorJSON "Cannot send notifications")) := by
  obtain ⟨h1, hs, _, _, _, hfr, hq, _⟩ := C16_notification_rejected demoCodec scenarioA 0
    { ID := 1, UserID := 10,
      Send := { buf := ["connect".toList], cap := 256, closed := false },
      Rooms := ["guild:7"] }
    { ID := "x", Type_ := MessageTypeNotification, UserID := 0, Timestamp := 0,
      Data := "hi".toList } "s1" 50 "e1" 51 (by rfl) (by rfl) rfl
  exact ⟨h1, hs, hfr 1 (by decide), hq _ rfl⟩

/-- The body of the loop on a game event: in scenario A connection A sends an envelope of
type `battle_event`; the body of the loop of `ReadPump` forwards it, stamped,
to the hub, and `handleMessage` then appends it to the queue of connection
B. -/
theorem game_event_forwarded_step :
    ReadPumpStep demoCodec scenarioA 0
        { ID := "x", Type_ := MessageTypeBattleEvent, UserID := 0, Timestamp := 0,
          Data := "won".toList } "s1" 50 "e1" 51 =
      some (scenarioA, some { ID := "s1", Type_ := MessageTypeBattleEvent, UserID := 10,
                              Timestamp := 50, Data := "won".toList }) ∧
    ∃ h1, handleMessage demoCodec scenarioA
        { ID := "s1", Type_ := MessageTypeBattleEvent, UserID := 10, Timestamp := 50,
          Data := "won".toList } = some h1 ∧
      h1.heap[1]? = some
        { ID := 2, UserID := 10,
          Send := { buf := ["connect".toList, "battle_eventwon".toList], cap := 256,
                    closed := false },
          Rooms := [] } :=
  ⟨by rfl, _, rfl, rfl⟩

/-- What the switch of `ReadPump` does with the server-originated types: only
`notification` is rejected when it arrives from a client.  For every client, an inbound
envelope of type `resource_update`, `building_update`, `district_update`,
`guild_update` or `battle_event` is stamped with the id from `uuid.New()`,
the client's own `UserID` and the time from `time.Now()` and forwarded to the
hub, the state unchanged; an inbound envelope of type `notification` is not
forwarded (the client, its queue open, is offered an error envelope). -/
theorem server_types_screening (J : Codec) (h : Hub) (p : Ptr) (c : Client) (m : Message)
    (msgID : String) (now : Nat) (errID : String) (errNow : Nat)
    (hc : h.heap[p]? = some c) :
    ((m.Type_ = MessageTypeResourceUpdate ∨ m.Type_ = MessageTypeBuildingUpdate ∨
        m.Type_ = MessageTypeDistrictUpdate ∨ m.Type_ = MessageTypeGuildUpdate ∨
        m.Type_ = MessageTypeBattleEvent) →
      ReadPumpStep J h p m msgID now errID errNow =
        some (h, some { ID := msgID, Type_ := m.Type_, UserID := c.UserID,
                        Timestamp := now, Data := m.Data })) ∧
    (m.Type_ = MessageTypeNotification → c.Send.closed = false →
      ∃ h1, ReadPumpStep J h p m msgID now errID errNow = some (h1, none)) := by
  constructor
  · intro ht
    apply ReadPumpStep_forward J msgID now errID errNow hc
    all_goals rcases ht with e | e | e | e | e <;> rw [e] <;> decide
  · intro ht hopen
    obtain ⟨h1, hs, _⟩ :=
      sendError_spec J (errorJSON "Cannot send notifications") errID errNow hc hopen
    refine ⟨h1, ?_⟩
    rw [ReadPumpStep_notification J msgID now errID errNow hc ht]
    simp [hs]

theorem server_types_screening_scenarioA :
    ReadPumpStep demoCodec scenarioA 0
        { ID := "x", Type_ := MessageTypeGuildUpdate, UserID := 0, Timestamp := 0,
          Data := "won".toList } "s1" 50 "e1" 51 =
      some (scenarioA, some { ID := "s1", Type_ := MessageTypeGuildUpdate, UserID := 10,
                              Timestamp := 50, Data := "won".toList }) ∧
    ∃ h1, ReadPumpStep demoCodec scenarioA 0
        { ID := "x", Type_ := MessageTypeNotification, UserID := 0, Timestamp := 0,
          Data := "won".toList } "s1" 50 "e1" 51 = some (h1, none) :=
  ⟨(server_types_screening demoCodec scenarioA 0
      { ID := 1, UserID := 10,
        Send := { buf := ["connect".toList], cap := 256, closed := false },
        Rooms := ["guild:7"] }
      { ID := "x", Type_ := MessageTypeGuildUpdate, UserID := 0, Timestamp := 0,
        Data := "won".toList } "s1" 50 "e1" 51 (by rfl)).1
      (Or.inr (Or.inr (Or.inr (Or.inl rfl)))),
   (server_types_screening demoCodec scenarioA 0
      { ID := 1, UserID := 10,
        Send := { buf := ["connect".toList], cap := 256, closed := false },
        Rooms := ["guild:7"] }
      { ID := "x", Type_ := MessageTypeNotification, UserID := 0, Timestamp := 0,
        Data := "won".toList } "s1" 50 "e1" 51 (by rfl)).2 rfl rfl⟩

/-- C18 (the claim fails): in scenario A the transport delivers to
connection A a unit that cannot be decoded, followed by a well-formed
envelope of type `ping`; `ReadPump` leaves its loop at the first unit: it
forwards nothing, sends one unregister request and closes the connection, and
the envelope that follows is never read. -/
theorem C18_malformed_unit_counterexample :
    ReadPump demoCodec 0
        [{ result := ReadResult.undecodable, msgID := "s1", now := 50, errID := "e1",
           errNow := 51 },
         { result := ReadResult.envelope
             { ID := "x", Type_ := MessageTypePing, UserID := 0, Timestamp := 0, Data := [] },
           msgID := "s2", now := 52, errID := "e2", errNow := 53 }]
        scenarioA =
      some (scenarioA, { forwarded := [], unregisterRequests := 1, connClosed := true }) ∧
    ReadPump demoCodec 0
        [{ result := ReadResult.envelope
             { ID := "x", Type_ := MessageTypePing, UserID := 0, Timestamp := 0, Data := [] },
           msgID := "s2", now := 52, errID := "e2", errNow := 53 }]
        scenarioA =
      some (scenarioA,
        { forwarded := [{ ID := "s2", Type_ := MessageTypePing, UserID := 10, Timestamp := 52,
                          Data := [] }],
          unregisterRequests := 0, connClosed := false }) :=
  ⟨by rfl, by rfl⟩

/-- C18 (amended): a malformed inbound unit ends the reader like a transport
error does.  For every client and every read on which `ReadJSON` returns an
error, whether the unit could not be decoded or the transport failed,
`ReadPump` forwards nothing for it, reads no further unit, sends one
unregister request and closes the connection, the hub state unchanged. -/
theorem C18_read_error_ends_reader (J : Codec) (p : Ptr) (h : Hub) (i : Inbound)
    (rest : List Inbound)
    (herr : i.result = ReadResult.undecodable ∨ i.result = ReadResult.transportError) :
    ReadPump J p (i :: rest) h =
      some (h, { forwarded := [], unregisterRequests := 1, connClosed := true }) := by
  rcases herr with e | e <;> simp [ReadPump, e]

theorem C18_read_error_ends_reader_witness :
    ReadPump demoCodec 0
        [{ result := ReadResult.undecodable, msgID := "s1", now := 50, errID := "e1",
           errNow := 51 },
         { result := ReadResult.envelope
             { ID := "x", Type_ := MessageTypePing, UserID := 0, Timestamp := 0, Data := [] },
           msgID := "s2", now := 52, errID := "e2", errNow := 53 }]
        scenarioA =
      some (scenarioA, { forwarded := [], unregisterRequests := 1, connClosed := true }) :=
  C18_read_error_ends_reader demoCodec 0 scenarioA
    { result := ReadResult.undecodable, msgID := "s1", now := 50, errID := "e1", errNow := 51 }
    [{ result := ReadResult.envelope
         { ID := "x", Type_ := MessageTypePing, UserID := 0, Timestamp := 0, Data := [] },
       msgID := "s2", now := 52, errID := "e2", errNow := 53 }]
    (Or.inl rfl)

/-! ## Server-side events -/

theorem scenarioTwoUsers_reachable : Reachable demoCodec scenarioTwoUsers :=
  Reachable.register 1 "c3" 102
    (Reachable.newClient 3 20
      (Reachable.join 0 "guild:7" stepA2_reachable (by rfl))
      (by decide))
    (by rfl)

/-- C21 (the code at the failing input): `handleMessage` hands the envelope of
`SendNotification` to `broadcastToAll` whatever the user id; with connection A
of user 10 and connection C of user 20 registered, the notification for user
10 is appended to the queue of C. -/
theorem C21_notification_reaches_other_user :
    (∀ (J : Codec) (h : Hub) (u : UUID) (data : Bytes) (msgID : String) (now : Nat),
      handleMessage J h (SendNotification u data msgID now) =
        broadcastToAll J h (SendNotification u data msgID now)) ∧
    Reachable demoCodec scenarioTwoUsers ∧
    scenarioTwoUsers.heap[1]? = some
      { ID := 3, UserID := 20,
        Send := { buf := ["connect".toList], cap := 256, closed := false },
        Rooms := [] } ∧
    handleMessage demoCodec scenarioTwoUsers (SendNotification 10 "hi".toList "n1" 9) ≠
      sendToUser demoCodec scenarioTwoUsers 10 (SendNotification 10 "hi".toList "n1" 9) ∧
    ∃ h1, handleMessage demoCodec scenarioTwoUsers (SendNotification 10 "hi".toList "n1" 9) =
        some h1 ∧
      h1.heap[1]? = some
        { ID := 3, UserID := 20,
          Send := { buf := ["connect".toList, "notificationhi".toList], cap := 256,
                    closed := false },
          Rooms := [] } := by
  refine ⟨fun J h u data msgID now => ?_, scenarioTwoUsers_reachable, rfl, by decide, _, rfl, rfl⟩
  apply handleMessage_default <;> (show MessageTypeNotification ≠ _) <;> decide

/-- C22 (the code at the failing input): `handleMessage` hands the envelope of
`NotifyGuildEvent` to `broadcastToAll`, which does not read the payload; with
A in `guild:7` and C in no room, the event of guild 7 is appended to the queue
of C, and the event of guild 8, whose room does not exist, is appended to the
queue of A. -/
theorem C22_guild_event_reaches_nonmember :
    (∀ (J : Codec) (h : Hub) (f : String → Bytes) (g msgID : String) (now : Nat),
      handleMessage J h (NotifyGuildEvent f g msgID now) =
        broadcastToAll J h (NotifyGuildEvent f g msgID now)) ∧
    demoCodec.unmarshalRoomID (NotifyGuildEvent String.toList "7" "g1" 9).Data =
      some "guild:7" ∧
    ¬ Member scenarioTwoUsers 1 "guild:7" ∧
    (∃ h1, handleMessage demoCodec scenarioTwoUsers
        (NotifyGuildEvent String.toList "7" "g1" 9) = some h1 ∧
      h1.heap[1]? = some
        { ID := 3, UserID := 20,
          Send := { buf := ["connect".toList, "guild_updateguild:7".toList], cap := 256,
                    closed := false },
          Rooms := [] }) ∧
    mapGet scenarioTwoUsers.rooms "guild:8" = none ∧
    ∃ h2, handleMessage demoCodec scenarioTwoUsers
        (NotifyGuildEvent String.toList "8" "g2" 9) = some h2 ∧
      h2.heap[0]? = some
        { ID := 1, UserID := 10,
          Send := { buf := ["connect".toList, "guild_updateguild:8".toList], cap := 256,
                    closed := false },
          Rooms := ["guild:7"] } := by
  refine ⟨fun J h f g msgID now => ?_, rfl, ?_, ⟨_, rfl, rfl⟩, rfl, _, rfl, rfl⟩
  · apply handleMessage_default <;> (show MessageTypeGuildUpdate ≠ _) <;> decide
  · rintro ⟨room, hg, hp⟩
    have e : mapGet scenarioTwoUsers.rooms "guild:7" =
        some { ID := "guild:7", Clients := [0] } := rfl
    rw [e] at hg
    cases hg
    simp at hp

/-! ## Closed queues -/

theorem lateJoin_reachable : Reachable demoCodec lateJoin :=
  Reachable.join 0 "user:10" (Reachable.unregister 0 stepA2_reachable (by rfl)) (by rfl)

/-- C23 (the code at the failing input): every client in the client registry
of a reachable state has an open queue, but a room member need not.  After
`registerClient`, `unregisterClient` and `JoinRoom` on one client, the client
is a member of `user:10` with a closed queue, and `handleMessage` on a chat
envelope for that room sends on the closed channel: it panics. -/
theorem C23_closed_member_panics :
    (∀ (J : Codec) (h : Hub), Reachable J h → ∀ p, Registered h p → queueOpen h p = true) ∧
    Reachable demoCodec lateJoin ∧
    Member lateJoin 0 "user:10" ∧
    queueOpen lateJoin 0 = false ∧
    handleMessage demoCodec lateJoin
        { ID := "m7", Type_ := MessageTypeChatGuild, UserID := 10, Timestamp := 9,
          Data := "user:10".toList } = none := by
  refine ⟨fun J h hr p hp => ?_, lateJoin_reachable, ⟨{ ID := "user:10", Clients := [0] }, rfl,
    by simp⟩, rfl, rfl⟩
  obtain ⟨c, hc, hreg⟩ := hp
  obtain ⟨c1, hc1, _, ho⟩ := (inv_of_reachable hr).registry.reg _ _ hreg
  exact queueOpen_iff.mpr ⟨c1, hc1, ho⟩

/-! ## System envelopes -/

/-- C26: system-scoped envelopes are broadcast unconditionally.  In every
reachable state, `handleMessage` on an envelope of type `connect`,
`disconnect`, `ping` or `pong` that serializes to `data` returns and appends
`data` to the queue of every registered client whose queue is not full,
whatever its user id and rooms, and changes nothing else; `pingClients`
returns and does the same with its serialized envelope of type `ping`. -/
theorem C26_system_broadcast (J : Codec) (h : Hub) (hr : Reachable J h) :
    (∀ (m : Message) (data : Bytes),
      m.Type_ = MessageTypeConnect ∨ m.Type_ = MessageTypeDisconnect ∨
        m.Type_ = MessageTypePing ∨ m.Type_ = MessageTypePong →
      J.marshal m = some data →
      ∃ h1, handleMessage J h m = some h1 ∧
        Delivered h h1 (fun p _ => Registered h p) data) ∧
    (∀ (msgID : String) (now : Nat) (data : Bytes),
      J.marshal { ID := msgID, Type_ := MessageTypePing, UserID := 0,
                  Timestamp := now, Data := [] } = some data →
      ∃ h1, pingClients J h msgID now = some h1 ∧
        Delivered h h1 (fun p _ => Registered h p) data) := by
  refine ⟨fun m data ht hm => ?_, fun msgID now data hm =>
    pingClients_spec J (inv_of_reachable hr) msgID now hm⟩
  obtain ⟨h1, hs, hd⟩ := broadcastToAll_spec J (inv_of_reachable hr) hm
  refine ⟨h1, ?_, hd⟩
  rw [← hs]
  rcases ht with e | e | e | e <;>
    exact handleMessage_default J h (by rw [e]; decide) (by rw [e]; decide)
      (by rw [e]; decide) (by rw [e]; decide) (by rw [e]; decide)

theorem C26_system_broadcast_witness :
    (∃ h1, handleMessage demoCodec scenarioTwoUsers
        { ID := "m8", Type_ := MessageTypePong, UserID := 10, Timestamp := 9,
          Data := "x".toList } = some h1 ∧
      Delivered scenarioTwoUsers h1 (fun p _ => Registered scenarioTwoUsers p)
        "pongx".toList) ∧
    ∃ h1, pingClients demoCodec scenarioTwoUsers "p1" 30 = some h1 ∧
      Delivered scenarioTwoUsers h1 (fun p _ => Registered scenarioTwoUsers p)
        "ping".toList :=
  ⟨(C26_system_broadcast demoCodec scenarioTwoUsers scenarioTwoUsers_reachable).1
      { ID := "m8", Type_ := MessageTypePong, UserID := 10, Timestamp := 9,
        Data := "x".toList }
      "pongx".toList (Or.inr (Or.inr (Or.inr rfl))) (by rfl),
   (C26_system_broadcast demoCodec scenarioTwoUsers scenarioTwoUsers_reachable).2
      "p1" 30 "ping".toList (by rfl)⟩

/-! ## SendMessage -/

/-- C27: `SendMessage` does not surface overflow.  For every client with an
open queue: when the payload and the envelope serialize, `SendMessage`
returns no error, with the envelope appended at the tail of the queue if it
had room and with the state unchanged if it was full; when the payload or the
envelope does not serialize it returns an error and the state is unchanged;
and it returns an error in no other case. -/
theorem C27_overflow_not_surfaced (J : Codec) (h : Hub) (p : Ptr) (c : Client)
    (t : MessageType) (jsonData : Option Bytes) (msgID : String) (now : Nat)
    (hc : h.heap[p]? = some c) (hopen : c.Send.closed = false) :
    (∀ jd data, jsonData = some jd →
      J.marshal { ID := msgID, Type_ := t, UserID := 0, Timestamp := now, Data := jd } =
        some data →
      (c.Send.buf.length < c.Send.cap →
        SendMessage J h p t jsonData msgID now =
          some (setBuf h p c (c.Send.buf ++ [data]), false)) ∧
      (¬ c.Send.buf.length < c.Send.cap →
        SendMessage J h p t jsonData msgID now = some (h, false))) ∧
    ((jsonData = none ∨ ∃ jd, jsonData = some jd ∧
        J.marshal { ID := msgID, Type_ := t, UserID := 0, Timestamp := now, Data := jd } =
          none) →
      SendMessage J h p t jsonData msgID now = some (h, true)) ∧
    (∀ h1, SendMessage J h p t jsonData msgID now = some (h1, true) →
      h1 = h ∧ (jsonData = none ∨ ∃ jd, jsonData = some jd ∧
        J.marshal { ID := msgID, Type_ := t, UserID := 0, Timestamp := now, Data := jd } =
          none)) := by
  refine ⟨fun jd data hj hm => ⟨fun hl => ?_, fun hl => ?_⟩, fun hfail => ?_, fun h1 hs => ?_⟩
  · subst hj
    simp [SendMessage, hc, hm, sendTo_of_open data hc hopen, offer_of_lt data hl, setBuf]
  · subst hj
    simp [SendMessage, hc, hm, sendTo_full data hc hopen hl]
  · rcases hfail with e | ⟨jd, e, hm⟩
    · subst e
      simp [SendMessage, hc]
    · subst e
      simp [SendMessage, hc, hm]
  · cases jsonData with
    | none =>
      simp [SendMessage, hc] at hs
      exact ⟨hs.symm, Or.inl rfl⟩
    | some jd =>
      cases hm : J.marshal { ID := msgID, Type_ := t, UserID := 0, Timestamp := now,
                             Data := jd } with
      | none =>
        simp [SendMessage, hc, hm] at hs
        exact ⟨hs.symm, Or.inr ⟨jd, rfl, hm⟩⟩
      | some data =>
        simp [SendMessage, hc, hm, sendTo_of_open data hc hopen] at hs

theorem C27_overflow_not_surfaced_witness :
    SendMessage demoCodec scenarioA 0 MessageTypeNotification (some "x".toList) "s1" 7 =
      some (setBuf scenarioA 0
        { ID := 1, UserID := 10,
          Send := { buf := ["connect".toList], cap := 256, closed := false },
          Rooms := ["guild:7"] }
        ["connect".toList, "notificationx".toList], false) :=
  ((C27_overflow_not_surfaced demoCodec scenarioA 0
      { ID := 1, UserID := 10,
        Send := { buf := ["connect".toList], cap := 256, closed := false },
        Rooms := ["guild:7"] }
      MessageTypeNotification (some "x".toList) "s1" 7 (by rfl) (by rfl)).1
    "x".toList "notificationx".toList rfl (by rfl)).1 (by decide)

/-! ## Teardown -/

theorem ReadPumpStep_total (J : Codec) {h : Hub} {p : Ptr} {c : Client} (m : Message)
    (msgID : String) (now : Nat) (errID : String) (errNow : Nat)
    (hc : h.heap[p]? = some c) (hopen : c.Send.closed = false) :
    ∃ h1 fwd c1, ReadPumpStep J h p m msgID now errID errNow = some (h1, fwd) ∧
      h1.heap[p]? = some c1 ∧ c1.Send.closed = false := by
  have herr : ∀ jd, ∃ h1 c1, sendError J h p jd errID errNow = some h1 ∧
      h1.heap[p]? = some c1 ∧ c1.Send.closed = false := by
    intro jd
    obtain ⟨h1, hs, -⟩ := sendError_spec J jd errID errNow hc hopen
    obtain ⟨-, -, -, hrel⟩ := sendError_queueOnly hs
    obtain ⟨c1, hc1, hq⟩ := hrel p c hc
    exact ⟨h1, c1, hs, hc1, by rw [hq.2.2.2.1]; exact hopen⟩
  unfold ReadPumpStep
  simp only [hc]
  split
  · exact ⟨h, none, c, rfl, hc, hopen⟩
  · split
    · split
      · obtain ⟨h1, c1, hs, hc1, ho⟩ := herr (errorJSON "Invalid message format")
        exact ⟨h1, none, c1, by simp [hs], hc1, ho⟩
      · split
        · exact ⟨h, _, c, rfl, hc, hopen⟩
        · obtain ⟨h1, c1, hs, hc1, ho⟩ := herr (errorJSON "No access to this room")
          exact ⟨h1, none, c1, by simp [hs], hc1, ho⟩
    · split
      · obtain ⟨h1, c1, hs, hc1, ho⟩ := herr (errorJSON "Cannot send notifications")
        exact ⟨h1, none, c1, by simp [hs], hc1, ho⟩
      · exact ⟨h, _, c, rfl, hc, hopen⟩

theorem ReadPump_envelopes (J : Codec) (p : Ptr) (units : List Inbound) :
    ∀ {h : Hub} {c : Client}, (∀ i ∈ units, ∃ m, i.result = ReadResult.envelope m) →
      h.heap[p]? = some c → c.Send.closed = false →
      ∃ h1 c1 fwd, h1.heap[p]? = some c1 ∧ c1.Send.closed = false ∧
        ∀ rest, ReadPump J p (units ++ rest) h =
          match ReadPump J p rest h1 with
          | none => none
          | some (h2, log) => some (h2, { log with forwarded := fwd ++ log.forwarded }) := by
  induction units with
  | nil =>
    intro h c _ hc hopen
    refine ⟨h, c, [], hc, hopen, fun rest => ?_⟩
    rw [List.nil_append]
    cases ReadPump J p rest h with
    | none => rfl
    | some r => rfl
  | cons i units ih =>
    intro h c hunits hc hopen
    obtain ⟨m, hm⟩ := hunits i (List.mem_cons_self _ _)
    obtain ⟨h1, fwd0, c1, hs, hc1, ho1⟩ :=
      ReadPumpStep_total J m i.msgID i.now i.errID i.errNow hc hopen
    obtain ⟨h2, c2, fwd, hc2, ho2, hrun⟩ :=
      ih (fun j hj => hunits j (List.mem_cons_of_mem _ hj)) hc1 ho1
    refine ⟨h2, c2, fwd0.toList ++ fwd, hc2, ho2, fun rest => ?_⟩
    have e : ReadPump J p (i :: units ++ rest) h =
        match ReadPump J p (units ++ rest) h1 with
        | none => none
        | some (h3, log) => some (h3, { log with forwarded := fwd0.toList ++ log.forwarded }) := by
      simp only [List.cons_append, ReadPump, hm, hs]
      rfl
    rw [e, hrun rest]
    cases ReadPump J p rest h2 with
    | none => rfl
    | some r => simp [List.append_assoc]

/-- C24: teardown is triggered exactly once per connection.  For every client
with an open queue and every sequence of successfully read units followed by
a read that returns an error, `ReadPump` returns: it processes the units,
then sends the client on `c.Hub.unregister` exactly once and closes the
connection, and reads nothing after that; while only the units, or any number
of the first of them, have been read, it has sent no unregister request and
the connection is not closed. -/
theorem C24_teardown_once (J : Codec) (p : Ptr) (h : Hub) (c : Client)
    (units : List Inbound) (e : Inbound) (later : List Inbound)
    (hc : h.heap[p]? = some c) (hopen : c.Send.closed = false)
    (hunits : ∀ i ∈ units, ∃ m, i.result = ReadResult.envelope m)
    (herr : e.result = ReadResult.transportError ∨ e.result = ReadResult.undecodable) :
    (∃ h1 fwd,
      ReadPump J p units h =
        some (h1, { forwarded := fwd, unregisterRequests := 0, connClosed := false }) ∧
      ReadPump J p (units ++ e :: later) h =
        some (h1, { forwarded := fwd, unregisterRequests := 1, connClosed := true })) ∧
    ∀ k, ∃ hk fk, ReadPump J p (units.take k) h =
      some (hk, { forwarded := fk, unregisterRequests := 0, connClosed := false }) := by
  have key : ∀ us : List Inbound, (∀ i ∈ us, ∃ m, i.result = ReadResult.envelope m) →
      ∃ h1 fwd,
        ReadPump J p us h =
          some (h1, { forwarded := fwd, unregisterRequests := 0, connClosed := false }) ∧
        ReadPump J p (us ++ e :: later) h =
          some (h1, { forwarded := fwd, unregisterRequests := 1, connClosed := true }) := by
    intro us hus
    obtain ⟨h1, c1, fwd, -, -, hrun⟩ := ReadPump_envelopes J p us hus hc hopen
    refine ⟨h1, fwd, ?_, ?_⟩
    · have e1 := hrun []
      rw [List.append_nil] at e1
      rw [e1]
      simp [ReadPump]
    · rw [hrun (e :: later)]
      rcases herr with e2 | e2 <;> simp [ReadPump, e2]
  refine ⟨key units hunits, fun k => ?_⟩
  obtain ⟨hk, fk, hs, -⟩ := key (units.take k) fun i hi => hunits i (List.mem_of_mem_take hi)
  exact ⟨hk, fk, hs⟩

theorem C24_teardown_once_witness :
    ∃ h1 fwd,
      ReadPump demoCodec 0
          [{ result := ReadResult.envelope
               { ID := "x", Type_ := MessageTypePong, UserID := 0, Timestamp := 0, Data := [] },
             msgID := "s1", now := 50, errID := "e1", errNow := 51 }]
          scenarioA =
        some (h1, { forwarded := fwd, unregisterRequests := 0, connClosed := false }) ∧
      ReadPump demoCodec 0
          ([{ result := ReadResult.envelope
                { ID := "x", Type_ := MessageTypePong, UserID := 0, Timestamp := 0, Data := [] },
              msgID := "s1", now := 50, errID := "e1", errNow := 51 }] ++
            { result := ReadResult.transportError, msgID := "s2", now := 52, errID := "e2",
              errNow := 53 } :: [])
          scenarioA =
        some (h1, { forwarded := fwd, unregisterRequests := 1, connClosed := true }) :=
  (C24_teardown_once demoCodec 0 scenarioA
    { ID := 1, UserID := 10,
      Send := { buf := ["connect".toList], cap := 256, closed := false },
      Rooms := ["guild:7"] }
    [{ result := ReadResult.envelope
         { ID := "x", Type_ := MessageTypePong, UserID := 0, Timestamp := 0, Data := [] },
       msgID := "s1", now := 50, errID := "e1", errNow := 51 }]
    { result := ReadResult.transportError, msgID := "s2", now := 52, errID := "e2",
      errNow := 53 }
    [] (by rfl) (by rfl)
    (fun i hi => by
      rw [List.mem_singleton] at hi
      subst hi
      exact ⟨_, rfl⟩)
    (Or.inl rfl)).1

/-! ## Locking -/

theorem serialized_removeFromRoomLocks (h : Hub) (p : Ptr) (r : String) (n : Nat)
    (t : List LockEvent) :
    serialized true n (removeFromRoomLocks h p r ++ t) = serialized true n t := by
  unfold removeFromRoomLocks
  cases mapGet h.rooms r with
  | none => rfl
  | some room =>
    by_cases he : (setDel room.Clients p).length = 0 <;> simp [he, serialized]

theorem serialized_removeFromRoomsLocks (p : Ptr) (rs : List String) :
    ∀ (h : Hub) (n : Nat) (t : List LockEvent),
      serialized true n (removeFromRoomsLocks p rs h ++ t) = serialized true n t := by
  induction rs with
  | nil => intro h n t; rfl
  | cons r rs ih =>
    intro h n t
    simp only [removeFromRoomsLocks, List.append_assoc, serialized_removeFromRoomLocks]
    cases removeFromRoom h p r with
    | none => rfl
    | some h1 => exact ih h1 n t

/-- C25 (the code at the failing input): `registerClient`, `unregisterClient`
and `JoinRoom` write to the registries only while they hold the hub lock, and
take it while holding no room lock; `removeFromRoom` keeps the discipline when
its caller holds the hub lock; `LeaveRoom` calls it without taking the hub
lock, and when connection A, the only member of `guild:7`, leaves, the room is
deleted from the room registry while no hub lock is held. -/
theorem C25_leave_room_writes_unlocked :
    serialized false 0 registerClientLocks = true ∧
    (∀ (h : Hub) (p : Ptr), serialized false 0 (unregisterClientLocks h p) = true) ∧
    (∀ (h : Hub) (p : Ptr) (r : String), serialized false 0 (JoinRoomLocks h p r) = true) ∧
    (∀ (h : Hub) (p : Ptr) (r : String),
      serialized true 0 (removeFromRoomLocks h p r) = true) ∧
    LeaveRoomLocks scenarioA 0 "guild:7" =
      [LockEvent.roomLock "guild:7", LockEvent.roomUnlock "guild:7",
       LockEvent.clientLock 0, LockEvent.clientUnlock 0, LockEvent.writeRooms] ∧
    serialized false 0 (LeaveRoomLocks scenarioA 0 "guild:7") = false ∧
    mapGet scenarioA.rooms "guild:7" = some { ID := "guild:7", Clients := [0] } ∧
    (LeaveRoom scenarioA 0 "guild:7").map Hub.rooms = some [] := by
  refine ⟨rfl, fun h p => ?_, fun h p r => ?_, fun h p r => ?_, rfl, rfl, rfl, rfl⟩
  · unfold unregisterClientLocks
    cases h.heap[p]? with
    | none => rfl
    | some c =>
      dsimp only
      cases mapGet h.clients c.ID with
      | none => rfl
      | some q =>
        show serialized true 0
            (removeFromRoomsLocks p c.Rooms h ++
              [LockEvent.writeClients, LockEvent.hubUnlock]) = true
        rw [serialized_removeFromRoomsLocks]
        rfl
  · unfold JoinRoomLocks
    cases mapGet h.rooms r <;> rfl
  · have e := serialized_removeFromRoomLocks h p r 0 []
    rw [List.append_nil] at e
    rw [e]
    rfl

/-! ## The frame of unregisterClient -/

theorem withoutMember_idem (p : Ptr) (x : Option Room) :
    withoutMember p (withoutMember p x) = withoutMember p x := by
  cases x with
  | none => rfl
  | some room =>
    have e : setDel (setDel room.Clients p) p = setDel room.Clients p :=
      setDel_of_not_mem fun hm => ((mem_setDel _ _ _).mp hm).2 rfl
    by_cases he : (setDel room.Clients p).length = 0
    · simp [withoutMember, he]
    · simp [withoutMember, he, e]

theorem removeFromRoom_mapGet {h h1 : Hub} {p : Ptr} {r0 : String}
    (hs : removeFromRoom h p r0 = some h1) (r : String) :
    mapGet h1.rooms r =
      if r = r0 then withoutMember p (mapGet h.rooms r) else mapGet h.rooms r := by
  rcases removeFromRoom_eq hs with ⟨hg, e⟩ | ⟨room, c, hg, -, -, -, hcase⟩
  · subst e
    by_cases hr : r = r0
    · subst hr
      simp [hg, withoutMember]
    · simp [hr]
  · by_cases hr : r = r0
    · subst hr
      rcases hcase with ⟨he, e⟩ | ⟨he, e⟩
      · simp [e, hg, withoutMember, he, mapGet_mapDelete_self]
      · simp [e, hg, withoutMember, he, mapGet_mapSet_self]
    · rcases hcase with ⟨-, e⟩ | ⟨-, e⟩
      · simp [e, hr, mapGet_mapDelete_ne _ hr]
      · simp [e, hr, mapGet_mapSet_ne _ _ hr]

theorem removeFromRooms_mapGet (p : Ptr) (rs : List String) :
    ∀ {h h1 : Hub}, removeFromRooms p rs h = some h1 → ∀ r,
      mapGet h1.rooms r =
        if r ∈ rs then withoutMember p (mapGet h.rooms r) else mapGet h.rooms r := by
  induction rs with
  | nil =>
    intro h h1 hs r
    simp only [removeFromRooms, Option.some.injEq] at hs
    subst hs
    simp
  | cons r0 rs ih =>
    intro h h1 hs r
    unfold removeFromRooms at hs
    cases hstep : removeFromRoom h p r0 with
    | none => simp [hstep] at hs
    | some h2 =>
      simp only [hstep] at hs
      rw [ih hs r, removeFromRoom_mapGet hstep r]
      by_cases h0 : r = r0 <;> by_cases h1 : r ∈ rs <;>
        simp [h0, h1, withoutMember_idem]

theorem unregisteredMember_reachable : Reachable demoCodec unregisteredMember :=
  Reachable.join 1 "guild:7"
    (Reachable.newClient 2 10
      (Reachable.join 0 "guild:7" stepA2_reachable (by rfl))
      (by decide))
    (by rfl)

/-- C28 (the claim fails): connection B is a member of `guild:7` next to A but
is not in the client registry; `unregisterClient` on B changes nothing, so the
room, which has the other member A, still holds B afterwards. -/
theorem C28_unregistered_member_counterexample :
    Reachable demoCodec unregisteredMember ∧
    mapGet unregisteredMember.rooms "guild:7" = some { ID := "guild:7", Clients := [0, 1] } ∧
    ∃ h1, unregisterClient unregisteredMember 1 = some h1 ∧
      mapGet h1.rooms "guild:7" = some { ID := "guild:7", Clients := [0, 1] } ∧
      mapGet h1.rooms "guild:7" ≠
        some { ID := "guild:7", Clients := setDel [0, 1] 1 } :=
  ⟨unregisteredMember_reachable, rfl, _, rfl, rfl, by decide⟩

/-- C28 (amended): unregistering one connection does not disturb the others.
In every reachable state and for every client `c`, `unregisterClient(c)`
returns; afterwards every other client is registered if and only if it was
before and is itself unchanged (rooms, queue contents, open status); when `c`
was registered, every room that had a member other than `c` still exists with
exactly its previous members minus `c`; when `c` was not registered, nothing
changes. -/
theorem C28_unregister_frame (J : Codec) (h : Hub) (hr : Reachable J h) (p : Ptr) (c : Client)
    (hc : h.heap[p]? = some c) :
    ∃ h1, unregisterClient h p = some h1 ∧
      (∀ q, q ≠ p → (Registered h1 q ↔ Registered h q) ∧ h1.heap[q]? = h.heap[q]?) ∧
      (Registered h p → ∀ r room, mapGet h.rooms r = some room →
        (∃ q, q ∈ room.Clients ∧ q ≠ p) →
        mapGet h1.rooms r = some { room with Clients := setDel room.Clients p }) ∧
      (¬ Registered h p → h1 = h) := by
  have inv := inv_of_reachable hr
  cases hg : mapGet h.clients c.ID with
  | none =>
    refine ⟨h, by simp [unregisterClient, hc, hg], fun q _ => ⟨Iff.rfl, rfl⟩, fun hreg => ?_,
      fun _ => rfl⟩
    obtain ⟨c1, hc1, hreg1⟩ := hreg
    rw [hc] at hc1
    cases hc1
    rw [hg] at hreg1
    cases hreg1
  | some q0 =>
    obtain ⟨h1, hs, -⟩ := unregisterClient_registered inv hc hg
    have hp : q0 = p := (registered_ptr inv hc hg).1
    subst hp
    obtain ⟨c0, hc0, hcase⟩ := unregisterClient_eq hs
    rw [hc] at hc0
    cases hc0
    rcases hcase with ⟨hn, -⟩ | ⟨q, h2, c2, -, hrooms, -, -, e⟩
    · rw [hg] at hn
      cases hn
    have hcl : h2.clients = h.clients := (removeFromRooms_rel q0 c.Rooms hrooms).1
    have hcl1 : h1.clients = mapDelete h.clients c.ID := by rw [e, hcl]
    have hr1 : h1.rooms = h2.rooms := by rw [e]
    refine ⟨h1, hs, fun q hq => ?_, fun _ r room hroom hother => ?_, fun hnot => ?_⟩
    · have hf : h1.heap[q]? = h.heap[q]? := unregisterClient_frame hs hq
      refine ⟨?_, hf⟩
      have hkey : ∀ d, h.heap[q]? = some d →
          mapGet h1.clients d.ID = mapGet h.clients d.ID := by
        intro d hd
        rw [hcl1]
        exact mapGet_mapDelete_ne _ fun hid => hq (inv.heap.ids q q0 d c hd hc hid)
      constructor
      · rintro ⟨d, hd, hreg⟩
        rw [hf] at hd
        exact ⟨d, hd, by rw [← hkey d hd]; exact hreg⟩
      · rintro ⟨d, hd, hreg⟩
        exact ⟨d, by rw [hf]; exact hd, by rw [hkey d hd]; exact hreg⟩
    · rw [hr1, removeFromRooms_mapGet q0 c.Rooms hrooms r, hroom]
      obtain ⟨q, hq, hne⟩ := hother
      have hlen : (setDel room.Clients q0).length ≠ 0 := by
        intro h0
        have hm : q ∈ setDel room.Clients q0 := (mem_setDel _ _ _).mpr ⟨hq, hne⟩
        rw [List.length_eq_zero.mp h0] at hm
        cases hm
      by_cases hin : r ∈ c.Rooms
      · simp [hin, withoutMember, hlen]
      · have hnm : q0 ∉ room.Clients := fun hm =>
          hin (by
            obtain ⟨c1, hc1, hr2⟩ := (inv.rooms.sym q0 r).mp ⟨room, hroom, hm⟩
            rw [hc] at hc1
            cases hc1
            exact hr2)
        simp [hin, setDel_of_not_mem hnm]
    · exact absurd ⟨c, hc, hg⟩ hnot

theorem C28_unregister_frame_witness :
    ∃ h1, unregisterClient scenarioA 0 = some h1 ∧
      (Registered h1 1 ↔ Registered scenarioA 1) ∧ h1.heap[1]? = scenarioA.heap[1]? := by
  obtain ⟨h1, hs, hframe, -⟩ :=
    C28_unregister_frame demoCodec scenarioA scenarioA_reachable 0
      { ID := 1, UserID := 10,
        Send := { buf := ["connect".toList], cap := 256, closed := false },
        Rooms := ["guild:7"] }
      (by rfl)
  exact ⟨h1, hs, hframe 1 (by decide)⟩

/-! ## The frame of routing -/

theorem rangeSend_targets_open (cond : Client → Bool) (data : Bytes) (ps : List Ptr) :
    ∀ {heap heap1 : List Client}, rangeSend cond data ps heap = some heap1 → ps.Nodup →
      ∀ p ∈ ps, ∃ c, heap[p]? = some c ∧ (cond c = true → c.Send.closed = false) := by
  induction ps with
  | nil => intro _ _ _ _ p hp; cases hp
  | cons p0 ps ih =>
    intro heap heap1 hs hnd p hp
    obtain ⟨hnot, hnd1⟩ := List.nodup_cons.mp hnd
    unfold rangeSend at hs
    cases hc : heap[p0]? with
    | none => simp [hc] at hs
    | some c =>
      simp only [hc] at hs
      by_cases hcond : cond c = true
      · simp only [hcond, if_true] at hs
        cases hsend : sendTo heap p0 data with
        | none => simp [hsend] at hs
        | some heap2 =>
          simp only [hsend] at hs
          obtain ⟨c1, hc1, hopen, e⟩ := sendTo_eq hsend
          rw [hc] at hc1
          cases hc1
          rcases List.mem_cons.mp hp with e1 | hmem
          · subst e1
            exact ⟨c, hc, fun _ => hopen⟩
          · obtain ⟨d, hd, ho⟩ := ih hs hnd1 p hmem
            have hne : p0 ≠ p := fun e2 => hnot (e2 ▸ hmem)
            rw [e, List.getElem?_set_ne hne] at hd
            exact ⟨d, hd, ho⟩
      · simp only [hcond] at hs
        rcases List.mem_cons.mp hp with e1 | hmem
        · subst e1
          exact ⟨c, hc, fun h1 => absurd h1 hcond⟩
        · exact ih hs hnd1 p hmem

theorem rangeSend_atMostOne {h : Hub} {cond : Client → Bool} {data : Bytes} {ps : List Ptr}
    {heap1 : List Client} (hs : rangeSend cond data ps h.heap = some heap1) (hnd : ps.Nodup) :
    AtMostOne h { h with heap := heap1 } := by
  obtain ⟨heap2, hs2, hlen, hall⟩ :=
    rangeSend_spec cond data ps h.heap hnd (rangeSend_targets_open cond data ps hs hnd)
  rw [hs] at hs2
  cases hs2
  refine ⟨rfl, rfl, hlen, fun p c hc => ?_⟩
  rw [hall p c hc]
  by_cases ht : p ∈ ps ∧ cond c = true
  · rw [if_pos ht]
    by_cases hl : c.Send.buf.length < c.Send.cap
    · exact Or.inr ⟨data, by rw [offer_of_lt data hl]⟩
    · exact Or.inl (by rw [offer_of_not_lt data hl])
  · rw [if_neg ht]
    exact Or.inl rfl

theorem AtMostOne.refl_step (h : Hub) : AtMostOne h h :=
  ⟨rfl, rfl, rfl, fun _ _ hc => Or.inl hc⟩

theorem registrySend_atMostOne {h h1 : Hub} (inv : Inv h) {cond : Client → Bool}
    {data : Bytes}
    (hs : (match rangeSend cond data (h.clients.map Prod.snd) h.heap with
           | none => none
           | some heap1 => some { h with heap := heap1 }) = some h1) : AtMostOne h h1 := by
  cases hr : rangeSend cond data (h.clients.map Prod.snd) h.heap with
  | none => simp [hr] at hs
  | some heap1 =>
    simp only [hr, Option.some.injEq] at hs
    subst hs
    exact rangeSend_atMostOne hr (registry_targets inv).1

theorem broadcastToAll_atMostOne {J : Codec} {h h1 : Hub} {m : Message} (inv : Inv h)
    (hs : broadcastToAll J h m = some h1) : AtMostOne h h1 := by
  unfold broadcastToAll at hs
  cases hm : J.marshal m with
  | none =>
    simp only [hm, Option.some.injEq] at hs
    subst hs
    exact AtMostOne.refl_step h
  | some data =>
    simp only [hm] at hs
    exact registrySend_atMostOne inv hs

theorem sendToUser_atMostOne {J : Codec} {h h1 : Hub} {u : UUID} {m : Message} (inv : Inv h)
    (hs : sendToUser J h u m = some h1) : AtMostOne h h1 := by
  unfold sendToUser at hs
  cases hm : J.marshal m with
  | none =>
    simp only [hm, Option.some.injEq] at hs
    subst hs
    exact AtMostOne.refl_step h
  | some data =>
    simp only [hm] at hs
    exact registrySend_atMostOne inv hs

theorem pingClients_atMostOne {J : Codec} {h h1 : Hub} {msgID : String} {now : Nat}
    (inv : Inv h) (hs : pingClients J h msgID now = some h1) : AtMostOne h h1 := by
  unfold pingClients at hs
  cases hm : J.marshal { ID := msgID, Type_ := MessageTypePing, UserID := 0,
                         Timestamp := now, Data := [] } with
  | none =>
    simp only [hm, Option.some.injEq] at hs
    subst hs
    exact AtMostOne.refl_step h
  | some data =>
    simp only [hm] at hs
    exact registrySend_atMostOne inv hs

theorem broadcastToRoom_atMostOne {J : Codec} {h h1 : Hub} {m : Message} (inv : Inv h)
    (hs : broadcastToRoom J h m = some h1) : AtMostOne h h1 := by
  unfold broadcastToRoom at hs
  cases hu : J.unmarshalRoomID m.Data with
  | none =>
    simp only [hu, Option.some.injEq] at hs
    subst hs
    exact AtMostOne.refl_step h
  | some r =>
    simp only [hu] at hs
    cases hg : mapGet h.rooms r with
    | none =>
      simp only [hg, Option.some.injEq] at hs
      subst hs
      exact AtMostOne.refl_step h
    | some room =>
      simp only [hg] at hs
      cases hm : J.marshal m with
      | none =>
        simp only [hm, Option.some.injEq] at hs
        subst hs
        exact AtMostOne.refl_step h
      | some data =>
        simp only [hm] at hs
        cases hr : rangeSend (fun _ => true) data room.Clients h.heap with
        | none => simp [hr] at hs
        | some heap1 =>
          simp only [hr, Option.some.injEq] at hs
          subst hs
          exact rangeSend_atMostOne hr (inv.rooms.members r room hg)

theorem handleMessage_atMostOne {J : Codec} {h h1 : Hub} {m : Message} (inv : Inv h)
    (hs : handleMessage J h m = some h1) : AtMostOne h h1 := by
  unfold handleMessage at hs
  split at hs
  · exact broadcastToRoom_atMostOne inv hs
  · split at hs
    · exact sendToUser_atMostOne inv hs
    · exact broadcastToAll_atMostOne inv hs

theorem broadcastToRoom_total (J : Codec) {h : Hub} (inv : Inv h) (m : Message)
    (hopen : ∀ p r, Member h p r → queueOpen h p = true) :
    ∃ h1, broadcastToRoom J h m = some h1 := by
  cases hu : J.unmarshalRoomID m.Data with
  | none => exact ⟨h, by simp [broadcastToRoom, hu]⟩
  | some r =>
    cases hg : mapGet h.rooms r with
    | none => exact ⟨h, by simp [broadcastToRoom, hu, hg]⟩
    | some room =>
      cases hm : J.marshal m with
      | none => exact ⟨h, by simp [broadcastToRoom, hu, hg, hm]⟩
      | some data =>
        obtain ⟨h1, hs, -⟩ := broadcastToRoom_spec J inv hu hg hm
          fun p hp => hopen p r ⟨room, hg, hp⟩
        exact ⟨h1, hs⟩

/-- C30: routing never mutates membership state.  In every reachable state,
whenever `handleMessage` (on an envelope of any type) or `pingClients`
returns, the client registry and the room registry with its member sets are
as before, and every client is as before (id, user, rooms, open status)
except that its queue is either unchanged or has exactly one message appended
at the tail; `pingClients` always returns, and `handleMessage` returns when
every room member has an open queue. -/
theorem C30_routing_frame (J : Codec) (h : Hub) (hr : Reachable J h) :
    (∀ m h1, handleMessage J h m = some h1 → AtMostOne h h1) ∧
    (∀ msgID now h1, pingClients J h msgID now = some h1 → AtMostOne h h1) ∧
    (∀ msgID now, ∃ h1, pingClients J h msgID now = some h1) ∧
    ((∀ p r, Member h p r → queueOpen h p = true) →
      ∀ m, ∃ h1, handleMessage J h m = some h1) := by
  have inv := inv_of_reachable hr
  refine ⟨fun m h1 hs => handleMessage_atMostOne inv hs,
    fun msgID now h1 hs => pingClients_atMostOne inv hs,
    fun msgID now => pingClients_total J inv msgID now, fun hopen m => ?_⟩
  unfold handleMessage
  split
  · exact broadcastToRoom_total J inv m hopen
  · split
    · exact sendToUser_total J inv _ m
    · exact broadcastToAll_total J inv m

theorem C30_routing_frame_witness :
    ∃ h1, handleMessage demoCodec scenarioA
        { ID := "m9", Type_ := MessageTypeChatGuild, UserID := 10, Timestamp := 9,
          Data := "guild:7".toList } = some h1 ∧
      AtMostOne scenarioA h1 := by
  obtain ⟨hframe, -, -, htotal⟩ := C30_routing_frame demoCodec scenarioA scenarioA_reachable
  obtain ⟨h1, hs⟩ := htotal
    (fun p r hm => by
      obtain ⟨c, hc, ho⟩ := (registry_targets (inv_of_reachable scenarioA_reachable)).2.2 p (by
        obtain ⟨room, hg, hp⟩ := hm
        have hk : r = "guild:7" := by
          have hmem := mem_of_mapGet _ hg
          have e : scenarioA.rooms = [("guild:7", { ID := "guild:7", Clients := [0] })] := rfl
          rw [e, List.mem_singleton] at hmem
          exact (Prod.mk.inj hmem).1
        subst hk
        have e : mapGet scenarioA.rooms "guild:7" =
            some { ID := "guild:7", Clients := [0] } := rfl
        rw [e] at hg
        cases hg
        have e2 : scenarioA.clients.map Prod.snd = [0, 1] := rfl
        rw [e2]
        simp at hp
        simp [hp])
      exact queueOpen_iff.mpr ⟨c, hc, ho⟩)
    { ID := "m9", Type_ := MessageTypeChatGuild, UserID := 10, Timestamp := 9,
      Data := "guild:7".toList }
  exact ⟨h1, hs, hframe _ h1 hs⟩

/-! ## Delivery to a room with a closed member -/

theorem closedMemberRoom_reachable : Reachable demoCodec closedMemberRoom :=
  Reachable.join 1 "user:10"
    (Reachable.register 1 "c2" 101
      (Reachable.newClient 2 10 lateJoin_reachable (by decide))
      (by rfl))
    (by rfl)

/-- C7 (the code at the failing input): room-scoped delivery reaches the
members of the room, and only them, whenever the queues of the members are
open; but the personal room `user:10` holds connection A, whose queue
`unregisterClient` closed, next to connection B, whose queue is open and not
full, and `handleMessage` on a chat envelope for that room sends on the closed
channel: it panics, and B is not served. -/
theorem C7_closed_member_blocks_room :
    (∀ (J : Codec) (h : Hub) (m : Message) (data : Bytes) (r : String) (room : Room),
      Reachable J h →
      m.Type_ = MessageTypeChatGuild ∨ m.Type_ = MessageTypeChatDistrict →
      J.unmarshalRoomID m.Data = some r → mapGet h.rooms r = some room →
      J.marshal m = some data →
      (∀ p ∈ room.Clients, queueOpen h p = true) →
      ∃ h1, handleMessage J h m = some h1 ∧
        Delivered h h1 (fun p _ => Member h p r) data) ∧
    Reachable demoCodec closedMemberRoom ∧
    mapGet closedMemberRoom.rooms "user:10" = some { ID := "user:10", Clients := [0, 1] } ∧
    queueOpen closedMemberRoom 0 = false ∧
    closedMemberRoom.heap[1]? = some
      { ID := 2, UserID := 10,
        Send := { buf := ["connect".toList], cap := 256, closed := false },
        Rooms := ["user:10"] } ∧
    handleMessage demoCodec closedMemberRoom
        { ID := "m7", Type_ := MessageTypeChatGuild, UserID := 10, Timestamp := 9,
          Data := "user:10".toList } = none := by
  refine ⟨fun J h m data r room hr ht hu hg hm hopen => ?_, closedMemberRoom_reachable,
    rfl, rfl, rfl, rfl⟩
  obtain ⟨h1, hs, hd, -⟩ := room_delivery_of_open J h hr m data r room ht hu hg hm hopen
  exact ⟨h1, hs, hd⟩

/-- C10 (the code at the failing input): on reachable states `broadcastToAll`,
`sendToUser` and `pingClients` return, leave a full recipient's queue as it
was and append the message to every other targeted recipient; but
`broadcastToRoom` on the room `user:10`, which holds connection A with a
closed queue next to connection B with an open queue that is not full,
sends on the closed channel and panics, in whichever order the two members
are visited, so B does not get the message. -/
theorem C10_closed_member_starves_recipient :
    (∀ (J : Codec) (h : Hub) (m : Message) (data : Bytes),
      Reachable J h → J.marshal m = some data →
      (∃ h1, broadcastToAll J h m = some h1 ∧
        Delivered h h1 (fun p _ => Registered h p) data) ∧
      (∀ u, ∃ h1, sendToUser J h u m = some h1 ∧
        Delivered h h1 (fun p c => Registered h p ∧ c.UserID = u) data) ∧
      (∀ msgID now pdata,
        J.marshal { ID := msgID, Type_ := MessageTypePing, UserID := 0,
                    Timestamp := now, Data := [] } = some pdata →
        ∃ h1, pingClients J h msgID now = some h1 ∧
          Delivered h h1 (fun p _ => Registered h p) pdata)) ∧
    Reachable demoCodec closedMemberRoom ∧
    Member closedMemberRoom 1 "user:10" ∧
    queueOpen closedMemberRoom 1 = true ∧ queueLen closedMemberRoom 1 = 1 ∧
    Member closedMemberRoom 0 "user:10" ∧ queueOpen closedMemberRoom 0 = false ∧
    broadcastToRoom demoCodec closedMemberRoom
        { ID := "m7", Type_ := MessageTypeChatGuild, UserID := 10, Timestamp := 9,
          Data := "user:10".toList } = none ∧
    rangeSend (fun _ => true) "chat_guilduser:10".toList [0, 1] closedMemberRoom.heap = none ∧
    rangeSend (fun _ => true) "chat_guilduser:10".toList [1, 0] closedMemberRoom.heap = none := by
  refine ⟨fun J h m data hr hm => ?_, closedMemberRoom_reachable,
    ⟨{ ID := "user:10", Clients := [0, 1] }, rfl, by simp⟩, rfl, rfl,
    ⟨{ ID := "user:10", Clients := [0, 1] }, rfl, by simp⟩, rfl, rfl, rfl, rfl⟩
  obtain ⟨hall, huser, -, hping, -⟩ := overflow_drops_newest_of_open J h hr m data hm
  exact ⟨hall, huser, hping⟩

/-! ## Client-supplied identity -/

theorem ReadPumpStep_queueOnly {J : Codec} {h h1 : Hub} {p : Ptr} {m : Message}
    {msgID : String} {now : Nat} {errID : String} {errNow : Nat} {fwd : Option Message}
    (hs : ReadPumpStep J h p m msgID now errID errNow = some (h1, fwd)) : QueueOnly h h1 := by
  have herr : ∀ (jd : Bytes) (f : Option Message),
      (match sendError J h p jd errID errNow with
       | none => none
       | some h2 => some (h2, f)) = some (h1, fwd) → QueueOnly h h1 := by
    intro jd f he
    cases hse : sendError J h p jd errID errNow with
    | none => simp [hse] at he
    | some h2 =>
      simp only [hse, Option.some.injEq, Prod.mk.injEq] at he
      obtain ⟨e, -⟩ := he
      subst e
      exact sendError_queueOnly hse
  unfold ReadPumpStep at hs
  cases hc : h.heap[p]? with
  | none => simp [hc] at hs
  | some c =>
    simp only [hc] at hs
    split at hs
    · cases hs
      exact QueueOnly.refl_hub h
    · split at hs
      · split at hs
        · exact herr _ _ hs
        · split at hs
          · cases hs
            exact QueueOnly.refl_hub h
          · exact herr _ _ hs
      · split at hs
        · exact herr _ _ hs
        · cases hs
          exact QueueOnly.refl_hub h

theorem ReadPump_forwarded (J : Codec) (p : Ptr) (ins : List Inbound) :
    ∀ {h h1 : Hub} {c : Client} {log : ReadLog}, h.heap[p]? = some c →
      ReadPump J p ins h = some (h1, log) →
      ∀ f ∈ log.forwarded,
        f.UserID = c.UserID ∧ ∃ i ∈ ins, f.ID = i.msgID ∧ f.Timestamp = i.now := by
  induction ins with
  | nil =>
    intro h h1 c log _ hs f hf
    simp only [ReadPump, Option.some.injEq, Prod.mk.injEq] at hs
    obtain ⟨-, e⟩ := hs
    subst e
    cases hf
  | cons i ins ih =>
    intro h h1 c log hc hs f hf
    unfold ReadPump at hs
    cases hres : i.result with
    | envelope m =>
      simp only [hres] at hs
      cases hstep : ReadPumpStep J h p m i.msgID i.now i.errID i.errNow with
      | none => simp [hstep] at hs
      | some r =>
        obtain ⟨h2, fwd⟩ := r
        simp only [hstep] at hs
        cases hrest : ReadPump J p ins h2 with
        | none => simp [hrest] at hs
        | some r2 =>
          obtain ⟨h3, log2⟩ := r2
          simp only [hrest, Option.some.injEq, Prod.mk.injEq] at hs
          obtain ⟨-, e⟩ := hs
          subst e
          rcases List.mem_append.mp hf with hf1 | hf2
          · cases fwd with
            | none => cases hf1
            | some g =>
              have hg : f = g := by simpa using hf1
              subst hg
              have e := (ReadPumpStep_stamped J h p c m i.msgID i.now i.errID i.errNow hc).2
                h2 f hstep
              rw [e]
              exact ⟨rfl, i, List.mem_cons_self _ _, rfl, rfl⟩
          · obtain ⟨c2, hc2, hq⟩ := (ReadPumpStep_queueOnly hstep).2.2.2 p c hc
            obtain ⟨hu, j, hj, e1, e2⟩ := ih hc2 hrest f hf2
            exact ⟨hu.trans hq.2.1, j, List.mem_cons_of_mem _ hj, e1, e2⟩
    | undecodable =>
      simp only [hres, Option.some.injEq, Prod.mk.injEq] at hs
      obtain ⟨-, e⟩ := hs
      subst e
      cases hf
    | transportError =>
      simp only [hres, Option.some.injEq, Prod.mk.injEq] at hs
      obtain ⟨-, e⟩ := hs
      subst e
      cases hf

theorem ReadJSON_envelope {W : Wire} {u : RawUnit} {m : Message}
    (hd : ReadJSON W u = ReadResult.envelope m) :
    decodeString u.type_ = some m.Type_ ∧ m.Data = u.data := by
  unfold ReadJSON at hd
  split at hd
  · rename_i id t uid ts _ ht _ _
    cases hd
    exact ⟨ht, rfl⟩
  · cases hd

/-- C14 (the claim fails): two units that differ only in the `user_id` the
client supplied; connection A of scenario A sends them.  The one without a
user id is decoded, stamped and forwarded; the one whose user id is not the
text of a UUID makes `ReadJSON` fail, and `ReadPump` forwards nothing, sends
the unregister request and closes the connection. -/
theorem C14_undecodable_identity_counterexample :
    badUserUnit = { plainUnit with userID := Field.str "not-a-uuid" } ∧
    ReadPump demoCodec 0
        [{ result := ReadJSON demoWire plainUnit, msgID := "s1", now := 50, errID := "e1",
           errNow := 51 }]
        scenarioA =
      some (scenarioA,
        { forwarded := [{ ID := "s1", Type_ := MessageTypeChatGuild, UserID := 10,
                          Timestamp := 50, Data := "guild:7".toList }],
          unregisterRequests := 0, connClosed := false }) ∧
    ReadPump demoCodec 0
        [{ result := ReadJSON demoWire badUserUnit, msgID := "s1", now := 50, errID := "e1",
           errNow := 51 }]
        scenarioA =
      some (scenarioA, { forwarded := [], unregisterRequests := 1, connClosed := true }) :=
  ⟨rfl, by rfl, by rfl⟩

/-- C14 (amended): sender-supplied identity is never trusted once the unit is
decoded.  For every client and every two inbound units with the same type and
payload that `ReadJSON` both decodes, whatever id, user id and timestamp each
supplies, `ReadPump` does the same on both (same state, same decision, same
forwarded envelopes, same continuation); and every envelope `ReadPump`
forwards in any run carries the client's own `UserID` and the id from
`uuid.New()` and the time from `time.Now()` of the read it came with. -/
theorem C14_decoded_identity_stamped (J : Codec) (W : Wire) (p : Ptr) (h : Hub) (c : Client)
    (u u1 : RawUnit) (msgID : String) (now : Nat) (errID : String) (errNow : Nat)
    (rest : List Inbound) (hc : h.heap[p]? = some c)
    (htype : u1.type_ = u.type_) (hdata : u1.data = u.data)
    (hdec : ∃ m, ReadJSON W u = ReadResult.envelope m)
    (hdec1 : ∃ m, ReadJSON W u1 = ReadResult.envelope m) :
    ReadPump J p ({ result := ReadJSON W u1, msgID := msgID, now := now, errID := errID,
                    errNow := errNow } :: rest) h =
      ReadPump J p ({ result := ReadJSON W u, msgID := msgID, now := now, errID := errID,
                      errNow := errNow } :: rest) h ∧
    ∀ (ins : List Inbound) (h1 : Hub) (log : ReadLog), ReadPump J p ins h = some (h1, log) →
      ∀ f ∈ log.forwarded,
        f.UserID = c.UserID ∧ ∃ i ∈ ins, f.ID = i.msgID ∧ f.Timestamp = i.now := by
  refine ⟨?_, fun ins h1 log hs => ReadPump_forwarded J p ins hc hs⟩
  obtain ⟨m, hm⟩ := hdec
  obtain ⟨m1, hm1⟩ := hdec1
  obtain ⟨ht, hd⟩ := ReadJSON_envelope hm
  obtain ⟨ht1, hd1⟩ := ReadJSON_envelope hm1
  rw [htype, ht] at ht1
  have e : m1 = { m with ID := m1.ID, UserID := m1.UserID, Timestamp := m1.Timestamp } := by
    cases m
    cases m1
    simp only [Option.some.injEq] at ht1
    simp only at hd hd1
    simp [← ht1, hd, hd1, hdata]
  have hstep : ReadPumpStep J h p m1 msgID now errID errNow =
      ReadPumpStep J h p m msgID now errID errNow := by
    rw [e]
    exact (ReadPumpStep_stamped J h p c m msgID now errID errNow hc).1 m1.ID m1.UserID
      m1.Timestamp
  rw [hm, hm1]
  simp only [ReadPump, hstep]

theorem C14_decoded_identity_stamped_witness :
    ReadPump demoCodec 0
        [{ result := ReadJSON demoWire forgedUnit, msgID := "s1", now := 50, errID := "e1",
           errNow := 51 }]
        scenarioA =
      ReadPump demoCodec 0
        [{ result := ReadJSON demoWire plainUnit, msgID := "s1", now := 50, errID := "e1",
           errNow := 51 }]
        scenarioA :=
  (C14_decoded_identity_stamped demoCodec demoWire 0 scenarioA
    { ID := 1, UserID := 10,
      Send := { buf := ["connect".toList], cap := 256, closed := false },
      Rooms := ["guild:7"] }
    plainUnit forgedUnit "s1" 50 "e1" 51 [] (by rfl) rfl rfl ⟨_, rfl⟩ ⟨_, rfl⟩).1

/-! ## Server-originated types sent by a client -/

/-- C17 (the code at the failing input): the switch of `ReadPump` has no case
for `resource_update`, `building_update`, `district_update`, `guild_update`
and `battle_event`, so an inbound envelope of one of these types is stamped
and forwarded to the hub; connection A of user 10 sends a `battle_event`, and
`handleMessage` appends it to the queue of connection C of user 20. -/
theorem C17_server_types_forwarded :
    (∀ (J : Codec) (h : Hub) (p : Ptr) (c : Client) (m : Message) (msgID : String)
        (now : Nat) (errID : String) (errNow : Nat) (rest : List Inbound),
      h.heap[p]? = some c →
      m.Type_ = MessageTypeResourceUpdate ∨ m.Type_ = MessageTypeBuildingUpdate ∨
        m.Type_ = MessageTypeDistrictUpdate ∨ m.Type_ = MessageTypeGuildUpdate ∨
        m.Type_ = MessageTypeBattleEvent →
      ReadPump J p ({ result := ReadResult.envelope m, msgID := msgID, now := now,
                      errID := errID, errNow := errNow } :: rest) h =
        (ReadPump J p rest h).map fun r =>
          (r.1, { r.2 with forwarded :=
            { ID := msgID, Type_ := m.Type_, UserID := c.UserID, Timestamp := now,
              Data := m.Data } :: r.2.forwarded })) ∧
    ReadPump demoCodec 0
        [{ result := ReadResult.envelope
             { ID := "x", Type_ := MessageTypeBattleEvent, UserID := 0, Timestamp := 0,
               Data := "won".toList },
           msgID := "s1", now := 50, errID := "e1", errNow := 51 }]
        scenarioTwoUsers =
      some (scenarioTwoUsers,
        { forwarded := [{ ID := "s1", Type_ := MessageTypeBattleEvent, UserID := 10,
                          Timestamp := 50, Data := "won".toList }],
          unregisterRequests := 0, connClosed := false }) ∧
    ∃ h1, handleMessage demoCodec scenarioTwoUsers
        { ID := "s1", Type_ := MessageTypeBattleEvent, UserID := 10, Timestamp := 50,
          Data := "won".toList } = some h1 ∧
      h1.heap[1]? = some
        { ID := 3, UserID := 20,
          Send := { buf := ["connect".toList, "battle_eventwon".toList], cap := 256,
                    closed := false },
          Rooms := [] } := by
  refine ⟨fun J h p c m msgID now errID errNow rest hc ht => ?_, by rfl, _, rfl, rfl⟩
  exact ReadPump_envelope J p msgID now errID errNow rest
    ((server_types_screening J h p c m msgID now errID errNow hc).1 ht)

end Websocket

namespace Auth

/-! ## Telegram init data -/

theorem wrapInt64_of_range {x : Int} (hlo : -(2 ^ 63) ≤ x) (hhi : x < 2 ^ 63) :
    wrapInt64 x = x := by
  unfold wrapInt64
  have e : (x + 2 ^ 63) % 2 ^ 64 = x + 2 ^ 63 := Int.emod_eq_of_lt (by omega) (by omega)
  omega

theorem Values.Get_Del_ne (v : Values) {k key : String} (hne : key ≠ k) :
    (v.Del k).Get key = v.Get key := by
  induction v with
  | nil => rfl
  | cons e v ih =>
    obtain ⟨k1, vs⟩ := e
    by_cases h1 : k1 = k
    · subst h1
      have h2 : ¬ k1 = key := fun e => hne e.symm
      simpa [Values.Del, Values.Get, h2] using ih
    · by_cases h2 : k1 = key
      · subst h2
        simp [Values.Del, Values.Get, h1, List.filter]
      · simpa [Values.Del, Values.Get, h1, h2] using ih

theorem parseUserAndCanSendAfter_authDate {L : Lib} {values : Values}
    {a b : TelegramAuthData} (hs : parseUserAndCanSendAfter L values a = Except.ok b) :
    b.AuthDate = a.AuthDate := by
  unfold parseUserAndCanSendAfter at hs
  by_cases hu : values.Get "user" ≠ ""
  · cases hp : L.unmarshalUser (values.Get "user") with
    | none => simp [hu, hp] at hs
    | some user =>
      by_cases hcs : values.Get "can_send_after" ≠ ""
      · cases ha : L.atoi (values.Get "can_send_after") with
        | none => simp [hu, hp, hcs, ha] at hs
        | some n =>
          simp [hu, hp, hcs, ha] at hs
          rw [← hs]
      · simp [hu, hp, hcs] at hs
        rw [← hs]
  · by_cases hcs : values.Get "can_send_after" ≠ ""
    · cases ha : L.atoi (values.Get "can_send_after") with
      | none => simp [hu, hcs, ha] at hs
      | some n =>
        simp [hu, hcs, ha] at hs
        rw [← hs]
    · simp [hu, hcs] at hs
      rw [← hs]

/-- C29 (the claim fails): init data that carries a hash and no `auth_date`
is accepted at time 1000 with `AuthDate` left at 0, which is more than 300
seconds before that time. -/
theorem C29_missing_auth_date_counterexample :
    (∃ values, demoLib.parseQuery initDataNoDate = some values ∧
      values.Get "auth_date" = "") ∧
    ∃ a, ValidateTelegramAuth demoLib initDataNoDate "token" 1000 = Except.ok a ∧
      a.AuthDate = 0 ∧ ¬ (1000 - a.AuthDate ≤ 300) :=
  ⟨⟨_, rfl, rfl⟩, _, rfl, rfl, by decide⟩

/-- C29 (amended): accepted Telegram init data that carries an `auth_date` is
not older than five minutes.  Whenever `ValidateTelegramAuth` returns auth
data without error, the init data parses, and either its `auth_date` field is
absent or empty and `AuthDate` is left at 0 (no age is checked), or the field
parses to the returned `AuthDate`, the 64-bit difference `now - AuthDate` is
at most 300, and so is the exact difference whenever it fits in 64 bits. -/
theorem C29_auth_date_fresh (L : Lib) (initData botToken : String) (now : Int)
    (a : TelegramAuthData)
    (hs : ValidateTelegramAuth L initData botToken now = Except.ok a) :
    ∃ values, L.parseQuery initData = some values ∧
      ((values.Get "auth_date" = "" ∧ a.AuthDate = 0) ∨
       (values.Get "auth_date" ≠ "" ∧
        L.parseInt (values.Get "auth_date") = some a.AuthDate ∧
        wrapInt64 (now - a.AuthDate) ≤ 300 ∧
        (-(2 ^ 63) ≤ now - a.AuthDate → now - a.AuthDate < 2 ^ 63 →
          now - a.AuthDate ≤ 300))) := by
  unfold ValidateTelegramAuth at hs
  cases hq : L.parseQuery initData with
  | none => simp [hq] at hs
  | some values =>
    refine ⟨values, rfl, ?_⟩
    have hget : (values.Del "hash").Get "auth_date" = values.Get "auth_date" :=
      Values.Get_Del_ne values (by decide)
    simp only [hq, hget] at hs
    split at hs
    · cases hs
    · split at hs
      · cases hs
      · by_cases hd : values.Get "auth_date" = ""
        · rw [if_neg (not_not.mpr hd)] at hs
          exact Or.inl ⟨hd, parseUserAndCanSendAfter_authDate hs⟩
        · rw [if_pos hd] at hs
          cases hp : L.parseInt (values.Get "auth_date") with
          | none => simp [hp] at hs
          | some authDate =>
            simp only [hp] at hs
            split at hs
            · cases hs
            · rename_i hold
              have e : a.AuthDate = authDate := parseUserAndCanSendAfter_authDate hs
              rw [e]
              refine Or.inr ⟨hd, rfl, not_lt.mp hold, fun hlo hhi => ?_⟩
              rw [wrapInt64_of_range hlo hhi] at hold
              exact not_lt.mp hold

theorem C29_auth_date_fresh_witness :
    ∃ values, demoLib.parseQuery initDataDated = some values ∧
      ((values.Get "auth_date" = "" ∧ (1000 : Int) = 0) ∨
       (values.Get "auth_date" ≠ "" ∧
        demoLib.parseInt (values.Get "auth_date") = some 1000 ∧
        wrapInt64 (1200 - 1000) ≤ 300 ∧
        (-(2 ^ 63) ≤ (1200 : Int) - 1000 → (1200 : Int) - 1000 < 2 ^ 63 →
          (1200 : Int) - 1000 ≤ 300))) :=
  C29_auth_date_fresh demoLib initDataDated "token" 1200
    { QueryID := "", User := none, AuthDate := 1000,
      Hash := "742e25e116da1139e0102837658422fe930a9a752ea40923294c562b2c81d73a",
      StartParam := "", CanSendAfter := 0, ChatType := "", ChatInstance := "" }
    (by rfl)

end Auth
